import Mathlib

/-!
# MBO to MBP-10 order book reconstruction

A shallow embedding of `src/orderbook.cpp`, `src/csv_parser.cpp`,
`src/src/orderbook.h` and the processing loop of `src/src/main.cpp`.

Modelling conventions.

* `int` and `long` fields are `Int`.  The arithmetic the book does on `int`
  values (`+=` on the totals of a level, unary minus on a stored size) is
  32-bit: the exact result is reduced by `wrapInt32` to the two's-complement
  value the compiled program holds.
* `double` prices are used by the book only as keys of `std::map` (compared
  with `<`) and are never added or scaled; a price is an `Int` number of ticks
  (hundredths), which is a total order like the finite doubles.
* `std::map<double, PriceLevel>` and `std::unordered_map<long, Order>` are
  association lists kept in ascending key order (`Table`).  The iteration
  order of the unordered map is never observed by the program.
* Member functions that mutate `*this` take the book and return the new book.
* A call that throws returns `none` (`std::length_error` from `reserve` in the
  level queries); memory is unbounded, so allocation itself never fails.
* Output lines are `String`s built in the order the source streams them; a
  price is rendered by `formatPrice` with two decimals.
* `src/csv_parser.cpp`: a line is its list of characters, `std::getline` is
  `getlineComma`, and the library conversions `std::stoi`, `std::stol`,
  `std::stod` are parameters of `parseLine`.
-/

namespace MBO

/-- A single MBO record (`struct MBORecord`). -/
structure MBORecord where
  ts_recv : String
  ts_event : String
  rtype : Int
  publisher_id : Int
  instrument_id : Int
  action : Char
  side : Char
  price : Int
  size : Int
  channel_id : Int
  order_id : Int
  flags : Int
  ts_in_delta : Int
  sequence : Int
  symbol : String
deriving DecidableEq, Repr

/-- Aggregated information of one price level (`struct PriceLevel`). -/
structure PriceLevel where
  price : Int
  total_size : Int
  order_count : Int
deriving DecidableEq, Repr

/-- An order resting in the book (`struct Order`). -/
structure Order where
  order_id : Int
  price : Int
  size : Int
  side : Char
deriving DecidableEq, Repr

/-- Key/value container with integer keys, in ascending key order. -/
abbrev Table (V : Type) := List (Int × V)

/-- Lookup by key (`find`): the value stored under `key`, if any. -/
def mapFind {V : Type} : Table V → Int → Option V
  | [], _ => none
  | (k, v) :: t, key => if key = k then some v else mapFind t key

/-- Assignment through `operator[]`: replaces the value stored under `key`, or
inserts a new entry at its place in key order. -/
def mapAssign {V : Type} : Table V → Int → V → Table V
  | [], key, v => [(key, v)]
  | (k, w) :: t, key, v =>
    if key < k then (key, v) :: (k, w) :: t
    else if key = k then (key, v) :: t
    else (k, w) :: mapAssign t key v

/-- Removal of the entry stored under `key` (`erase`). -/
def mapErase {V : Type} (m : Table V) (key : Int) : Table V :=
  m.filter (fun kv => decide (kv.1 ≠ key))

/-- The state of `class OrderBook`. -/
structure OrderBook where
  orders : Table Order
  bids : Table PriceLevel
  asks : Table PriceLevel
  pending_sequence : List MBORecord
deriving DecidableEq, Repr

/-- The freshly constructed book. -/
def OrderBook.empty : OrderBook := ⟨[], [], [], []⟩

/-- The value a 32-bit `int` holds after a computation whose exact result is `x`:
the representative of `x` modulo 2^32 in the range from -2^31 to 2^31 - 1. -/
def wrapInt32 (x : Int) : Int :=
  (x + 2147483648) % 4294967296 - 2147483648

/-- `OrderBook::updatePriceLevel` on one side's level map.  The two `+=` on the
`int` fields of an existing level are 32-bit additions; the deletion test reads
the fields after the additions. -/
def updatePriceLevel (levels : Table PriceLevel) (price size_delta count_delta : Int) :
    Table PriceLevel :=
  match mapFind levels price with
  | some lvl =>
    let upd : PriceLevel :=
      { lvl with total_size := wrapInt32 (lvl.total_size + size_delta),
                 order_count := wrapInt32 (lvl.order_count + count_delta) }
    if upd.order_count ≤ 0 ∨ upd.total_size ≤ 0 then mapErase levels price
    else mapAssign levels price upd
  | none =>
    if size_delta > 0 ∧ count_delta > 0 then
      mapAssign levels price ⟨price, size_delta, count_delta⟩
    else levels

/-- `OrderBook::addOrder`. -/
def addOrder (b : OrderBook) (record : MBORecord) : OrderBook :=
  let order : Order := ⟨record.order_id, record.price, record.size, record.side⟩
  let b1 : OrderBook := { b with orders := mapAssign b.orders record.order_id order }
  if record.side = 'B' then
    { b1 with bids := updatePriceLevel b1.bids record.price record.size 1 }
  else if record.side = 'A' then
    { b1 with asks := updatePriceLevel b1.asks record.price record.size 1 }
  else b1

/-- `OrderBook::cancelOrder`.  The size delta `-order.size` is a 32-bit `int`. -/
def cancelOrder (b : OrderBook) (record : MBORecord) : OrderBook :=
  match mapFind b.orders record.order_id with
  | some order =>
    let b1 : OrderBook :=
      if order.side = 'B' then
        { b with bids := updatePriceLevel b.bids order.price (wrapInt32 (-order.size)) (-1) }
      else if order.side = 'A' then
        { b with asks := updatePriceLevel b.asks order.price (wrapInt32 (-order.size)) (-1) }
      else b
    { b1 with orders := mapErase b1.orders record.order_id }
  | none => b

/-- `OrderBook::handleTradeSequence`. -/
def handleTradeSequence (b : OrderBook) (sequence : List MBORecord) : OrderBook :=
  match sequence with
  | [_trade, fill, _cancel] =>
    let actual_side := fill.side
    match mapFind b.orders fill.order_id with
    | some order =>
      let b1 : OrderBook :=
        if actual_side = 'B' then
          { b with bids := updatePriceLevel b.bids order.price (wrapInt32 (-order.size)) (-1) }
        else if actual_side = 'A' then
          { b with asks := updatePriceLevel b.asks order.price (wrapInt32 (-order.size)) (-1) }
        else b
      { b1 with orders := mapErase b1.orders fill.order_id }
    | none => b
  | _ => b

/-- The action code stored at index `i` of the pending buffer. -/
def actionAt (v : List MBORecord) (i : Nat) : Option Char :=
  (v.get? i).map (fun r => r.action)

/-- `OrderBook::processRecord`. -/
def processRecord (b : OrderBook) (record : MBORecord) : OrderBook :=
  if record.action = 'R' then b
  else if record.side = 'N' ∧ record.action = 'T' then b
  else if record.action = 'T' ∨ record.action = 'F' ∨ record.action = 'C' then
    let pending := b.pending_sequence ++ [record]
    let b1 : OrderBook := { b with pending_sequence := pending }
    let start := pending.length - 3
    if 3 ≤ pending.length ∧ actionAt pending start = some 'T' ∧
        actionAt pending (start + 1) = some 'F' ∧
        actionAt pending (start + 2) = some 'C' then
      let b2 := handleTradeSequence b1 (pending.drop start)
      { b2 with pending_sequence := pending.take start }
    else if record.action = 'C' then cancelOrder b1 record
    else b1
  else if record.action = 'A' then addOrder b record
  else if record.action = 'C' then cancelOrder b record
  else b

/-- The book after a feed: `processRecord` applied to each event in order. -/
def runFeed (b : OrderBook) (events : List MBORecord) : OrderBook :=
  events.foldl processRecord b

/-- Whether the pending buffer ends with a Trade entry followed by a Fill entry,
i.e. whether a Cancel-coded event appended next completes the T, F, C pattern. -/
def endsTradeFill (buf : List MBORecord) : Bool :=
  match buf.reverse with
  | f :: t :: _ => decide (t.action = 'T') && decide (f.action = 'F')
  | _ => false

/-- Helper `createRecord` of the unit tests: an event with the filler values
the tests use for the fields the book does not read. -/
def createRecord (ts_recv ts_event : String) (action side : Char) (price : Int) (size : Int)
    (order_id : Int) (symbol : String) : MBORecord :=
  { ts_recv := ts_recv, ts_event := ts_event,
    rtype := 160, publisher_id := 2, instrument_id := 1108,
    action := action, side := side, price := price, size := size,
    channel_id := 0, order_id := order_id, flags := 130,
    ts_in_delta := 165200, sequence := 851012, symbol := symbol }

/-- An event with the test timestamps and symbol. -/
def ev (action side : Char) (price size order_id : Int) : MBORecord :=
  createRecord "2025-01-01T10:00:00Z" "2025-01-01T10:00:00Z" action side price size order_id "TEST"

/-- A small book: two bids at one price, one ask, and a pending Trade, Fill pair. -/
def sampleBook : OrderBook :=
  runFeed OrderBook.empty
    [ev 'A' 'B' 10000 100 1, ev 'A' 'B' 10000 200 2, ev 'A' 'A' 10100 50 3,
     ev 'T' 'A' 10000 100 9, ev 'F' 'B' 10000 100 1]

/-- Every level stored in a side's level map has a positive total size and a
positive order count. -/
def LevelsPositive (m : Table PriceLevel) : Prop :=
  ∀ x ∈ m, 0 < x.2.total_size ∧ 0 < x.2.order_count

instance (m : Table PriceLevel) : Decidable (LevelsPositive m) := by
  unfold LevelsPositive; infer_instance

/-- The level map a side code selects: the bid map for B, the ask map for A,
and no levels for any other code. -/
def levelsOn (b : OrderBook) (side : Char) : Table PriceLevel :=
  if side = 'B' then b.bids else if side = 'A' then b.asks else []

/-- What a debit of `(-size, -1 order)` leaves of a level, in 32-bit `int`
arithmetic: nothing if there was no level, nothing if either reduced total is
zero or below, and otherwise the level with both totals reduced. -/
def debited (old : Option PriceLevel) (size : Int) : Option PriceLevel :=
  match old with
  | none => none
  | some l =>
    if wrapInt32 (l.order_count - 1) ≤ 0 ∨ wrapInt32 (l.total_size - size) ≤ 0 then none
    else some ⟨l.price, wrapInt32 (l.total_size - size), wrapInt32 (l.order_count - 1)⟩

/-- The live orders stored with side code `side` and price `price`. -/
def liveAt (os : Table Order) (side : Char) (price : Int) : List Order :=
  (os.map Prod.snd).filter (fun o => decide (o.side = side ∧ o.price = price))

/-- Sum of the sizes of the live orders stored with `side` and `price`. -/
def sizeSum (os : Table Order) (side : Char) (price : Int) : Int :=
  ((liveAt os side price).map (fun o => o.size)).sum

/-- Number of live orders stored with `side` and `price`. -/
def orderCnt (os : Table Order) (side : Char) (price : Int) : Int :=
  ((liveAt os side price).length : Int)

/-- The totals a level map holds at a price: `(total_size, order_count)` of the
level, and `(0, 0)` when there is no level. -/
def totals (m : Table PriceLevel) (price : Int) : Int × Int :=
  match mapFind m price with
  | some l => (l.total_size, l.order_count)
  | none => (0, 0)

/-- Keys in strictly ascending order (in particular, no key twice). -/
def KeysAscending {V : Type} (m : Table V) : Prop :=
  m.Pairwise (fun x y => x.1 < y.1)

instance {V : Type} (m : Table V) : Decidable (KeysAscending m) := by
  unfold KeysAscending; infer_instance

/-- An event is well formed against the book it is applied to: an Add carries a
positive size and an order id that is not live, and a Cancel-coded event that
completes the Trade, Fill, Cancel pattern finds a Fill entry whose side is the
stored side of the live order it names. -/
def eventOk (b : OrderBook) (r : MBORecord) : Bool :=
  if r.action = 'A' then
    decide (0 < r.size) && (mapFind b.orders r.order_id).isNone
  else if r.action = 'C' then
    match b.pending_sequence.reverse with
    | f :: t :: _ =>
      if t.action = 'T' ∧ f.action = 'F' then
        match mapFind b.orders f.order_id with
        | some o => decide (f.side = o.side)
        | none => true
      else true
    | _ => true
  else true

/-- A feed is well formed from a book when each event is well formed against
the book reached by the events before it. -/
def feedOk : OrderBook → List MBORecord → Bool
  | _, [] => true
  | b, r :: rs => eventOk b r && feedOk (processRecord b r) rs

/-- An Add event fits the `int` totals of the book it is applied to: on its side
and price, the sizes of the live orders plus its own size, and their number plus
one, do not exceed INT_MAX = 2147483647. -/
def eventFits (b : OrderBook) (r : MBORecord) : Bool :=
  if r.action = 'A' then
    decide (sizeSum b.orders r.side r.price + r.size < 2147483648) &&
    decide (orderCnt b.orders r.side r.price + 1 < 2147483648)
  else true

/-- Every Add event of the feed fits the book reached by the events before it. -/
def feedFits : OrderBook → List MBORecord → Bool
  | _, [] => true
  | b, r :: rs => eventFits b r && feedFits (processRecord b r) rs

/-- Aggregation invariant of the book: order ids are stored once, every stored
order has a positive size, at each side and price the sizes of the live orders
and their number sum to at most INT_MAX, stored levels are positive, and on each
side the totals held at every price are the sum of the sizes and the number of
the live orders stored with that side and price. -/
structure Aggregated (b : OrderBook) : Prop where
  keys : KeysAscending b.orders
  sizes : ∀ x ∈ b.orders, 0 < x.2.size
  bounded : ∀ s q, sizeSum b.orders s q < 2147483648 ∧ orderCnt b.orders s q < 2147483648
  posBids : LevelsPositive b.bids
  posAsks : LevelsPositive b.asks
  bidTotals : ∀ q, totals b.bids q = (sizeSum b.orders 'B' q, orderCnt b.orders 'B' q)
  askTotals : ∀ q, totals b.asks q = (sizeSum b.orders 'A' q, orderCnt b.orders 'A' q)

/-- The loop shared by `getBidLevels` and `getAskLevels`: walks the entries in
iteration order with the counter `i`, pushing the level of each entry while
`i < max_levels` and entries remain. -/
def collectLevels : List (Int × PriceLevel) → Int → Int → List PriceLevel
  | [], _, _ => []
  | (_, lvl) :: rest, i, max_levels =>
    if i < max_levels then lvl :: collectLevels rest (i + 1) max_levels else []

/-- `OrderBook::getBidLevels`.  The first statement, `result.reserve(max_levels)`,
converts the `int` to the unsigned `size_type`; a negative argument becomes a
value above `max_size()` and `reserve` throws `std::length_error` (`none`).
Otherwise the loop walks the bid map from `rbegin()`, highest key first. -/
def getBidLevels (b : OrderBook) (max_levels : Int) : Option (List PriceLevel) :=
  if max_levels < 0 then none
  else some (collectLevels b.bids.reverse 0 max_levels)

/-- `OrderBook::getAskLevels`: as `getBidLevels`, walking the ask map from
`begin()`, lowest key first. -/
def getAskLevels (b : OrderBook) (max_levels : Int) : Option (List PriceLevel) :=
  if max_levels < 0 then none
  else some (collectLevels b.asks 0 max_levels)

/-- Every level is stored under its own price. -/
def LevelsKeyed (m : Table PriceLevel) : Prop :=
  ∀ x ∈ m, x.2.price = x.1

instance (m : Table PriceLevel) : Decidable (LevelsKeyed m) := by
  unfold LevelsKeyed; infer_instance

/-- An arbitrary record `base` with the five fields the book reads replaced. -/
def withFields (base : MBORecord) (action side : Char) (price size order_id : Int) :
    MBORecord :=
  { base with action := action, side := side, price := price, size := size,
              order_id := order_id }

/-- Rendering of a price by `std::fixed << std::setprecision(2)`: a price of
`ticks` hundredths is written with its integer part, a point and two decimals. -/
def formatPrice (ticks : Int) : String :=
  (if ticks < 0 then "-" else "") ++ toString (ticks.natAbs / 100) ++ "." ++
    (if ticks.natAbs % 100 < 10 then "0" else "") ++ toString (ticks.natAbs % 100)

/-- The text one iteration `i` of the level loop of `generateMBPOutput` writes:
the bid level, the ask level, and a comma unless it is the last iteration. -/
def levelText (bid_levels ask_levels : List PriceLevel) (i : Nat) : String :=
  (match bid_levels[i]? with
    | some l =>
      formatPrice l.price ++ "," ++ toString l.total_size ++ "," ++ toString l.order_count ++ ","
    | none => ",0,0,") ++
  (match ask_levels[i]? with
    | some l =>
      formatPrice l.price ++ "," ++ toString l.total_size ++ "," ++ toString l.order_count
    | none => ",0,0") ++
  (if i < 9 then "," else "")

/-- `OrderBook::generateMBPOutput`, as defined in `orderbook.cpp`.  The header
declares a second parameter `row_index` and the callers pass it; the body never
uses it.  The result is `none` when one of the level queries throws. -/
def generateMBPOutput (b : OrderBook) (record : MBORecord) (_row_index : Int) : Option String :=
  let ss : String :=
    record.ts_recv ++ "," ++ record.ts_event ++ "," ++ "10," ++
    toString record.publisher_id ++ "," ++ toString record.instrument_id ++ "," ++
    record.action.toString ++ "," ++ record.side.toString ++ "," ++ "0," ++
    formatPrice record.price ++ "," ++ toString record.size ++ "," ++
    toString record.flags ++ "," ++ toString record.ts_in_delta ++ "," ++
    toString record.sequence ++ ","
  match getBidLevels b 10 with
  | none => none
  | some bid_levels =>
    match getAskLevels b 10 with
    | none => none
    | some ask_levels =>
      let ss2 := (List.range 10).foldl (fun acc i => acc ++ levelText bid_levels ask_levels i) ss
      some (ss2 ++ "," ++ record.symbol ++ "," ++ toString record.order_id)

/-- Two-digit index written by `std::setfill('0') << std::setw(2) << i`. -/
def pad2 (i : Nat) : String :=
  (if i < 10 then "0" else "") ++ toString i

/-- The CSV header line `main` writes (without the final newline). -/
def csvHeader : String :=
  let h : String :=
    ",ts_recv,ts_event,rtype,publisher_id,instrument_id,action,side,depth,price,size,flags,ts_in_delta,sequence,"
  let h2 := (List.range 10).foldl (fun acc i =>
    acc ++ "bid_px_" ++ pad2 i ++ "," ++ "bid_sz_" ++ pad2 i ++ "," ++ "bid_ct_" ++ pad2 i ++ ","
      ++ "ask_px_" ++ pad2 i ++ "," ++ "ask_sz_" ++ pad2 i ++ "," ++ "ask_ct_" ++ pad2 i
      ++ (if i < 9 then "," else "")) h
  h2 ++ ",symbol,order_id"

/-- The processing loop of `main`: each record is applied to the book and one
output line is produced for it, with the running `row_index`.  The result is
the list of lines written, or `none` if producing a line throws. -/
def mainLoop : OrderBook → Int → List MBORecord → Option (List String)
  | _, _, [] => some []
  | b, row_index, record :: rest =>
    let b1 := processRecord b record
    match generateMBPOutput b1 record row_index with
    | none => none
    | some mbp_line =>
      match mainLoop b1 (row_index + 1) rest with
      | none => none
      | some lines => some (mbp_line :: lines)

/-- Number of comma-separated fields of a line: one more than its commas. -/
def fieldCount (line : String) : Nat :=
  line.toList.count ',' + 1

/-- Fields joined by commas. -/
def joinComma : List String → String
  | [] => ""
  | [x] => x
  | x :: y :: t => x ++ "," ++ joinComma (y :: t)

/-- The best-first levels of the bid side: highest key first. -/
def bestBids (b : OrderBook) : List PriceLevel :=
  b.bids.reverse.map Prod.snd

/-- The best-first levels of the ask side: lowest key first. -/
def bestAsks (b : OrderBook) : List PriceLevel :=
  b.asks.map Prod.snd

/-- The three columns of the `i`-th best level of a side: price, total size and
order count when the level exists, and the placeholder (empty price, 0, 0)
otherwise. -/
def levelTriple (levels : List PriceLevel) (i : Nat) : List String :=
  match levels[i]? with
  | some l => [formatPrice l.price, toString l.total_size, toString l.order_count]
  | none => ["", "0", "0"]

/-- The sixty level columns of a snapshot row: for i = 0..9, the triple of bid
level i followed by the triple of ask level i. -/
def levelColumns (b : OrderBook) : List String :=
  (List.range 10).flatMap (fun i => levelTriple (bestBids b) i ++ levelTriple (bestAsks b) i)

/-- Whether the last three entries of a buffer are, in order, a Trade, a Fill
and a Cancel-coded entry. -/
def lastThreeAreTFC (buf : List MBORecord) : Bool :=
  match buf.reverse with
  | c :: f :: t :: _ =>
    decide (t.action = 'T') && decide (f.action = 'F') && decide (c.action = 'C')
  | _ => false

/-- Pending-buffer invariant: every entry is a Trade, Fill or Cancel-coded
record, no entry is a Trade with side N, and no three consecutive entries carry
the actions T, F, C. -/
def PendingOk (buf : List MBORecord) : Prop :=
  (∀ e ∈ buf, (e.action = 'T' ∨ e.action = 'F' ∨ e.action = 'C') ∧
    ¬ (e.action = 'T' ∧ e.side = 'N')) ∧
  ∀ i, ¬ (actionAt buf i = some 'T' ∧ actionAt buf (i + 1) = some 'F' ∧
    actionAt buf (i + 2) = some 'C')

/-- One call `std::getline(ss, field, ',')` on the unread part of the stream:
`none` when no character can be extracted (the stream is at its end, the call
fails), otherwise the field read, up to the first comma or the end, and what is
left of the stream after that comma. -/
def getlineComma (stream : List Char) : Option (List Char × List Char) :=
  match stream with
  | [] => none
  | _ =>
    some (stream.takeWhile (fun c => decide (c ≠ ',')),
      (stream.dropWhile (fun c => decide (c ≠ ','))).drop 1)

/-- The loop `while (std::getline(ss, field, ',')) fields.push_back(field)`,
bounded by `fuel` iterations. -/
def splitLoop : Nat → List Char → List String
  | 0, _ => []
  | fuel + 1, stream =>
    match getlineComma stream with
    | none => []
    | some (field, rest) => String.mk field :: splitLoop fuel rest

/-- `CSVParser::splitCSV`.  Every successful `getline` consumes at least one
character, so one more iteration than the line has characters is enough. -/
def splitCSV (line : String) : List String :=
  splitLoop (line.length + 1) line.toList

/-- `CSVParser::parseLine`.  The library conversions `std::stoi`, `std::stol` and
`std::stod` are parameters (`none` when they throw; `stod` yields the price in
ticks); the result is `none` when `parseLine` throws. -/
def parseLine (stoi stol stod : String → Option Int) (line : String) : Option MBORecord :=
  let fields := splitCSV line
  if fields.length < 15 then none
  else do
    let rtype ← stoi (fields.getD 2 "")
    let publisher_id ← stoi (fields.getD 3 "")
    let instrument_id ← stoi (fields.getD 4 "")
    let action : Char :=
      match (fields.getD 5 "").toList with
      | [] => '?'
      | c :: _ => c
    let side : Char :=
      match (fields.getD 6 "").toList with
      | [] => '?'
      | c :: _ => c
    let price ← if fields.getD 7 "" = "" then some 0 else stod (fields.getD 7 "")
    let size ← if fields.getD 8 "" = "" then some 0 else stoi (fields.getD 8 "")
    let channel_id ← stoi (fields.getD 9 "")
    let order_id ← stol (fields.getD 10 "")
    let flags ← stoi (fields.getD 11 "")
    let ts_in_delta ← stoi (fields.getD 12 "")
    let sequence ← stol (fields.getD 13 "")
    some { ts_recv := fields.getD 0 "", ts_event := fields.getD 1 "", rtype := rtype,
           publisher_id := publisher_id, instrument_id := instrument_id,
           action := action, side := side, price := price, size := size,
           channel_id := channel_id, order_id := order_id, flags := flags,
           ts_in_delta := ts_in_delta, sequence := sequence,
           symbol := fields.getD 14 "" }

/-- Whether a character sequence ends with a comma. -/
def endsWithComma : List Char → Bool
  | [] => false
  | [c] => decide (c = ',')
  | _ :: c :: t => endsWithComma (c :: t)

/-! ## Lemmas on tables -/

theorem mapFind_mapAssign {V : Type} (m : Table V) (k : Int) (v : V) (q : Int) :
    mapFind (mapAssign m k v) q = if q = k then some v else mapFind m q := by
  induction m with
  | nil => simp [mapAssign, mapFind]
  | cons hd t ih =>
    obtain ⟨k0, w⟩ := hd
    simp only [mapAssign]
    split_ifs with h1 h2 h3 <;> simp_all [mapFind]

theorem mapFind_mapErase {V : Type} (m : Table V) (k : Int) (q : Int) :
    mapFind (mapErase m k) q = if q = k then none else mapFind m q := by
  induction m with
  | nil => simp [mapErase, mapFind]
  | cons hd t ih =>
    obtain ⟨k0, w⟩ := hd
    simp only [mapErase, List.filter_cons] at ih ⊢
    by_cases h : k0 = k
    · subst h
      simp only [ne_eq, not_true_eq_false, decide_False, Bool.false_eq_true, if_false]
      rw [ih]
      by_cases hq : q = k0
      · simp [hq]
      · simp [hq, mapFind]
    · simp only [ne_eq, h, not_false_eq_true, decide_True, if_true, mapFind]
      rw [ih]
      by_cases hq : q = k0
      · have : q ≠ k := by rw [hq]; exact h
        simp [hq, h]
      · simp [hq]

theorem mem_mapAssign {V : Type} (m : Table V) (k : Int) (v : V) (x : Int × V)
    (hx : x ∈ mapAssign m k v) : x = (k, v) ∨ x ∈ m := by
  induction m with
  | nil => simpa [mapAssign] using hx
  | cons hd t ih =>
    obtain ⟨k0, w⟩ := hd
    simp only [mapAssign] at hx
    split_ifs at hx with h1 h2
    · simp only [List.mem_cons] at hx ⊢
      tauto
    · simp only [List.mem_cons] at hx ⊢
      tauto
    · simp only [List.mem_cons] at hx ⊢
      rcases hx with hx | hx
      · tauto
      · rcases ih hx with h | h <;> tauto

theorem mem_mapErase {V : Type} (m : Table V) (k : Int) (x : Int × V)
    (hx : x ∈ mapErase m k) : x ∈ m :=
  (List.mem_filter.mp hx).1

theorem mapFind_mem {V : Type} (m : Table V) (k : Int) (v : V)
    (h : mapFind m k = some v) : (k, v) ∈ m := by
  induction m with
  | nil => simp [mapFind] at h
  | cons hd t ih =>
    obtain ⟨k0, w⟩ := hd
    simp only [mapFind] at h
    split_ifs at h with h1
    · simp only [Option.some.injEq] at h
      simp [h1, h]
    · exact List.mem_cons_of_mem _ (ih h)

/-! ## The pattern test of `processRecord` -/

theorem endsTradeFill_concat2 (pre : List MBORecord) (t f : MBORecord) :
    endsTradeFill (pre ++ [t, f]) = (decide (t.action = 'T') && decide (f.action = 'F')) := by
  simp [endsTradeFill]

theorem actionAt_append (pre l : List MBORecord) (i : Nat) :
    actionAt (pre ++ l) (pre.length + i) = actionAt l i := by
  simp [actionAt, List.getElem?_append_right]

theorem tfc_test_iff (old : List MBORecord) (r : MBORecord) :
    (3 ≤ (old ++ [r]).length ∧
      actionAt (old ++ [r]) ((old ++ [r]).length - 3) = some 'T' ∧
      actionAt (old ++ [r]) ((old ++ [r]).length - 3 + 1) = some 'F' ∧
      actionAt (old ++ [r]) ((old ++ [r]).length - 3 + 2) = some 'C') ↔
    (endsTradeFill old = true ∧ r.action = 'C') := by
  rcases List.eq_nil_or_concat old with rfl | ⟨l1, f, rfl⟩
  · simp [endsTradeFill]
  · rcases List.eq_nil_or_concat l1 with rfl | ⟨pre, t, rfl⟩
    · simp [endsTradeFill]
    · have e : (pre.concat t).concat f ++ [r] = pre ++ [t, f, r] := by simp
      have e2 : (pre.concat t).concat f = pre ++ [t, f] := by simp
      rw [e, e2, endsTradeFill_concat2]
      have hl : (pre ++ [t, f, r]).length - 3 = pre.length + 0 := by simp
      rw [hl, Nat.add_assoc, Nat.add_assoc, actionAt_append, actionAt_append, actionAt_append]
      simp [actionAt, and_assoc]

theorem endsTradeFill_split (old : List MBORecord) (h : endsTradeFill old = true) :
    ∃ pre t f, old = pre ++ [t, f] ∧ t.action = 'T' ∧ f.action = 'F' := by
  rcases List.eq_nil_or_concat old with rfl | ⟨l1, f, rfl⟩
  · simp [endsTradeFill] at h
  · rcases List.eq_nil_or_concat l1 with rfl | ⟨pre, t, rfl⟩
    · simp [endsTradeFill] at h
    · have e2 : (pre.concat t).concat f = pre ++ [t, f] := by simp
      rw [e2, endsTradeFill_concat2] at h
      simp only [Bool.and_eq_true, decide_eq_true_eq] at h
      exact ⟨pre, t, f, e2, h.1, h.2⟩

/-! ## One step of `processRecord`, branch by branch -/

theorem processRecord_of_reset (b : OrderBook) (r : MBORecord) (h : r.action = 'R') :
    processRecord b r = b := by
  simp [processRecord, h]

theorem processRecord_of_tradeN (b : OrderBook) (r : MBORecord) (ha : r.action = 'T')
    (hs : r.side = 'N') : processRecord b r = b := by
  simp [processRecord, ha, hs]

theorem processRecord_of_trade (b : OrderBook) (r : MBORecord) (ha : r.action = 'T')
    (hs : r.side ≠ 'N') :
    processRecord b r = { b with pending_sequence := b.pending_sequence ++ [r] } := by
  have hno := (tfc_test_iff b.pending_sequence r).not.mpr (by simp [ha])
  simp only [processRecord, ha, hs]
  rw [if_neg (by decide), if_neg (by simp), if_pos (by simp), if_neg hno, if_neg (by decide)]

theorem processRecord_of_fill (b : OrderBook) (r : MBORecord) (ha : r.action = 'F') :
    processRecord b r = { b with pending_sequence := b.pending_sequence ++ [r] } := by
  have hno := (tfc_test_iff b.pending_sequence r).not.mpr (by simp [ha])
  simp only [processRecord, ha]
  rw [if_neg (by decide), if_neg (by simp), if_pos (by simp), if_neg hno, if_neg (by decide)]

theorem processRecord_of_cancel_nomatch (b : OrderBook) (r : MBORecord) (ha : r.action = 'C')
    (hm : endsTradeFill b.pending_sequence = false) :
    processRecord b r =
      cancelOrder { b with pending_sequence := b.pending_sequence ++ [r] } r := by
  have hno := (tfc_test_iff b.pending_sequence r).not.mpr (by simp [hm])
  simp only [processRecord, ha]
  rw [if_neg (by decide), if_neg (by simp), if_pos (by simp), if_neg hno, if_pos trivial]

theorem processRecord_of_cancel_match (b : OrderBook) (r : MBORecord) (ha : r.action = 'C')
    (pre : List MBORecord) (t f : MBORecord) (hb : b.pending_sequence = pre ++ [t, f])
    (ht : t.action = 'T') (hf : f.action = 'F') :
    processRecord b r =
      { handleTradeSequence { b with pending_sequence := pre ++ [t, f, r] } [t, f, r] with
        pending_sequence := pre } := by
  have hyes := (tfc_test_iff b.pending_sequence r).mpr
    ⟨by rw [hb, endsTradeFill_concat2]; simp [ht, hf], ha⟩
  simp only [processRecord, ha]
  rw [if_neg (by decide), if_neg (by simp), if_pos (by simp), if_pos hyes]
  have e : b.pending_sequence ++ [r] = pre ++ [t, f, r] := by simp [hb]
  simp [e]

theorem processRecord_of_add (b : OrderBook) (r : MBORecord) (ha : r.action = 'A') :
    processRecord b r = addOrder b r := by
  simp only [processRecord, ha]
  rw [if_neg (by decide), if_neg (by simp), if_neg (by decide), if_pos trivial]

theorem processRecord_of_other (b : OrderBook) (r : MBORecord) (hA : r.action ≠ 'A')
    (hC : r.action ≠ 'C') (hT : r.action ≠ 'T') (hF : r.action ≠ 'F') (hR : r.action ≠ 'R') :
    processRecord b r = b := by
  simp [processRecord, hA, hC, hT, hF, hR]

/-! ## Components of the book after each operation -/

theorem addOrder_pending (b : OrderBook) (r : MBORecord) :
    (addOrder b r).pending_sequence = b.pending_sequence := by
  unfold addOrder; dsimp only; split_ifs <;> rfl

theorem addOrder_orders (b : OrderBook) (r : MBORecord) :
    (addOrder b r).orders =
      mapAssign b.orders r.order_id ⟨r.order_id, r.price, r.size, r.side⟩ := by
  unfold addOrder; dsimp only; split_ifs <;> rfl

theorem addOrder_bids (b : OrderBook) (r : MBORecord) :
    (addOrder b r).bids =
      if r.side = 'B' then updatePriceLevel b.bids r.price r.size 1 else b.bids := by
  unfold addOrder; dsimp only; split_ifs <;> rfl

theorem addOrder_asks (b : OrderBook) (r : MBORecord) :
    (addOrder b r).asks =
      if r.side = 'A' then updatePriceLevel b.asks r.price r.size 1 else b.asks := by
  unfold addOrder; dsimp only; split_ifs with h1 h2 <;> simp_all

/-- The book after removing the live order `o` stored under `id`, debiting the
level map selected by the side code `sd`: the common body of `cancelOrder` and
`handleTradeSequence` once the order has been found. -/
theorem cancelOrder_of_live (b : OrderBook) (r : MBORecord) (o : Order)
    (h : mapFind b.orders r.order_id = some o) :
    cancelOrder b r =
      { orders := mapErase b.orders r.order_id,
        bids := if o.side = 'B' then updatePriceLevel b.bids o.price (wrapInt32 (-o.size)) (-1)
          else b.bids,
        asks := if o.side = 'A' then updatePriceLevel b.asks o.price (wrapInt32 (-o.size)) (-1)
          else b.asks,
        pending_sequence := b.pending_sequence } := by
  unfold cancelOrder; rw [h]; dsimp only
  split_ifs with h1 h2 <;> simp_all

theorem cancelOrder_of_dead (b : OrderBook) (r : MBORecord)
    (h : mapFind b.orders r.order_id = none) : cancelOrder b r = b := by
  unfold cancelOrder; rw [h]

theorem handleTradeSequence_of_live (b : OrderBook) (t f c : MBORecord) (o : Order)
    (h : mapFind b.orders f.order_id = some o) :
    handleTradeSequence b [t, f, c] =
      { orders := mapErase b.orders f.order_id,
        bids := if f.side = 'B' then updatePriceLevel b.bids o.price (wrapInt32 (-o.size)) (-1)
          else b.bids,
        asks := if f.side = 'A' then updatePriceLevel b.asks o.price (wrapInt32 (-o.size)) (-1)
          else b.asks,
        pending_sequence := b.pending_sequence } := by
  unfold handleTradeSequence; dsimp only; rw [h]; dsimp only
  split_ifs with h1 h2 <;> simp_all

theorem handleTradeSequence_of_dead (b : OrderBook) (t f c : MBORecord)
    (h : mapFind b.orders f.order_id = none) : handleTradeSequence b [t, f, c] = b := by
  unfold handleTradeSequence; dsimp only; rw [h]

/-! ## A Cancel-coded event, case by case -/

theorem processRecord_cancel_nomatch_live (b : OrderBook) (r : MBORecord) (o : Order)
    (ha : r.action = 'C') (hm : endsTradeFill b.pending_sequence = false)
    (ho : mapFind b.orders r.order_id = some o) :
    processRecord b r =
      { orders := mapErase b.orders r.order_id,
        bids := if o.side = 'B' then updatePriceLevel b.bids o.price (wrapInt32 (-o.size)) (-1)
          else b.bids,
        asks := if o.side = 'A' then updatePriceLevel b.asks o.price (wrapInt32 (-o.size)) (-1)
          else b.asks,
        pending_sequence := b.pending_sequence ++ [r] } := by
  rw [processRecord_of_cancel_nomatch b r ha hm,
    cancelOrder_of_live ⟨b.orders, b.bids, b.asks, b.pending_sequence ++ [r]⟩ r o ho]

theorem processRecord_cancel_nomatch_dead (b : OrderBook) (r : MBORecord)
    (ha : r.action = 'C') (hm : endsTradeFill b.pending_sequence = false)
    (ho : mapFind b.orders r.order_id = none) :
    processRecord b r = { b with pending_sequence := b.pending_sequence ++ [r] } := by
  rw [processRecord_of_cancel_nomatch b r ha hm,
    cancelOrder_of_dead ⟨b.orders, b.bids, b.asks, b.pending_sequence ++ [r]⟩ r ho]

theorem processRecord_cancel_match_live (b : OrderBook) (r : MBORecord) (ha : r.action = 'C')
    (pre : List MBORecord) (t f : MBORecord) (hb : b.pending_sequence = pre ++ [t, f])
    (ht : t.action = 'T') (hf : f.action = 'F') (o : Order)
    (ho : mapFind b.orders f.order_id = some o) :
    processRecord b r =
      { orders := mapErase b.orders f.order_id,
        bids := if f.side = 'B' then updatePriceLevel b.bids o.price (wrapInt32 (-o.size)) (-1)
          else b.bids,
        asks := if f.side = 'A' then updatePriceLevel b.asks o.price (wrapInt32 (-o.size)) (-1)
          else b.asks,
        pending_sequence := pre } := by
  rw [processRecord_of_cancel_match b r ha pre t f hb ht hf,
    handleTradeSequence_of_live ⟨b.orders, b.bids, b.asks, pre ++ [t, f, r]⟩ t f r o ho]

theorem processRecord_cancel_match_dead (b : OrderBook) (r : MBORecord) (ha : r.action = 'C')
    (pre : List MBORecord) (t f : MBORecord) (hb : b.pending_sequence = pre ++ [t, f])
    (ht : t.action = 'T') (hf : f.action = 'F')
    (ho : mapFind b.orders f.order_id = none) :
    processRecord b r = { b with pending_sequence := pre } := by
  rw [processRecord_of_cancel_match b r ha pre t f hb ht hf,
    handleTradeSequence_of_dead ⟨b.orders, b.bids, b.asks, pre ++ [t, f, r]⟩ t f r ho]

/-! ## Positivity of the stored levels -/

theorem levelsPositive_updatePriceLevel (m : Table PriceLevel) (p sd cd : Int)
    (hm : LevelsPositive m) : LevelsPositive (updatePriceLevel m p sd cd) := by
  unfold updatePriceLevel
  split
  · dsimp only
    split_ifs with h
    · intro x hx
      exact hm x (mem_mapErase _ _ _ hx)
    · intro x hx
      rcases mem_mapAssign _ _ _ _ hx with rfl | hx
      · dsimp only
        omega
      · exact hm x hx
  · split_ifs with h
    · intro x hx
      rcases mem_mapAssign _ _ _ _ hx with rfl | hx
      · dsimp only
        omega
      · exact hm x hx
    · exact hm

/-- Both level maps of the book satisfy `LevelsPositive`. -/
theorem levelsPositive_processRecord (b : OrderBook) (r : MBORecord)
    (hb : LevelsPositive b.bids ∧ LevelsPositive b.asks) :
    LevelsPositive (processRecord b r).bids ∧ LevelsPositive (processRecord b r).asks := by
  have upd := levelsPositive_updatePriceLevel
  by_cases hR : r.action = 'R'
  · rw [processRecord_of_reset b r hR]; exact hb
  by_cases hA : r.action = 'A'
  · rw [processRecord_of_add b r hA, addOrder_bids, addOrder_asks]
    constructor <;> split_ifs
    · exact upd _ _ _ _ hb.1
    · exact hb.1
    · exact upd _ _ _ _ hb.2
    · exact hb.2
  by_cases hT : r.action = 'T'
  · by_cases hs : r.side = 'N'
    · rw [processRecord_of_tradeN b r hT hs]; exact hb
    · rw [processRecord_of_trade b r hT hs]; exact hb
  by_cases hF : r.action = 'F'
  · rw [processRecord_of_fill b r hF]; exact hb
  by_cases hC : r.action = 'C'
  · cases hm : endsTradeFill b.pending_sequence with
    | false =>
      cases ho : mapFind b.orders r.order_id with
      | none => rw [processRecord_cancel_nomatch_dead b r hC hm ho]; exact hb
      | some o =>
        rw [processRecord_cancel_nomatch_live b r o hC hm ho]
        dsimp only
        constructor <;> split_ifs
        · exact upd _ _ _ _ hb.1
        · exact hb.1
        · exact upd _ _ _ _ hb.2
        · exact hb.2
    | true =>
      obtain ⟨pre, t, f, hp, ht, hf⟩ := endsTradeFill_split _ hm
      cases ho : mapFind b.orders f.order_id with
      | none => rw [processRecord_cancel_match_dead b r hC pre t f hp ht hf ho]; exact hb
      | some o =>
        rw [processRecord_cancel_match_live b r hC pre t f hp ht hf o ho]
        dsimp only
        constructor <;> split_ifs
        · exact upd _ _ _ _ hb.1
        · exact hb.1
        · exact upd _ _ _ _ hb.2
        · exact hb.2
  · rw [processRecord_of_other b r hA hC hT hF hR]; exact hb

theorem levelsPositive_runFeed (events : List MBORecord) (b : OrderBook)
    (hb : LevelsPositive b.bids ∧ LevelsPositive b.asks) :
    LevelsPositive (runFeed b events).bids ∧ LevelsPositive (runFeed b events).asks := by
  induction events generalizing b with
  | nil => exact hb
  | cons r rs ih => exact ih (processRecord b r) (levelsPositive_processRecord b r hb)

/-! ## What `updatePriceLevel` does to lookups -/

theorem mapFind_updatePriceLevel_other (m : Table PriceLevel) (p sd cd q : Int) (h : q ≠ p) :
    mapFind (updatePriceLevel m p sd cd) q = mapFind m q := by
  unfold updatePriceLevel
  split
  · dsimp only
    split_ifs <;> simp [mapFind_mapErase, mapFind_mapAssign, h]
  · split_ifs <;> simp [mapFind_mapAssign, h]

theorem wrapInt32_of_range (x : Int) (h1 : -2147483648 ≤ x) (h2 : x < 2147483648) :
    wrapInt32 x = x := by
  unfold wrapInt32; omega

theorem wrapInt32_range (x : Int) : -2147483648 ≤ wrapInt32 x ∧ wrapInt32 x < 2147483648 := by
  unfold wrapInt32; omega

/-- Adding the 32-bit negation of `s` is subtracting `s`, in 32-bit arithmetic. -/
theorem wrapInt32_add_neg (t s : Int) : wrapInt32 (t + wrapInt32 (-s)) = wrapInt32 (t - s) := by
  unfold wrapInt32; omega

theorem mapFind_updatePriceLevel_self (m : Table PriceLevel) (p sd cd : Int) :
    mapFind (updatePriceLevel m p sd cd) p =
      match mapFind m p with
      | some l =>
        if wrapInt32 (l.order_count + cd) ≤ 0 ∨ wrapInt32 (l.total_size + sd) ≤ 0 then none
        else some ⟨l.price, wrapInt32 (l.total_size + sd), wrapInt32 (l.order_count + cd)⟩
      | none => if sd > 0 ∧ cd > 0 then some ⟨p, sd, cd⟩ else none := by
  unfold updatePriceLevel
  cases hf : mapFind m p with
  | none =>
    dsimp only
    split_ifs
    · simp [mapFind_mapAssign]
    · exact hf
  | some l =>
    dsimp only
    split_ifs
    · simp [mapFind_mapErase]
    · simp [mapFind_mapAssign]

theorem mapFind_debit (m : Table PriceLevel) (p size : Int) :
    mapFind (updatePriceLevel m p (wrapInt32 (-size)) (-1)) p = debited (mapFind m p) size := by
  rw [mapFind_updatePriceLevel_self]
  cases mapFind m p with
  | none => simp [debited]
  | some l => simp only [debited, wrapInt32_add_neg, ← sub_eq_add_neg]

/-- Within the `int` range a debit is exact: a level with positive totals in
range, debited by a non-negative `int` size, holds both totals reduced, or is
gone when one of them reaches zero or below. -/
theorem debited_exact (l : PriceLevel) (size : Int) (hs : 0 ≤ size) (hs2 : size < 2147483648)
    (ht : 0 < l.total_size) (ht2 : l.total_size < 2147483648)
    (hc : 0 < l.order_count) (hc2 : l.order_count < 2147483648) :
    debited (some l) size =
      if l.order_count - 1 ≤ 0 ∨ l.total_size - size ≤ 0 then none
      else some ⟨l.price, l.total_size - size, l.order_count - 1⟩ := by
  unfold debited
  dsimp only
  rw [wrapInt32_of_range (l.order_count - 1) (by omega) (by omega),
    wrapInt32_of_range (l.total_size - size) (by omega) (by omega)]

/-- Effect of removing the order `o` stored under `id` while debiting the level
map selected by the side code `sd`: the state built by `cancelOrder` (with the
stored side) and by `handleTradeSequence` (with the side of the Fill). -/
theorem removal_effect (b : OrderBook) (id : Int) (o : Order) (sd : Char)
    (pend : List MBORecord) (b2 : OrderBook)
    (h2 : b2 =
      { orders := mapErase b.orders id,
        bids := if sd = 'B' then updatePriceLevel b.bids o.price (wrapInt32 (-o.size)) (-1)
          else b.bids,
        asks := if sd = 'A' then updatePriceLevel b.asks o.price (wrapInt32 (-o.size)) (-1)
          else b.asks,
        pending_sequence := pend }) :
    mapFind b2.orders id = none ∧
    (∀ k, k ≠ id → mapFind b2.orders k = mapFind b.orders k) ∧
    mapFind (levelsOn b2 sd) o.price = debited (mapFind (levelsOn b sd) o.price) o.size ∧
    (∀ q, q ≠ o.price → mapFind (levelsOn b2 sd) q = mapFind (levelsOn b sd) q) ∧
    (∀ s, s ≠ sd → levelsOn b2 s = levelsOn b s) := by
  subst h2
  refine ⟨by simp [mapFind_mapErase], fun k hk => by simp [mapFind_mapErase, hk], ?_, ?_, ?_⟩
  · by_cases hB : sd = 'B'
    · simp [levelsOn, hB, mapFind_debit]
    · by_cases hA : sd = 'A'
      · simp [levelsOn, hA, mapFind_debit]
      · simp [levelsOn, hA, hB, debited, mapFind]
  · intro q hq
    by_cases hB : sd = 'B'
    · simp [levelsOn, hB, mapFind_updatePriceLevel_other _ _ _ _ _ hq]
    · by_cases hA : sd = 'A'
      · simp [levelsOn, hA, mapFind_updatePriceLevel_other _ _ _ _ _ hq]
      · simp [levelsOn, hA, hB]
  · intro s hs
    unfold levelsOn
    dsimp only
    by_cases hB : s = 'B'
    · have : sd ≠ 'B' := fun h => hs (hB.trans h.symm)
      simp [hB, this]
    · by_cases hA : s = 'A'
      · have : sd ≠ 'A' := fun h => hs (hA.trans h.symm)
        simp [hA, this]
      · simp [hA, hB]

/-! ## Tables as collections: ascending keys and permutations -/

theorem keysAscending_mapErase {V : Type} (m : Table V) (k : Int) (h : KeysAscending m) :
    KeysAscending (mapErase m k) :=
  List.Pairwise.filter _ h

theorem keysAscending_mapAssign {V : Type} (m : Table V) (k : Int) (v : V)
    (h : KeysAscending m) : KeysAscending (mapAssign m k v) := by
  induction m with
  | nil => simp [mapAssign, KeysAscending]
  | cons hd t ih =>
    obtain ⟨k0, w⟩ := hd
    unfold KeysAscending at h ih ⊢
    rw [List.pairwise_cons] at h
    simp only [mapAssign]
    split_ifs with h1 h2
    · refine List.pairwise_cons.mpr ⟨?_, List.pairwise_cons.mpr h⟩
      intro x hx
      rcases List.mem_cons.mp hx with rfl | hx
      · exact h1
      · exact lt_trans h1 (h.1 x hx)
    · subst h2
      exact List.pairwise_cons.mpr h
    · refine List.pairwise_cons.mpr ⟨?_, ih h.2⟩
      intro x hx
      rcases mem_mapAssign _ _ _ _ hx with rfl | hx
      · dsimp only
        omega
      · exact h.1 x hx

theorem mapAssign_perm {V : Type} (m : Table V) (k : Int) (v : V)
    (h : mapFind m k = none) : (mapAssign m k v).Perm ((k, v) :: m) := by
  induction m with
  | nil => simp [mapAssign]
  | cons hd t ih =>
    obtain ⟨k0, w⟩ := hd
    simp only [mapFind] at h
    split_ifs at h with h0
    simp only [mapAssign]
    split_ifs with h1
    · exact List.Perm.refl _
    · exact ((ih h).cons (k0, w)).trans (List.Perm.swap _ _ _)

theorem mapErase_perm {V : Type} (m : Table V) (k : Int) (v : V) (hk : KeysAscending m)
    (h : mapFind m k = some v) : m.Perm ((k, v) :: mapErase m k) := by
  induction m with
  | nil => simp [mapFind] at h
  | cons hd t ih =>
    obtain ⟨k0, w⟩ := hd
    unfold KeysAscending at hk ih
    rw [List.pairwise_cons] at hk
    simp only [mapFind] at h
    split_ifs at h with h0
    · simp only [Option.some.injEq] at h
      subst h0 h
      have ht : mapErase ((k, w) :: t) k = t := by
        simp only [mapErase, List.filter_cons, ne_eq, not_true_eq_false, decide_False,
          Bool.false_eq_true, if_false]
        apply List.filter_eq_self.mpr
        intro x hx
        have := hk.1 x hx
        simp only [ne_eq, decide_not, Bool.not_eq_true', decide_eq_false_iff_not]
        omega
      rw [ht]
    · have ht : mapErase ((k0, w) :: t) k = (k0, w) :: mapErase t k := by
        have : k0 ≠ k := fun e => h0 e.symm
        simp [mapErase, List.filter_cons, this]
      rw [ht]
      exact ((ih hk.2 h).cons (k0, w)).trans (List.Perm.swap _ _ _)

/-! ## Sums and counts of the live orders -/

theorem liveAt_perm (os os2 : Table Order) (s : Char) (p : Int) (h : os.Perm os2) :
    (liveAt os s p).Perm (liveAt os2 s p) :=
  (h.map _).filter _

theorem sizeSum_perm (os os2 : Table Order) (s : Char) (p : Int) (h : os.Perm os2) :
    sizeSum os s p = sizeSum os2 s p :=
  ((liveAt_perm os os2 s p h).map _).sum_eq

theorem orderCnt_perm (os os2 : Table Order) (s : Char) (p : Int) (h : os.Perm os2) :
    orderCnt os s p = orderCnt os2 s p := by
  unfold orderCnt; rw [(liveAt_perm os os2 s p h).length_eq]

theorem sizeSum_cons (k : Int) (o : Order) (os : Table Order) (s : Char) (p : Int) :
    sizeSum ((k, o) :: os) s p
      = sizeSum os s p + (if o.side = s ∧ o.price = p then o.size else 0) := by
  unfold sizeSum liveAt
  by_cases h : o.side = s ∧ o.price = p
  · simp [List.filter_cons, h, add_comm]
  · simp [List.filter_cons, h]

theorem orderCnt_cons (k : Int) (o : Order) (os : Table Order) (s : Char) (p : Int) :
    orderCnt ((k, o) :: os) s p
      = orderCnt os s p + (if o.side = s ∧ o.price = p then 1 else 0) := by
  unfold orderCnt liveAt
  by_cases h : o.side = s ∧ o.price = p
  · simp [List.filter_cons, h]
  · simp [List.filter_cons, h]

theorem sizeSum_mapAssign (os : Table Order) (k : Int) (o : Order) (s : Char) (p : Int)
    (h : mapFind os k = none) :
    sizeSum (mapAssign os k o) s p
      = sizeSum os s p + (if o.side = s ∧ o.price = p then o.size else 0) := by
  rw [sizeSum_perm _ _ s p (mapAssign_perm os k o h), sizeSum_cons]

theorem orderCnt_mapAssign (os : Table Order) (k : Int) (o : Order) (s : Char) (p : Int)
    (h : mapFind os k = none) :
    orderCnt (mapAssign os k o) s p
      = orderCnt os s p + (if o.side = s ∧ o.price = p then 1 else 0) := by
  rw [orderCnt_perm _ _ s p (mapAssign_perm os k o h), orderCnt_cons]

theorem sizeSum_mapErase (os : Table Order) (k : Int) (o : Order) (s : Char) (p : Int)
    (hk : KeysAscending os) (h : mapFind os k = some o) :
    sizeSum (mapErase os k) s p
      = sizeSum os s p + (if o.side = s ∧ o.price = p then -o.size else 0) := by
  rw [sizeSum_perm _ _ s p (mapErase_perm os k o hk h), sizeSum_cons]
  split_ifs <;> ring

theorem orderCnt_mapErase (os : Table Order) (k : Int) (o : Order) (s : Char) (p : Int)
    (hk : KeysAscending os) (h : mapFind os k = some o) :
    orderCnt (mapErase os k) s p
      = orderCnt os s p + (if o.side = s ∧ o.price = p then -1 else 0) := by
  rw [orderCnt_perm _ _ s p (mapErase_perm os k o hk h), orderCnt_cons]
  split_ifs <;> ring

/-- With positive sizes, the sum and the count at a price are both zero or both
positive. -/
theorem sum_cnt_sign (os : Table Order) (s : Char) (p : Int)
    (hpos : ∀ x ∈ os, 0 < x.2.size) :
    (orderCnt os s p = 0 ∧ sizeSum os s p = 0) ∨ (0 < orderCnt os s p ∧ 0 < sizeSum os s p) := by
  induction os with
  | nil => left; simp [orderCnt, sizeSum, liveAt]
  | cons hd t ih =>
    obtain ⟨k, o⟩ := hd
    have ho : 0 < o.size := hpos (k, o) (List.mem_cons_self _ _)
    have iht := ih (fun x hx => hpos x (List.mem_cons_of_mem _ hx))
    rw [sizeSum_cons, orderCnt_cons]
    split_ifs
    · right
      rcases iht with ⟨h1, h2⟩ | ⟨h1, h2⟩ <;> constructor <;> omega
    · simpa using iht

/-! ## The aggregation invariant -/

theorem totals_updatePriceLevel_other (m : Table PriceLevel) (p sd cd q : Int) (h : q ≠ p) :
    totals (updatePriceLevel m p sd cd) q = totals m q := by
  unfold totals; rw [mapFind_updatePriceLevel_other _ _ _ _ _ h]

theorem totals_updatePriceLevel_self (m : Table PriceLevel) (p sd cd : Int)
    (ht : -2147483648 ≤ (totals m p).1 + sd ∧ (totals m p).1 + sd < 2147483648)
    (hc : -2147483648 ≤ (totals m p).2 + cd ∧ (totals m p).2 + cd < 2147483648) :
    totals (updatePriceLevel m p sd cd) p =
      if (totals m p).2 + cd ≤ 0 ∨ (totals m p).1 + sd ≤ 0 then (0, 0)
      else ((totals m p).1 + sd, (totals m p).2 + cd) := by
  unfold totals at ht hc ⊢
  rw [mapFind_updatePriceLevel_self]
  cases hf : mapFind m p with
  | none =>
    dsimp only
    by_cases h : sd > 0 ∧ cd > 0
    · rw [if_pos h, if_neg (by omega)]; simp
    · rw [if_neg h, if_pos (by omega)]
  | some l =>
    rw [hf] at ht hc
    dsimp only at ht hc ⊢
    rw [wrapInt32_of_range _ ht.1 ht.2, wrapInt32_of_range _ hc.1 hc.2]
    split_ifs <;> rfl

/-- One side of the book across a change of the order map by one order `o`:
if the sums and counts of that side move by `(sd, cd)` at the order's price
exactly when the order is stored with that side, and stay within `int`, then
updating the side's level map by `(sd, cd)` at that price keeps the totals
equal to the sums and counts. -/
theorem totals_step (m : Table PriceLevel) (os os2 : Table Order) (o : Order) (s sel : Char)
    (sd cd : Int)
    (hinv : ∀ q, totals m q = (sizeSum os s q, orderCnt os s q))
    (hsum : ∀ q, sizeSum os2 s q
      = sizeSum os s q + (if o.side = s ∧ o.price = q then sd else 0))
    (hcnt : ∀ q, orderCnt os2 s q
      = orderCnt os s q + (if o.side = s ∧ o.price = q then cd else 0))
    (hpos2 : ∀ x ∈ os2, 0 < x.2.size)
    (hb2 : ∀ q, sizeSum os2 s q < 2147483648 ∧ orderCnt os2 s q < 2147483648)
    (hsel : sel = o.side) (q : Int) :
    totals (if sel = s then updatePriceLevel m o.price sd cd else m) q
      = (sizeSum os2 s q, orderCnt os2 s q) := by
  subst hsel
  have hs2 := hsum q
  have hc2 := hcnt q
  have hsign := sum_cnt_sign os2 s q hpos2
  have hbq := hb2 q
  by_cases hs : o.side = s
  · rw [if_pos hs]
    by_cases hq : q = o.price
    · subst hq
      rw [if_pos ⟨hs, rfl⟩] at hs2 hc2
      have hi := hinv o.price
      rw [totals_updatePriceLevel_self _ _ _ _ (by rw [hi]; dsimp only; omega)
        (by rw [hi]; dsimp only; omega), hi]
      dsimp only
      rw [← hs2, ← hc2]
      rcases hsign with ⟨h1, h2⟩ | ⟨h1, h2⟩
      · rw [if_pos (by omega), h1, h2]
      · rw [if_neg (by omega)]
    · have hne : ¬ (o.side = s ∧ o.price = q) := fun h => hq h.2.symm
      rw [if_neg hne] at hs2 hc2
      rw [totals_updatePriceLevel_other _ _ _ _ _ hq, hinv, hs2, hc2]
      simp
  · have hne : ¬ (o.side = s ∧ o.price = q) := fun h => hs h.1
    rw [if_neg hne] at hs2 hc2
    rw [if_neg hs, hinv, hs2, hc2]
    simp

theorem aggregated_empty : Aggregated OrderBook.empty where
  keys := List.Pairwise.nil
  sizes := fun _ hx => absurd hx (List.not_mem_nil _)
  bounded := fun _ _ => by simp [sizeSum, orderCnt, liveAt, OrderBook.empty]
  posBids := fun _ hx => absurd hx (List.not_mem_nil _)
  posAsks := fun _ hx => absurd hx (List.not_mem_nil _)
  bidTotals := fun _ => rfl
  askTotals := fun _ => rfl

theorem aggregated_pending (b : OrderBook) (pend : List MBORecord) (h : Aggregated b) :
    Aggregated { b with pending_sequence := pend } :=
  ⟨h.keys, h.sizes, h.bounded, h.posBids, h.posAsks, h.bidTotals, h.askTotals⟩

theorem aggregated_addOrder (b : OrderBook) (r : MBORecord) (h : Aggregated b)
    (hsize : 0 < r.size) (hfresh : mapFind b.orders r.order_id = none)
    (hfit : sizeSum b.orders r.side r.price + r.size < 2147483648 ∧
      orderCnt b.orders r.side r.price + 1 < 2147483648) :
    Aggregated (addOrder b r) := by
  have hpos2 : ∀ x ∈ mapAssign b.orders r.order_id ⟨r.order_id, r.price, r.size, r.side⟩,
      0 < x.2.size := by
    intro x hx
    rcases mem_mapAssign _ _ _ _ hx with rfl | hx
    · exact hsize
    · exact h.sizes x hx
  have hb2 : ∀ s q,
      sizeSum (mapAssign b.orders r.order_id ⟨r.order_id, r.price, r.size, r.side⟩) s q
        < 2147483648 ∧
      orderCnt (mapAssign b.orders r.order_id ⟨r.order_id, r.price, r.size, r.side⟩) s q
        < 2147483648 := by
    intro s q
    rw [sizeSum_mapAssign _ _ _ _ _ hfresh, orderCnt_mapAssign _ _ _ _ _ hfresh]
    have hb := h.bounded s q
    dsimp only
    by_cases hc : r.side = s ∧ r.price = q
    · rw [if_pos hc, if_pos hc, ← hc.1, ← hc.2]
      exact hfit
    · rw [if_neg hc, if_neg hc]
      simpa using hb
  refine ⟨?_, ?_, ?_, ?_, ?_, ?_, ?_⟩
  · rw [addOrder_orders]; exact keysAscending_mapAssign _ _ _ h.keys
  · rw [addOrder_orders]; exact hpos2
  · rw [addOrder_orders]; exact hb2
  · rw [addOrder_bids]; split_ifs
    · exact levelsPositive_updatePriceLevel _ _ _ _ h.posBids
    · exact h.posBids
  · rw [addOrder_asks]; split_ifs
    · exact levelsPositive_updatePriceLevel _ _ _ _ h.posAsks
    · exact h.posAsks
  · rw [addOrder_orders, addOrder_bids]
    exact totals_step b.bids b.orders _ ⟨r.order_id, r.price, r.size, r.side⟩ 'B' r.side
      r.size 1 h.bidTotals (fun q => sizeSum_mapAssign _ _ _ _ _ hfresh)
      (fun q => orderCnt_mapAssign _ _ _ _ _ hfresh) hpos2 (hb2 'B') rfl
  · rw [addOrder_orders, addOrder_asks]
    exact totals_step b.asks b.orders _ ⟨r.order_id, r.price, r.size, r.side⟩ 'A' r.side
      r.size 1 h.askTotals (fun q => sizeSum_mapAssign _ _ _ _ _ hfresh)
      (fun q => orderCnt_mapAssign _ _ _ _ _ hfresh) hpos2 (hb2 'A') rfl

theorem aggregated_remove (b : OrderBook) (id : Int) (o : Order) (sel : Char)
    (pend : List MBORecord) (h : Aggregated b) (ho : mapFind b.orders id = some o)
    (hsel : sel = o.side) :
    Aggregated
      { orders := mapErase b.orders id,
        bids := if sel = 'B' then updatePriceLevel b.bids o.price (wrapInt32 (-o.size)) (-1)
          else b.bids,
        asks := if sel = 'A' then updatePriceLevel b.asks o.price (wrapInt32 (-o.size)) (-1)
          else b.asks,
        pending_sequence := pend } := by
  have hpos2 : ∀ x ∈ mapErase b.orders id, 0 < x.2.size :=
    fun x hx => h.sizes x (mem_mapErase _ _ _ hx)
  have hosz : 0 < o.size := h.sizes (id, o) (mapFind_mem _ _ _ ho)
  have hb2 : ∀ s q, sizeSum (mapErase b.orders id) s q < 2147483648 ∧
      orderCnt (mapErase b.orders id) s q < 2147483648 := by
    intro s q
    rw [sizeSum_mapErase _ _ _ _ _ h.keys ho, orderCnt_mapErase _ _ _ _ _ h.keys ho]
    have hb := h.bounded s q
    split_ifs <;> omega
  have hw : wrapInt32 (-o.size) = -o.size := by
    have h1 := sizeSum_mapErase b.orders id o o.side o.price h.keys ho
    rw [if_pos ⟨rfl, rfl⟩] at h1
    have h2 := sum_cnt_sign (mapErase b.orders id) o.side o.price hpos2
    have h3 := h.bounded o.side o.price
    exact wrapInt32_of_range _ (by omega) (by omega)
  rw [hw]
  refine ⟨keysAscending_mapErase _ _ h.keys, hpos2, hb2, ?_, ?_, ?_, ?_⟩
  · dsimp only; split_ifs
    · exact levelsPositive_updatePriceLevel _ _ _ _ h.posBids
    · exact h.posBids
  · dsimp only; split_ifs
    · exact levelsPositive_updatePriceLevel _ _ _ _ h.posAsks
    · exact h.posAsks
  · exact totals_step b.bids b.orders _ o 'B' sel (-o.size) (-1) h.bidTotals
      (fun q => sizeSum_mapErase _ _ _ _ _ h.keys ho)
      (fun q => orderCnt_mapErase _ _ _ _ _ h.keys ho) hpos2 (hb2 'B') hsel
  · exact totals_step b.asks b.orders _ o 'A' sel (-o.size) (-1) h.askTotals
      (fun q => sizeSum_mapErase _ _ _ _ _ h.keys ho)
      (fun q => orderCnt_mapErase _ _ _ _ _ h.keys ho) hpos2 (hb2 'A') hsel

theorem eventOk_add (b : OrderBook) (r : MBORecord) (ha : r.action = 'A')
    (h : eventOk b r = true) : 0 < r.size ∧ mapFind b.orders r.order_id = none := by
  simp only [eventOk, ha, if_true, Bool.and_eq_true, decide_eq_true_eq,
    Option.isNone_iff_eq_none] at h
  exact h

theorem eventFits_add (b : OrderBook) (r : MBORecord) (ha : r.action = 'A')
    (h : eventFits b r = true) :
    sizeSum b.orders r.side r.price + r.size < 2147483648 ∧
      orderCnt b.orders r.side r.price + 1 < 2147483648 := by
  simp only [eventFits, ha, if_true, Bool.and_eq_true, decide_eq_true_eq] at h
  exact h

theorem eventOk_match (b : OrderBook) (r : MBORecord) (ha : r.action = 'C')
    (pre : List MBORecord) (t f : MBORecord) (hb : b.pending_sequence = pre ++ [t, f])
    (ht : t.action = 'T') (hf : f.action = 'F') (o : Order)
    (ho : mapFind b.orders f.order_id = some o) (h : eventOk b r = true) :
    f.side = o.side := by
  have hr : (pre ++ [t, f]).reverse = f :: t :: pre.reverse := by simp
  simp only [eventOk, ha, hb, hr, ht, hf, ho] at h
  simpa using h

theorem aggregated_processRecord (b : OrderBook) (r : MBORecord) (h : Aggregated b)
    (hok : eventOk b r = true) (hfit : eventFits b r = true) :
    Aggregated (processRecord b r) := by
  by_cases hR : r.action = 'R'
  · rw [processRecord_of_reset b r hR]; exact h
  by_cases hA : r.action = 'A'
  · rw [processRecord_of_add b r hA]
    exact aggregated_addOrder b r h (eventOk_add b r hA hok).1 (eventOk_add b r hA hok).2
      (eventFits_add b r hA hfit)
  by_cases hT : r.action = 'T'
  · by_cases hs : r.side = 'N'
    · rw [processRecord_of_tradeN b r hT hs]; exact h
    · rw [processRecord_of_trade b r hT hs]; exact aggregated_pending b _ h
  by_cases hF : r.action = 'F'
  · rw [processRecord_of_fill b r hF]; exact aggregated_pending b _ h
  by_cases hC : r.action = 'C'
  · cases hm : endsTradeFill b.pending_sequence with
    | false =>
      cases ho : mapFind b.orders r.order_id with
      | none =>
        rw [processRecord_cancel_nomatch_dead b r hC hm ho]; exact aggregated_pending b _ h
      | some o =>
        rw [processRecord_cancel_nomatch_live b r o hC hm ho]
        exact aggregated_remove b r.order_id o o.side _ h ho rfl
    | true =>
      obtain ⟨pre, t, f, hp, ht, hf⟩ := endsTradeFill_split _ hm
      cases ho : mapFind b.orders f.order_id with
      | none =>
        rw [processRecord_cancel_match_dead b r hC pre t f hp ht hf ho]
        exact aggregated_pending b _ h
      | some o =>
        rw [processRecord_cancel_match_live b r hC pre t f hp ht hf o ho]
        exact aggregated_remove b f.order_id o f.side _ h ho
          (eventOk_match b r hC pre t f hp ht hf o ho hok)
  · rw [processRecord_of_other b r hA hC hT hF hR]; exact h

theorem aggregated_runFeed (events : List MBORecord) (b : OrderBook) (h : Aggregated b)
    (hok : feedOk b events = true) (hfit : feedFits b events = true) :
    Aggregated (runFeed b events) := by
  induction events generalizing b with
  | nil => exact h
  | cons r rs ih =>
    simp only [feedOk, Bool.and_eq_true] at hok
    simp only [feedFits, Bool.and_eq_true] at hfit
    exact ih (processRecord b r) (aggregated_processRecord b r h hok.1 hfit.1) hok.2 hfit.2

/-! ## The top-levels queries -/

theorem collectLevels_eq (xs : List (Int × PriceLevel)) (i m : Int) :
    collectLevels xs i m = (xs.map Prod.snd).take (m - i).toNat := by
  induction xs generalizing i with
  | nil => simp [collectLevels]
  | cons hd t ih =>
    obtain ⟨k, l⟩ := hd
    simp only [collectLevels, List.map_cons]
    split_ifs with h
    · have e : (m - i).toNat = (m - (i + 1)).toNat + 1 := by omega
      rw [ih, e, List.take_succ_cons]
    · have e : (m - i).toNat = 0 := by omega
      rw [e, List.take_zero]

theorem getBidLevels_of_nonneg (b : OrderBook) (n : Int) (hn : 0 ≤ n) :
    getBidLevels b n = some ((b.bids.reverse.map Prod.snd).take n.toNat) := by
  unfold getBidLevels
  rw [if_neg (by omega), collectLevels_eq]
  simp

theorem getAskLevels_of_nonneg (b : OrderBook) (n : Int) (hn : 0 ≤ n) :
    getAskLevels b n = some ((b.asks.map Prod.snd).take n.toNat) := by
  unfold getAskLevels
  rw [if_neg (by omega), collectLevels_eq]
  simp

theorem getBidLevels_of_neg (b : OrderBook) (n : Int) (hn : n < 0) :
    getBidLevels b n = none := by
  unfold getBidLevels; rw [if_pos hn]

theorem getAskLevels_of_neg (b : OrderBook) (n : Int) (hn : n < 0) :
    getAskLevels b n = none := by
  unfold getAskLevels; rw [if_pos hn]

/-! ## Order of the stored levels -/

theorem mapFind_none_of_not_mem {V : Type} (m : Table V) (k : Int)
    (h : k ∉ m.map Prod.fst) : mapFind m k = none := by
  induction m with
  | nil => rfl
  | cons hd t ih =>
    obtain ⟨k0, w⟩ := hd
    simp only [List.map_cons, List.mem_cons, not_or] at h
    simp only [mapFind]
    rw [if_neg h.1]
    exact ih h.2

theorem levels_ascending_prices (m : Table PriceLevel) (hk : KeysAscending m)
    (hkeyed : LevelsKeyed m) :
    (m.map Prod.snd).Pairwise (fun x y => x.price < y.price) := by
  rw [List.pairwise_map]
  refine List.Pairwise.imp_of_mem ?_ hk
  intro x y hx hy hlt
  rw [hkeyed x hx, hkeyed y hy]
  exact hlt

theorem levels_descending_prices (m : Table PriceLevel) (hk : KeysAscending m)
    (hkeyed : LevelsKeyed m) :
    (m.reverse.map Prod.snd).Pairwise (fun x y => y.price < x.price) := by
  rw [List.map_reverse, List.pairwise_reverse]
  exact levels_ascending_prices m hk hkeyed

theorem runFeed_append (b : OrderBook) (xs ys : List MBORecord) :
    runFeed b (xs ++ ys) = runFeed (runFeed b xs) ys := by
  simp [runFeed, List.foldl_append]

theorem levelsOn_addOrder (b : OrderBook) (r : MBORecord) (hs : r.side = 'B' ∨ r.side = 'A') :
    levelsOn (addOrder b r) r.side
      = updatePriceLevel (levelsOn b r.side) r.price r.size 1 := by
  rcases hs with h | h
  · simp [levelsOn, h, addOrder_bids]
  · simp [levelsOn, h, addOrder_asks]

/-- The level created by an Add event on an empty price. -/
theorem updatePriceLevel_fresh (m : Table PriceLevel) (p sd : Int) (hsd : 0 < sd)
    (h : mapFind m p = none) :
    updatePriceLevel m p sd 1 = mapAssign m p ⟨p, sd, 1⟩ := by
  unfold updatePriceLevel
  rw [h]
  dsimp only
  rw [if_pos ⟨hsd, by decide⟩]

/-- After Add events on one side, with positive sizes and pairwise distinct
prices, applied to the empty book: the level map of that side is in ascending
key order and holds exactly one level `(price, size, 1)` per event. -/
theorem adds_one_side (evs : List MBORecord) (side : Char) (hs : side = 'B' ∨ side = 'A')
    (hadd : ∀ e ∈ evs, e.action = 'A' ∧ e.side = side ∧ 0 < e.size)
    (hd : (evs.map (fun e => e.price)).Nodup) :
    KeysAscending (levelsOn (runFeed OrderBook.empty evs) side) ∧
    (levelsOn (runFeed OrderBook.empty evs) side).Perm
      (evs.map (fun e => (e.price, (⟨e.price, e.size, 1⟩ : PriceLevel)))) := by
  induction evs using List.reverseRecOn with
  | nil =>
    have : levelsOn (runFeed OrderBook.empty []) side = [] := by
      rcases hs with h | h <;> subst h <;> rfl
    rw [this]
    exact ⟨List.Pairwise.nil, List.Perm.refl _⟩
  | append_singleton l a ih =>
    have hl : ∀ e ∈ l, e.action = 'A' ∧ e.side = side ∧ 0 < e.size :=
      fun e he => hadd e (List.mem_append_left _ he)
    have ha := hadd a (List.mem_append_right _ (List.mem_singleton_self a))
    rw [List.map_append, List.nodup_append] at hd
    obtain ⟨ihk, ihp⟩ := ih hl hd.1
    have hnot : a.price ∉ (levelsOn (runFeed OrderBook.empty l) side).map Prod.fst := by
      intro hmem
      have hmem2 : a.price ∈ l.map (fun e => e.price) := by
        have := (ihp.map Prod.fst).mem_iff.mp hmem
        simpa [List.map_map, Function.comp] using this
      exact hd.2.2 hmem2 (by simp)
    have hnone := mapFind_none_of_not_mem _ _ hnot
    have hside : a.side = 'B' ∨ a.side = 'A' := by rw [ha.2.1]; exact hs
    have e : levelsOn (runFeed OrderBook.empty (l ++ [a])) side
        = mapAssign (levelsOn (runFeed OrderBook.empty l) side) a.price
            ⟨a.price, a.size, 1⟩ := by
      rw [runFeed_append]
      simp only [runFeed, List.foldl_cons, List.foldl_nil]
      rw [processRecord_of_add _ a ha.1]
      have := levelsOn_addOrder (List.foldl processRecord OrderBook.empty l) a hside
      rw [ha.2.1] at this
      rw [this]
      exact updatePriceLevel_fresh _ _ _ ha.2.2 hnone
    rw [e]
    refine ⟨keysAscending_mapAssign _ _ _ ihk, ?_⟩
    refine (mapAssign_perm _ _ _ hnone).trans ?_
    rw [List.map_append]
    exact (ihp.cons _).trans (List.perm_append_singleton _ _).symm

theorem adds_one_side_keyed (evs : List MBORecord) (m : Table PriceLevel)
    (hp : m.Perm (evs.map (fun e => (e.price, (⟨e.price, e.size, 1⟩ : PriceLevel))))) :
    LevelsKeyed m := by
  intro x hx
  obtain ⟨e, _, rfl⟩ := List.mem_map.mp (hp.mem_iff.mp hx)
  rfl

theorem adds_one_side_vals (evs : List MBORecord) (m : Table PriceLevel)
    (hp : m.Perm (evs.map (fun e => (e.price, (⟨e.price, e.size, 1⟩ : PriceLevel))))) :
    (m.map Prod.snd).Perm (evs.map (fun e => (⟨e.price, e.size, 1⟩ : PriceLevel))) := by
  have := hp.map Prod.snd
  simpa [List.map_map, Function.comp] using this

/-- The first `k` of a list of levels that is ordered by `R` and holds one level
per event: their number, and that each of them is ordered before every level
left out. -/
theorem take_of_ordered_levels (vals : List PriceLevel) (evs : List MBORecord)
    (R : PriceLevel → PriceLevel → Prop) (hpw : vals.Pairwise R)
    (hperm : vals.Perm (evs.map (fun e => (⟨e.price, e.size, 1⟩ : PriceLevel)))) (k : Nat) :
    (vals.take k).length = min k evs.length ∧
    (∀ x ∈ vals.take k, ∀ y ∈ vals.drop k, R x y) := by
  have hlen : vals.length = evs.length := by rw [hperm.length_eq, List.length_map]
  refine ⟨by rw [List.length_take, hlen], ?_⟩
  have h := hpw
  rw [← List.take_append_drop k vals, List.pairwise_append] at h
  exact h.2.2

/-! ## The snapshot row as comma-joined fields -/

theorem joinComma_append (xs ys : List String) (hx : xs ≠ []) (hy : ys ≠ []) :
    joinComma (xs ++ ys) = joinComma xs ++ "," ++ joinComma ys := by
  induction xs with
  | nil => exact absurd rfl hx
  | cons x t ih =>
    cases t with
    | nil =>
      cases ys with
      | nil => exact absurd rfl hy
      | cons y u => rfl
    | cons x2 t2 =>
      have h2 : joinComma (x2 :: (t2 ++ ys)) = joinComma (x2 :: t2) ++ "," ++ joinComma ys :=
        ih (by simp)
      show x ++ "," ++ joinComma (x2 :: (t2 ++ ys))
        = x ++ "," ++ joinComma (x2 :: t2) ++ "," ++ joinComma ys
      rw [h2]
      simp only [String.append_assoc]

theorem levelTriple_ne_nil (levels : List PriceLevel) (i : Nat) : levelTriple levels i ≠ [] := by
  unfold levelTriple; split <;> simp

theorem levelTriple_length (levels : List PriceLevel) (i : Nat) :
    (levelTriple levels i).length = 3 := by
  unfold levelTriple; split <;> rfl

theorem levelTriple_take (levels : List PriceLevel) (i : Nat) (h : i < 10) :
    levelTriple (levels.take 10) i = levelTriple levels i := by
  unfold levelTriple; rw [List.getElem?_take_of_lt h]

theorem levelText_eq (bl al : List PriceLevel) (i : Nat) :
    levelText bl al i
      = joinComma (levelTriple bl i ++ levelTriple al i) ++ (if i < 9 then "," else "") := by
  rw [joinComma_append _ _ (levelTriple_ne_nil _ _) (levelTriple_ne_nil _ _)]
  unfold levelText levelTriple
  have e1 : ",0,0," = "" ++ "," ++ ("0" ++ "," ++ "0") ++ "," := by decide
  have e2 : ",0,0" = "" ++ "," ++ ("0" ++ "," ++ "0") := by decide
  cases bl[i]? <;> cases al[i]? <;>
    simp only [joinComma, e1, e2, String.append_assoc]

theorem levelLoop_eq (f : Nat → List String) (hf : ∀ i, f i ≠ []) (k : Nat) (acc : String) :
    (List.range (k + 1)).foldl
        (fun acc i => acc ++ (joinComma (f i) ++ (if i < k then "," else ""))) acc
      = acc ++ joinComma ((List.range (k + 1)).flatMap f) := by
  have P : ∀ m, m ≤ k → ∀ acc : String,
      (List.range (m + 1)).foldl
        (fun acc i => acc ++ (joinComma (f i) ++ (if i < k then "," else ""))) acc
      = acc ++ joinComma ((List.range (m + 1)).flatMap f) ++ (if m < k then "," else "") := by
    intro m
    induction m with
    | zero =>
      intro _ acc
      simp [List.range_succ, String.append_assoc]
    | succ m ih =>
      intro hm acc
      rw [List.range_succ, List.foldl_append, ih (by omega) acc, List.flatMap_append]
      have hne : (List.range (m + 1)).flatMap f ≠ [] := by
        rw [List.range_succ, List.flatMap_append]
        simp [hf]
      simp only [List.foldl_cons, List.foldl_nil, List.flatMap_cons, List.flatMap_nil,
        List.append_nil]
      rw [joinComma_append _ _ hne (hf _), if_pos (by omega)]
      simp only [String.append_assoc]
  have := P k (le_refl k) acc
  rw [if_neg (by omega), String.append_empty] at this
  exact this

theorem generateMBPOutput_eq (b : OrderBook) (r : MBORecord) (idx : Int) :
    generateMBPOutput b r idx = some (joinComma (
      [r.ts_recv, r.ts_event, "10", toString r.publisher_id, toString r.instrument_id,
       r.action.toString, r.side.toString, "0", formatPrice r.price, toString r.size,
       toString r.flags, toString r.ts_in_delta, toString r.sequence]
      ++ levelColumns b ++ [r.symbol, toString r.order_id])) := by
  have hne : levelColumns b ≠ [] := by
    unfold levelColumns
    rw [List.range_succ, List.flatMap_append]
    simp [levelTriple_ne_nil]
  have hloop : ∀ acc : String,
      (List.range 10).foldl
        (fun acc i => acc ++ levelText ((bestBids b).take 10) ((bestAsks b).take 10) i) acc
      = acc ++ joinComma (levelColumns b) := by
    intro acc
    have h := levelLoop_eq
      (fun i => levelTriple ((bestBids b).take 10) i ++ levelTriple ((bestAsks b).take 10) i)
      (fun i => by simp [levelTriple_ne_nil]) 9 acc
    simp only [← levelText_eq] at h
    rw [h]
    unfold levelColumns
    congr 2
    apply List.flatMap_congr
    intro i hi
    have hi10 : i < 10 := List.mem_range.mp hi
    rw [levelTriple_take _ _ hi10, levelTriple_take _ _ hi10]
  unfold generateMBPOutput
  rw [getBidLevels_of_nonneg b 10 (by decide), getAskLevels_of_nonneg b 10 (by decide)]
  dsimp only
  have h10 : (10 : Int).toNat = 10 := rfl
  rw [h10]
  have hb : (b.bids.reverse.map Prod.snd) = bestBids b := rfl
  have ha : (b.asks.map Prod.snd) = bestAsks b := rfl
  rw [hb, ha, hloop]
  rw [joinComma_append _ _ (by simp [hne]) (by simp),
    joinComma_append _ _ (by simp) hne]
  have e10 : "10," = "10" ++ "," := by decide
  have e0 : "0," = "0" ++ "," := by decide
  simp only [joinComma, e10, e0, String.append_assoc]

/-- Position of the chunks in a concatenation of chunks of six fields. -/
theorem flatMap_chunk (g : Nat → List String) (hg : ∀ i, (g i).length = 6) (n i : Nat)
    (h : i < n) : (((List.range n).flatMap g).drop (6 * i)).take 6 = g i := by
  have hlen : ∀ m, ((List.range m).flatMap g).length = 6 * m := by
    intro m
    induction m with
    | zero => rfl
    | succ m ih =>
      rw [List.range_succ, List.flatMap_append, List.length_append, ih]
      simp [hg]
      omega
  induction n with
  | zero => omega
  | succ n ih =>
    rw [List.range_succ, List.flatMap_append]
    simp only [List.flatMap_cons, List.flatMap_nil, List.append_nil]
    by_cases hi : i < n
    · rw [List.drop_append_of_le_length (by rw [hlen]; omega),
        List.take_append_of_le_length (by rw [List.length_drop, hlen]; omega)]
      exact ih hi
    · have e : i = n := by omega
      subst e
      have h6 : 6 * i = ((List.range i).flatMap g).length := (hlen i).symm
      rw [h6, List.drop_left, List.take_of_length_le (by rw [hg])]

theorem levelColumns_bid (b : OrderBook) (i : Nat) (h : i < 10) :
    ((levelColumns b).drop (6 * i)).take 3 = levelTriple (bestBids b) i := by
  have hc := flatMap_chunk
    (fun i => levelTriple (bestBids b) i ++ levelTriple (bestAsks b) i)
    (fun i => by simp [levelTriple_length]) 10 i h
  have : ((levelColumns b).drop (6 * i)).take 3
      = ((((levelColumns b).drop (6 * i)).take 6)).take 3 := by
    rw [List.take_take]; rfl
  rw [this]
  unfold levelColumns
  rw [hc, List.take_left' (levelTriple_length _ _)]

theorem levelColumns_ask (b : OrderBook) (i : Nat) (h : i < 10) :
    ((levelColumns b).drop (6 * i + 3)).take 3 = levelTriple (bestAsks b) i := by
  have hc := flatMap_chunk
    (fun i => levelTriple (bestBids b) i ++ levelTriple (bestAsks b) i)
    (fun i => by simp [levelTriple_length]) 10 i h
  have : ((levelColumns b).drop (6 * i + 3)).take 3
      = ((((levelColumns b).drop (6 * i)).take 6)).drop 3 := by
    rw [List.drop_take, ← List.drop_drop]
  rw [this]
  unfold levelColumns
  rw [hc, List.drop_left' (levelTriple_length _ _)]

theorem levelColumns_length (b : OrderBook) : (levelColumns b).length = 60 := by
  unfold levelColumns
  have hr : List.range 10 = [0, 1, 2, 3, 4, 5, 6, 7, 8, 9] := by decide
  rw [hr]
  simp [levelTriple_length]

/-- The processing loop started from book `b` with row index `k`. -/
theorem mainLoop_spec (events : List MBORecord) (b : OrderBook) (k : Int) :
    ∃ rows, mainLoop b k events = some rows ∧ rows.length = events.length ∧
      ∀ (i : Nat) (e : MBORecord), events[i]? = some e →
        rows[i]? = generateMBPOutput (runFeed b (events.take (i + 1))) e (k + i) := by
  induction events generalizing b k with
  | nil => exact ⟨[], rfl, rfl, fun i e h => by simp at h⟩
  | cons r rs ih =>
    obtain ⟨rows, hrows, hlen, hget⟩ := ih (processRecord b r) (k + 1)
    obtain ⟨line, hline⟩ : ∃ line, generateMBPOutput (processRecord b r) r k = some line :=
      ⟨_, generateMBPOutput_eq _ _ _⟩
    refine ⟨line :: rows, ?_, by simp [hlen], ?_⟩
    · simp only [mainLoop, hline, hrows]
    · intro i e he
      cases i with
      | zero =>
        simp only [List.getElem?_cons_zero, Option.some.injEq] at he
        subst he
        simp [runFeed, hline]
      | succ j =>
        simp only [List.getElem?_cons_succ] at he
        have := hget j e he
        simp only [List.getElem?_cons_succ, this, List.take_succ_cons, runFeed,
          List.foldl_cons]
        congr 1
        push_cast
        ring

/-! ## Steps that leave the buffer pattern incomplete -/

theorem lastThreeAreTFC_append (old : List MBORecord) (r : MBORecord) :
    lastThreeAreTFC (old ++ [r]) = (endsTradeFill old && decide (r.action = 'C')) := by
  unfold lastThreeAreTFC endsTradeFill
  rw [List.reverse_append]
  simp only [List.reverse_cons, List.reverse_nil, List.nil_append, List.singleton_append]
  cases h : old.reverse with
  | nil => rfl
  | cons f rest =>
    cases rest with
    | nil => rfl
    | cons t rest2 => rfl

theorem cancelOrder_idem (b : OrderBook) (r : MBORecord) :
    cancelOrder (cancelOrder b r) r = cancelOrder b r := by
  cases ho : mapFind b.orders r.order_id with
  | none => rw [cancelOrder_of_dead b r ho, cancelOrder_of_dead b r ho]
  | some o =>
    rw [cancelOrder_of_live b r o ho]
    apply cancelOrder_of_dead
    simp [mapFind_mapErase]

theorem handleTradeSequence_idem (b : OrderBook) (sequence : List MBORecord) :
    handleTradeSequence (handleTradeSequence b sequence) sequence
      = handleTradeSequence b sequence := by
  match sequence with
  | [] => rfl
  | [_] => rfl
  | [_, _] => rfl
  | _ :: _ :: _ :: _ :: _ => rfl
  | [t, f, c] =>
    cases ho : mapFind b.orders f.order_id with
    | none => rw [handleTradeSequence_of_dead b t f c ho, handleTradeSequence_of_dead b t f c ho]
    | some o =>
      rw [handleTradeSequence_of_live b t f c o ho]
      apply handleTradeSequence_of_dead
      simp [mapFind_mapErase]

/-! ## Existence of a level and live orders -/

theorem mapFind_of_mem {V : Type} (m : Table V) (hk : KeysAscending m) (k : Int) (v : V)
    (h : (k, v) ∈ m) : mapFind m k = some v := by
  induction m with
  | nil => simp at h
  | cons hd t ih =>
    obtain ⟨k0, w⟩ := hd
    unfold KeysAscending at hk ih
    rw [List.pairwise_cons] at hk
    simp only [mapFind]
    rcases List.mem_cons.mp h with heq | hmem
    · simp only [Prod.mk.injEq] at heq
      rw [if_pos heq.1, heq.2]
    · have hlt := hk.1 (k, v) hmem
      dsimp only at hlt
      rw [if_neg (by omega)]
      exact ih hk.2 hmem

theorem orderCnt_pos_iff (os : Table Order) (hk : KeysAscending os) (s : Char) (p : Int) :
    0 < orderCnt os s p ↔ ∃ k o, mapFind os k = some o ∧ o.side = s ∧ o.price = p := by
  unfold orderCnt
  rw [Int.natCast_pos, List.length_pos_iff_exists_mem]
  constructor
  · rintro ⟨o, ho⟩
    unfold liveAt at ho
    rw [List.mem_filter, List.mem_map] at ho
    obtain ⟨⟨⟨k, o2⟩, hmem, rfl⟩, hcond⟩ := ho
    simp only [decide_eq_true_eq] at hcond
    exact ⟨k, o2, mapFind_of_mem os hk k o2 hmem, hcond.1, hcond.2⟩
  · rintro ⟨k, o, hf, h1, h2⟩
    refine ⟨o, ?_⟩
    unfold liveAt
    rw [List.mem_filter, List.mem_map]
    exact ⟨⟨(k, o), mapFind_mem os k o hf, rfl⟩, by simp [h1, h2]⟩

theorem aggregated_side (b : OrderBook) (h : Aggregated b) (side : Char)
    (hs : side = 'B' ∨ side = 'A') :
    LevelsPositive (levelsOn b side) ∧
    ∀ q, totals (levelsOn b side) q = (sizeSum b.orders side q, orderCnt b.orders side q) := by
  rcases hs with hB | hA
  · subst hB
    have e : levelsOn b 'B' = b.bids := by simp [levelsOn]
    rw [e]
    exact ⟨h.posBids, h.bidTotals⟩
  · subst hA
    have e : levelsOn b 'A' = b.asks := by simp [levelsOn]
    rw [e]
    exact ⟨h.posAsks, h.askTotals⟩

/-! ## The pending buffer -/

theorem actionAt_append_left (pre l : List MBORecord) (i : Nat) (h : i < pre.length) :
    actionAt (pre ++ l) i = actionAt pre i := by
  simp [actionAt, List.getElem?_append_left h]

theorem actionAt_lt (buf : List MBORecord) (i : Nat) (c : Char)
    (h : actionAt buf i = some c) : i < buf.length := by
  by_contra hge
  have hn : buf.get? i = none := List.get?_eq_none.mpr (by omega)
  unfold actionAt at h
  rw [hn] at h
  exact absurd h (by simp)

/-- How one event changes the pending buffer: not at all, by appending the event
without completing the pattern, or by removing the final Trade, Fill pair. -/
theorem pending_processRecord (b : OrderBook) (r : MBORecord) :
    (processRecord b r).pending_sequence = b.pending_sequence ∨
    ((processRecord b r).pending_sequence = b.pending_sequence ++ [r] ∧
      ((r.action = 'T' ∧ r.side ≠ 'N') ∨ r.action = 'F' ∨ r.action = 'C') ∧
      ¬ (endsTradeFill b.pending_sequence = true ∧ r.action = 'C')) ∨
    (∃ pre t f, b.pending_sequence = pre ++ [t, f] ∧
      (processRecord b r).pending_sequence = pre) := by
  by_cases hR : r.action = 'R'
  · rw [processRecord_of_reset b r hR]; exact Or.inl rfl
  by_cases hA : r.action = 'A'
  · rw [processRecord_of_add b r hA]; exact Or.inl (addOrder_pending b r)
  by_cases hT : r.action = 'T'
  · by_cases hs : r.side = 'N'
    · rw [processRecord_of_tradeN b r hT hs]; exact Or.inl rfl
    · rw [processRecord_of_trade b r hT hs]
      exact Or.inr (Or.inl ⟨rfl, Or.inl ⟨hT, hs⟩,
        fun h => by rw [hT] at h; exact absurd h.2 (by decide)⟩)
  by_cases hF : r.action = 'F'
  · rw [processRecord_of_fill b r hF]
    exact Or.inr (Or.inl ⟨rfl, Or.inr (Or.inl hF),
      fun h => by rw [hF] at h; exact absurd h.2 (by decide)⟩)
  by_cases hC : r.action = 'C'
  · cases hm : endsTradeFill b.pending_sequence with
    | false =>
      refine Or.inr (Or.inl ⟨?_, Or.inr (Or.inr hC), fun h => by simp at h⟩)
      cases ho : mapFind b.orders r.order_id with
      | none => rw [processRecord_cancel_nomatch_dead b r hC hm ho]
      | some o => rw [processRecord_cancel_nomatch_live b r o hC hm ho]
    | true =>
      obtain ⟨pre, t, f, hp, ht, hf⟩ := endsTradeFill_split _ hm
      refine Or.inr (Or.inr ⟨pre, t, f, hp, ?_⟩)
      cases ho : mapFind b.orders f.order_id with
      | none => rw [processRecord_cancel_match_dead b r hC pre t f hp ht hf ho]
      | some o => rw [processRecord_cancel_match_live b r hC pre t f hp ht hf o ho]
  · rw [processRecord_of_other b r hA hC hT hF hR]; exact Or.inl rfl

theorem pendingOk_processRecord (b : OrderBook) (r : MBORecord)
    (h : PendingOk b.pending_sequence) : PendingOk (processRecord b r).pending_sequence := by
  rcases pending_processRecord b r with he | ⟨he, hact, hno⟩ | ⟨pre, t, f, hp, he⟩
  · rw [he]; exact h
  · rw [he]
    have htest := (tfc_test_iff b.pending_sequence r).not.mpr hno
    constructor
    · intro e hmem
      rcases List.mem_append.mp hmem with hm | hm
      · exact h.1 e hm
      · rw [List.mem_singleton.mp hm]
        rcases hact with ⟨hT, hs⟩ | hF | hC
        · exact ⟨Or.inl hT, fun hh => hs hh.2⟩
        · exact ⟨Or.inr (Or.inl hF), fun hh => by rw [hF] at hh; exact absurd hh.1 (by decide)⟩
        · exact ⟨Or.inr (Or.inr hC), fun hh => by rw [hC] at hh; exact absurd hh.1 (by decide)⟩
    · intro i hi
      have hlt := actionAt_lt _ _ _ hi.2.2
      rw [List.length_append, List.length_singleton] at hlt
      by_cases hin : i + 2 < b.pending_sequence.length
      · apply h.2 i
        rw [actionAt_append_left _ _ _ (by omega), actionAt_append_left _ _ _ (by omega),
          actionAt_append_left _ _ _ hin] at hi
        exact hi
      · apply htest
        have hlen : (b.pending_sequence ++ [r]).length - 3 = i := by
          rw [List.length_append, List.length_singleton]; omega
        rw [hlen]
        exact ⟨by rw [List.length_append, List.length_singleton]; omega, hi⟩
  · rw [he]
    rw [hp] at h
    constructor
    · intro e hmem
      exact h.1 e (List.mem_append_left _ hmem)
    · intro i hi
      have h0 := actionAt_lt _ _ _ hi.1
      have h1 := actionAt_lt _ _ _ hi.2.1
      have h2 := actionAt_lt _ _ _ hi.2.2
      apply h.2 i
      rw [actionAt_append_left _ _ _ h0, actionAt_append_left _ _ _ h1,
        actionAt_append_left _ _ _ h2]
      exact hi

theorem pendingOk_runFeed (events : List MBORecord) (b : OrderBook)
    (h : PendingOk b.pending_sequence) : PendingOk (runFeed b events).pending_sequence := by
  induction events generalizing b with
  | nil => exact h
  | cons r rs ih => exact ih (processRecord b r) (pendingOk_processRecord b r h)

/-! ## Key order of all three tables in reachable states -/

theorem keysAscending_updatePriceLevel (m : Table PriceLevel) (p sd cd : Int)
    (h : KeysAscending m) : KeysAscending (updatePriceLevel m p sd cd) := by
  unfold updatePriceLevel
  split
  · dsimp only
    split_ifs
    · exact keysAscending_mapErase _ _ h
    · exact keysAscending_mapAssign _ _ _ h
  · split_ifs
    · exact keysAscending_mapAssign _ _ _ h
    · exact h

theorem sorted_processRecord (b : OrderBook) (r : MBORecord)
    (h : KeysAscending b.orders ∧ KeysAscending b.bids ∧ KeysAscending b.asks) :
    KeysAscending (processRecord b r).orders ∧ KeysAscending (processRecord b r).bids ∧
    KeysAscending (processRecord b r).asks := by
  have upd := keysAscending_updatePriceLevel
  by_cases hR : r.action = 'R'
  · rw [processRecord_of_reset b r hR]; exact h
  by_cases hA : r.action = 'A'
  · rw [processRecord_of_add b r hA, addOrder_orders, addOrder_bids, addOrder_asks]
    refine ⟨keysAscending_mapAssign _ _ _ h.1, ?_, ?_⟩
    · split_ifs
      · exact upd _ _ _ _ h.2.1
      · exact h.2.1
    · split_ifs
      · exact upd _ _ _ _ h.2.2
      · exact h.2.2
  by_cases hT : r.action = 'T'
  · by_cases hs : r.side = 'N'
    · rw [processRecord_of_tradeN b r hT hs]; exact h
    · rw [processRecord_of_trade b r hT hs]; exact h
  by_cases hF : r.action = 'F'
  · rw [processRecord_of_fill b r hF]; exact h
  by_cases hC : r.action = 'C'
  · cases hm : endsTradeFill b.pending_sequence with
    | false =>
      cases ho : mapFind b.orders r.order_id with
      | none => rw [processRecord_cancel_nomatch_dead b r hC hm ho]; exact h
      | some o =>
        rw [processRecord_cancel_nomatch_live b r o hC hm ho]
        dsimp only
        refine ⟨keysAscending_mapErase _ _ h.1, ?_, ?_⟩
        · split_ifs
          · exact upd _ _ _ _ h.2.1
          · exact h.2.1
        · split_ifs
          · exact upd _ _ _ _ h.2.2
          · exact h.2.2
    | true =>
      obtain ⟨pre, t, f, hp, ht, hf⟩ := endsTradeFill_split _ hm
      cases ho : mapFind b.orders f.order_id with
      | none => rw [processRecord_cancel_match_dead b r hC pre t f hp ht hf ho]; exact h
      | some o =>
        rw [processRecord_cancel_match_live b r hC pre t f hp ht hf o ho]
        dsimp only
        refine ⟨keysAscending_mapErase _ _ h.1, ?_, ?_⟩
        · split_ifs
          · exact upd _ _ _ _ h.2.1
          · exact h.2.1
        · split_ifs
          · exact upd _ _ _ _ h.2.2
          · exact h.2.2
  · rw [processRecord_of_other b r hA hC hT hF hR]; exact h

theorem sorted_runFeed (events : List MBORecord) (b : OrderBook)
    (h : KeysAscending b.orders ∧ KeysAscending b.bids ∧ KeysAscending b.asks) :
    KeysAscending (runFeed b events).orders ∧ KeysAscending (runFeed b events).bids ∧
    KeysAscending (runFeed b events).asks := by
  induction events generalizing b with
  | nil => exact h
  | cons r rs ih => exact ih (processRecord b r) (sorted_processRecord b r h)

/-! ## Undoing an insertion -/

theorem mapErase_of_not_found {V : Type} (m : Table V) (k : Int) (h : mapFind m k = none) :
    mapErase m k = m := by
  induction m with
  | nil => rfl
  | cons hd t ih =>
    obtain ⟨k0, w⟩ := hd
    simp only [mapFind] at h
    split_ifs at h with h0
    have hne : k0 ≠ k := fun e => h0 e.symm
    have ht := ih h
    unfold mapErase at ht ⊢
    rw [List.filter_cons, if_pos (decide_eq_true hne), ht]

theorem mapErase_mapAssign_fresh {V : Type} (m : Table V) (k : Int) (v : V)
    (h : mapFind m k = none) : mapErase (mapAssign m k v) k = m := by
  induction m with
  | nil => simp [mapAssign, mapErase]
  | cons hd t ih =>
    obtain ⟨k0, w⟩ := hd
    have hall := mapErase_of_not_found _ _ h
    simp only [mapFind] at h
    split_ifs at h with h0
    have hne : k0 ≠ k := fun e => h0 e.symm
    simp only [mapAssign]
    split_ifs with h1
    · unfold mapErase at hall ⊢
      rw [List.filter_cons]
      simp only [ne_eq, not_true_eq_false, decide_False, Bool.false_eq_true, if_false]
      exact hall
    · have ht := ih h
      unfold mapErase at ht ⊢
      rw [List.filter_cons, if_pos (decide_eq_true hne), ht]

theorem mapAssign_restore {V : Type} (m : Table V) (hk : KeysAscending m) (k : Int) (v l : V)
    (h : mapFind m k = some l) : mapAssign (mapAssign m k v) k l = m := by
  induction m with
  | nil => simp [mapFind] at h
  | cons hd t ih =>
    obtain ⟨k0, w⟩ := hd
    unfold KeysAscending at hk ih
    rw [List.pairwise_cons] at hk
    simp only [mapFind] at h
    split_ifs at h with h0
    · simp only [Option.some.injEq] at h
      subst h0 h
      simp [mapAssign]
    · have hlt := hk.1 (k, l) (mapFind_mem t k l h)
      dsimp only at hlt
      have h1 : ¬ k < k0 := by omega
      simp only [mapAssign, if_neg h1, if_neg h0]
      rw [ih hk.2 h]

theorem updatePriceLevel_round_trip (m : Table PriceLevel) (hk : KeysAscending m)
    (hpos : LevelsPositive m) (p size : Int) (hsize : 0 < size)
    (hfit : ∀ l, mapFind m p = some l →
      l.total_size + size < 2147483648 ∧ l.order_count + 1 < 2147483648) :
    updatePriceLevel (updatePriceLevel m p size 1) p (wrapInt32 (-size)) (-1) = m := by
  cases hf : mapFind m p with
  | none =>
    rw [updatePriceLevel_fresh m p size hsize hf]
    unfold updatePriceLevel
    rw [mapFind_mapAssign, if_pos rfl]
    dsimp only
    rw [if_pos (Or.inl (by decide))]
    exact mapErase_mapAssign_fresh m p _ hf
  | some l =>
    have hl := hpos _ (mapFind_mem m p l hf)
    have hfl := hfit l hf
    dsimp only at hl
    have w1 : wrapInt32 (l.total_size + size) = l.total_size + size :=
      wrapInt32_of_range _ (by omega) (by omega)
    have w2 : wrapInt32 (l.order_count + 1) = l.order_count + 1 :=
      wrapInt32_of_range _ (by omega) (by omega)
    have e1 : updatePriceLevel m p size 1
        = mapAssign m p ⟨l.price, l.total_size + size, l.order_count + 1⟩ := by
      unfold updatePriceLevel
      rw [hf]
      dsimp only
      rw [w1, w2, if_neg (by omega)]
    rw [e1]
    unfold updatePriceLevel
    rw [mapFind_mapAssign, if_pos rfl]
    dsimp only
    have w3 : wrapInt32 (l.total_size + size + wrapInt32 (-size)) = l.total_size := by
      rw [wrapInt32_add_neg]
      have e : l.total_size + size - size = l.total_size := by omega
      rw [e]
      exact wrapInt32_of_range _ (by omega) (by omega)
    have w4 : wrapInt32 (l.order_count + 1 + -1) = l.order_count := by
      have e : l.order_count + 1 + -1 = l.order_count := by omega
      rw [e]
      exact wrapInt32_of_range _ (by omega) (by omega)
    rw [w3, w4, if_neg (by omega)]
    exact mapAssign_restore m hk p _ l hf

/-! ## Splitting a line at its commas -/

theorem stream_cases (s : List Char) :
    (s.dropWhile (fun c => decide (c ≠ ',')) = [] ∧
      s.takeWhile (fun c => decide (c ≠ ',')) = s ∧ ',' ∉ s) ∨
    (∃ rest, s.dropWhile (fun c => decide (c ≠ ',')) = ',' :: rest ∧
      s = s.takeWhile (fun c => decide (c ≠ ',')) ++ ',' :: rest ∧
      ',' ∉ s.takeWhile (fun c => decide (c ≠ ','))) := by
  induction s with
  | nil => left; simp
  | cons c t ih =>
    by_cases hc : c = ','
    · right
      subst hc
      exact ⟨t, by simp, by simp, by simp⟩
    · have e1 : (c :: t).dropWhile (fun c => decide (c ≠ ','))
          = t.dropWhile (fun c => decide (c ≠ ',')) := by
        simp [List.dropWhile_cons, hc]
      have e2 : (c :: t).takeWhile (fun c => decide (c ≠ ','))
          = c :: t.takeWhile (fun c => decide (c ≠ ',')) := by
        simp [List.takeWhile_cons, hc]
      rw [e1, e2]
      rcases ih with ⟨h1, h2, h3⟩ | ⟨rest, h1, h2, h3⟩
      · left
        refine ⟨h1, by rw [h2], ?_⟩
        intro hm
        rcases List.mem_cons.mp hm with h | h
        · exact hc h.symm
        · exact h3 h
      · right
        refine ⟨rest, h1, ?_, ?_⟩
        · rw [List.cons_append, ← h2]
        · intro hm
          rcases List.mem_cons.mp hm with h | h
          · exact hc h.symm
          · exact h3 h

theorem endsWithComma_append (xs ys : List Char) (hy : ys ≠ []) :
    endsWithComma (xs ++ ys) = endsWithComma ys := by
  induction xs with
  | nil => rfl
  | cons x t ih =>
    have hne : t ++ ys ≠ [] := by simp [hy]
    cases hty : t ++ ys with
    | nil => exact absurd hty hne
    | cons c u =>
      rw [List.cons_append, hty]
      show endsWithComma (c :: u) = endsWithComma ys
      rw [← hty, ih]

theorem endsWithComma_of_not_mem (s : List Char) (h : ',' ∉ s) : endsWithComma s = false := by
  induction s with
  | nil => rfl
  | cons x t ih =>
    cases t with
    | nil =>
      have : x ≠ ',' := fun e => h (by simp [e])
      simp [endsWithComma, this]
    | cons c u =>
      show endsWithComma (c :: u) = false
      exact ih (fun hm => h (List.mem_cons_of_mem _ hm))

theorem endsWithComma_iff (s : List Char) :
    endsWithComma s = true ↔ ∃ pre, s = pre ++ [','] := by
  constructor
  · intro h
    induction s with
    | nil => simp [endsWithComma] at h
    | cons x t ih =>
      cases t with
      | nil =>
        simp only [endsWithComma, decide_eq_true_eq] at h
        exact ⟨[], by simp [h]⟩
      | cons c u =>
        obtain ⟨pre, hp⟩ := ih h
        exact ⟨x :: pre, by rw [hp]; rfl⟩
  · rintro ⟨pre, rfl⟩
    rw [endsWithComma_append _ _ (by simp)]
    rfl

theorem joinComma_data_cons (x : String) (fs : List String) (h : fs ≠ []) :
    (joinComma (x :: fs)).data = x.data ++ ',' :: (joinComma fs).data := by
  cases fs with
  | nil => exact absurd rfl h
  | cons y t =>
    show (x ++ "," ++ joinComma (y :: t)).data = _
    simp [String.data_append]

theorem splitLoop_nil (fuel : Nat) : splitLoop fuel [] = [] := by
  cases fuel <;> rfl

theorem splitLoop_spec (fuel : Nat) (s : List Char) (h : s.length < fuel) :
    (s = [] → splitLoop fuel s = []) ∧
    (s ≠ [] → endsWithComma s = false →
      (splitLoop fuel s).length = s.count ',' + 1 ∧ (joinComma (splitLoop fuel s)).data = s) ∧
    (endsWithComma s = true → (splitLoop fuel s).length = s.count ',') := by
  induction fuel generalizing s with
  | zero => omega
  | succ fuel ih =>
    cases s with
    | nil =>
      refine ⟨fun _ => rfl, fun hne => absurd rfl hne, fun he => ?_⟩
      simp [endsWithComma] at he
    | cons c t =>
      refine ⟨fun hnil => by simp at hnil, ?_, ?_⟩ <;>
      rcases stream_cases (c :: t) with ⟨h1, h2, h3⟩ | ⟨rest, h1, h2, h3⟩
      · intro _ _
        have e : splitLoop (fuel + 1) (c :: t) = [String.mk (c :: t)] := by
          simp only [splitLoop, getlineComma, h1, h2, List.drop_nil, splitLoop_nil]
        rw [e]
        exact ⟨by simp [List.count_eq_zero_of_not_mem h3], rfl⟩
      · intro _ hends
        have e : splitLoop (fuel + 1) (c :: t)
            = String.mk ((c :: t).takeWhile (fun c => decide (c ≠ ','))) :: splitLoop fuel rest := by
          simp only [splitLoop, getlineComma, h1, List.drop_succ_cons, List.drop_zero]
        have hlen : rest.length < fuel := by
          have := congrArg List.length h2
          simp only [List.length_append, List.length_cons] at this h
          omega
        have hcount : (c :: t).count ',' = rest.count ',' + 1 := by
          conv_lhs => rw [h2]
          rw [List.count_append, List.count_eq_zero_of_not_mem h3, List.count_cons_self]
          omega
        rw [h2, endsWithComma_append _ _ (by simp)] at hends
        have hrest : rest ≠ [] := by
          intro hr
          rw [hr] at hends
          simp [endsWithComma] at hends
        have hends2 : endsWithComma rest = false := by
          cases rest with
          | nil => exact absurd rfl hrest
          | cons d u => exact hends
        obtain ⟨hl, hj⟩ := (ih rest hlen).2.1 hrest hends2
        have hne : splitLoop fuel rest ≠ [] := by
          intro hn
          rw [hn] at hl
          simp at hl
        rw [e]
        refine ⟨by rw [List.length_cons, hl, hcount], ?_⟩
        rw [joinComma_data_cons _ _ hne, hj]
        exact h2.symm
      · intro hends
        rw [endsWithComma_of_not_mem _ h3] at hends
        exact absurd hends (by decide)
      · intro hends
        have e : splitLoop (fuel + 1) (c :: t)
            = String.mk ((c :: t).takeWhile (fun c => decide (c ≠ ','))) :: splitLoop fuel rest := by
          simp only [splitLoop, getlineComma, h1, List.drop_succ_cons, List.drop_zero]
        have hlen : rest.length < fuel := by
          have := congrArg List.length h2
          simp only [List.length_append, List.length_cons] at this h
          omega
        have hcount : (c :: t).count ',' = rest.count ',' + 1 := by
          conv_lhs => rw [h2]
          rw [List.count_append, List.count_eq_zero_of_not_mem h3, List.count_cons_self]
          omega
        rw [h2, endsWithComma_append _ _ (by simp)] at hends
        rw [e, List.length_cons, hcount]
        cases rest with
        | nil => simp [splitLoop_nil]
        | cons d u =>
          have hends2 : endsWithComma (d :: u) = true := hends
          rw [(ih (d :: u) hlen).2.2 hends2]

theorem splitCSV_spec (line : String) :
    (line.toList = [] → splitCSV line = []) ∧
    (line.toList ≠ [] → endsWithComma line.toList = false →
      (splitCSV line).length = line.toList.count ',' + 1 ∧ joinComma (splitCSV line) = line) ∧
    (endsWithComma line.toList = true → (splitCSV line).length = line.toList.count ',') := by
  have h := splitLoop_spec (line.length + 1) line.toList (by
    cases line
    exact Nat.lt_succ_self _)
  refine ⟨h.1, fun h1 h2 => ?_, h.2.2⟩
  obtain ⟨hl, hj⟩ := h.2.1 h1 h2
  exact ⟨hl, String.ext hj⟩

theorem splitCSV_length_le (line : String) :
    (splitCSV line).length ≤ line.toList.count ',' + 1 := by
  have h := splitCSV_spec line
  by_cases hnil : line.toList = []
  · rw [h.1 hnil]; simp
  · cases he : endsWithComma line.toList with
    | false => rw [(h.2.1 hnil he).1]
    | true => rw [h.2.2 he]; omega

/-! ## Parsing a line -/

theorem parseLine_of_few (stoi stol stod : String → Option Int) (line : String)
    (h : (splitCSV line).length < 15) : parseLine stoi stol stod line = none := by
  unfold parseLine
  dsimp only
  rw [if_pos h]

/-- A line with fewer than 14 commas is rejected. -/
theorem parseLine_of_few_commas (stoi stol stod : String → Option Int) (line : String)
    (h : line.toList.count ',' + 1 < 15) : parseLine stoi stol stod line = none :=
  parseLine_of_few stoi stol stod line (lt_of_le_of_lt (splitCSV_length_le line) h)

/-- A line that splits into at least fifteen fields, whose numeric fields are
accepted by the conversions, is parsed into the record holding those values;
a blank price gives 0 and a blank size gives 0. -/
theorem parseLine_of_fields (stoi stol stod : String → Option Int) (line : String)
    (f0 f1 f2 f3 f4 f5 f6 f7 f8 f9 f10 f11 f12 f13 f14 : String) (more : List String)
    (rtype publisher_id instrument_id price size channel_id order_id flags ts_in_delta
      sequence : Int)
    (hsplit : splitCSV line
      = f0 :: f1 :: f2 :: f3 :: f4 :: f5 :: f6 :: f7 :: f8 :: f9 :: f10 :: f11 :: f12 :: f13
        :: f14 :: more)
    (h2 : stoi f2 = some rtype) (h3 : stoi f3 = some publisher_id)
    (h4 : stoi f4 = some instrument_id)
    (h7 : (if f7 = "" then some 0 else stod f7) = some price)
    (h8 : (if f8 = "" then some 0 else stoi f8) = some size)
    (h9 : stoi f9 = some channel_id) (h10 : stol f10 = some order_id)
    (h11 : stoi f11 = some flags) (h12 : stoi f12 = some ts_in_delta)
    (h13 : stol f13 = some sequence) :
    parseLine stoi stol stod line = some
      { ts_recv := f0, ts_event := f1, rtype := rtype, publisher_id := publisher_id,
        instrument_id := instrument_id,
        action := (match f5.toList with | [] => '?' | c :: _ => c),
        side := (match f6.toList with | [] => '?' | c :: _ => c),
        price := price, size := size, channel_id := channel_id, order_id := order_id,
        flags := flags, ts_in_delta := ts_in_delta, sequence := sequence, symbol := f14 } := by
  unfold parseLine
  rw [hsplit]
  dsimp only
  rw [if_neg (by simp)]
  by_cases e7 : f7 = ""
  · rw [if_pos e7] at h7
    cases h7
    by_cases e8 : f8 = ""
    · rw [if_pos e8] at h8
      cases h8
      simp [h2, h3, h4, h9, h10, h11, h12, h13, e7, e8]
    · rw [if_neg e8] at h8
      simp [h2, h3, h4, h8, h9, h10, h11, h12, h13, e7, e8]
  · rw [if_neg e7] at h7
    by_cases e8 : f8 = ""
    · rw [if_pos e8] at h8
      cases h8
      simp [h2, h3, h4, h7, h9, h10, h11, h12, h13, e7, e8]
    · rw [if_neg e8] at h8
      simp [h2, h3, h4, h7, h8, h9, h10, h11, h12, h13, e7, e8]

/-! ## Claims -/

/-- C1. Price-level positivity invariant: in every book state reached from the
empty book by any sequence of `processRecord` calls, every level present in the
bid map or in the ask map has `total_size > 0` and `order_count > 0`. -/
theorem C1_levels_positive_reachable (events : List MBORecord) :
    LevelsPositive (runFeed OrderBook.empty events).bids ∧
    LevelsPositive (runFeed OrderBook.empty events).asks :=
  levelsPositive_runFeed events OrderBook.empty
    ⟨fun _ hx => absurd hx (List.not_mem_nil _), fun _ hx => absurd hx (List.not_mem_nil _)⟩

/-- C2, counterexample. (i) A zero-size Add creates no level (by design, see the
edge-case test) but stores the order; a second Add at the same side and price
then creates the level with one order, while two live orders are stored with
that side and price: the level count is 1 and the number of orders is 2.
(ii) Three Adds at one bid price with sizes INT_MAX = 2147483647, 1 and 5 and
fresh order ids: the second credit overflows the `int` total, the level is
erased, and the third Add creates the level (5, 1 order), while three live
orders of total size 2147483653 are stored with that side and price. -/
theorem C2_counterexample :
    (mapFind (runFeed OrderBook.empty
      [ev 'A' 'B' 10000 0 1, ev 'A' 'B' 10000 10 2]).bids 10000 = some ⟨10000, 10, 1⟩ ∧
    orderCnt (runFeed OrderBook.empty
      [ev 'A' 'B' 10000 0 1, ev 'A' 'B' 10000 10 2]).orders 'B' 10000 = 2 ∧
    (1 : Int) ≠ orderCnt (runFeed OrderBook.empty
      [ev 'A' 'B' 10000 0 1, ev 'A' 'B' 10000 10 2]).orders 'B' 10000) ∧
    (mapFind (runFeed OrderBook.empty
      [ev 'A' 'B' 10000 2147483647 1, ev 'A' 'B' 10000 1 2,
       ev 'A' 'B' 10000 5 3]).bids 10000 = some ⟨10000, 5, 1⟩ ∧
    sizeSum (runFeed OrderBook.empty
      [ev 'A' 'B' 10000 2147483647 1, ev 'A' 'B' 10000 1 2,
       ev 'A' 'B' 10000 5 3]).orders 'B' 10000 = 2147483653 ∧
    orderCnt (runFeed OrderBook.empty
      [ev 'A' 'B' 10000 2147483647 1, ev 'A' 'B' 10000 1 2,
       ev 'A' 'B' 10000 5 3]).orders 'B' 10000 = 3) := by
  decide

/-- C2, amended. In every book state reached from the empty book by a feed in
which every Add event has size > 0 and an order id that is not live when it is
applied, every Add event finds, at its side and price, live orders whose sizes
plus its own size, and whose number plus one, do not exceed INT_MAX, and every
Fill entry consumed by a pattern match carries the stored side of the live order
it names: for each side and price, the total size of the level is the sum of the
sizes of the live orders stored with that side and price, and its order count is
the number of those orders. -/
theorem C2_aggregation_well_formed (events : List MBORecord)
    (hok : feedOk OrderBook.empty events = true)
    (hfit : feedFits OrderBook.empty events = true) (p : Int) (lvl : PriceLevel) :
    (mapFind (runFeed OrderBook.empty events).bids p = some lvl →
      lvl.total_size = sizeSum (runFeed OrderBook.empty events).orders 'B' p ∧
      lvl.order_count = orderCnt (runFeed OrderBook.empty events).orders 'B' p) ∧
    (mapFind (runFeed OrderBook.empty events).asks p = some lvl →
      lvl.total_size = sizeSum (runFeed OrderBook.empty events).orders 'A' p ∧
      lvl.order_count = orderCnt (runFeed OrderBook.empty events).orders 'A' p) := by
  have h := aggregated_runFeed events OrderBook.empty aggregated_empty hok hfit
  constructor
  · intro hl
    have ht := h.bidTotals p
    simp only [totals, hl, Prod.mk.injEq] at ht
    exact ht
  · intro hl
    have ht := h.askTotals p
    simp only [totals, hl, Prod.mk.injEq] at ht
    exact ht

theorem C2_aggregation_well_formed_witness :
    feedOk OrderBook.empty
      [ev 'A' 'B' 10000 100 1, ev 'A' 'B' 10000 200 2, ev 'A' 'A' 10100 50 3,
       ev 'T' 'A' 10000 100 9, ev 'F' 'B' 10000 100 1, ev 'C' 'B' 10000 100 1] = true ∧
    feedFits OrderBook.empty
      [ev 'A' 'B' 10000 100 1, ev 'A' 'B' 10000 200 2, ev 'A' 'A' 10100 50 3,
       ev 'T' 'A' 10000 100 9, ev 'F' 'B' 10000 100 1, ev 'C' 'B' 10000 100 1] = true ∧
    mapFind (runFeed OrderBook.empty
      [ev 'A' 'B' 10000 100 1, ev 'A' 'B' 10000 200 2, ev 'A' 'A' 10100 50 3,
       ev 'T' 'A' 10000 100 9, ev 'F' 'B' 10000 100 1, ev 'C' 'B' 10000 100 1]).bids 10000
      = some ⟨10000, 200, 1⟩ ∧
    (200 : Int) = sizeSum (runFeed OrderBook.empty
      [ev 'A' 'B' 10000 100 1, ev 'A' 'B' 10000 200 2, ev 'A' 'A' 10100 50 3,
       ev 'T' 'A' 10000 100 9, ev 'F' 'B' 10000 100 1, ev 'C' 'B' 10000 100 1]).orders
      'B' 10000 :=
  ⟨by decide, by decide, by decide,
    ((C2_aggregation_well_formed
      [ev 'A' 'B' 10000 100 1, ev 'A' 'B' 10000 200 2, ev 'A' 'A' 10100 50 3,
       ev 'T' 'A' 10000 100 9, ev 'F' 'B' 10000 100 1, ev 'C' 'B' 10000 100 1]
      (by decide) (by decide) 10000 ⟨10000, 200, 1⟩).1 (by decide)).1⟩

/-- C3, counterexample. (i) A Cancel-coded event whose order id 1 is live, applied
when the pending buffer ends with a Trade and a Fill naming order 2, completes
the pattern and is resolved with the Fill entry: order 1 stays live.
(ii) Cancelling order 1 (size 10) from a level (10, 2 orders) it shares with the
zero-size order 2 deletes the level although order 2 still contributes to it. -/
theorem C3_counterexample :
    ((ev 'C' 'B' 10000 10 1).action = 'C' ∧
      mapFind (runFeed OrderBook.empty
        [ev 'A' 'B' 10000 10 1, ev 'T' 'A' 10000 10 9, ev 'F' 'B' 10000 10 2]).orders 1
        = some ⟨1, 10000, 10, 'B'⟩ ∧
      mapFind (processRecord (runFeed OrderBook.empty
        [ev 'A' 'B' 10000 10 1, ev 'T' 'A' 10000 10 9, ev 'F' 'B' 10000 10 2])
        (ev 'C' 'B' 10000 10 1)).orders 1 = some ⟨1, 10000, 10, 'B'⟩) ∧
    (mapFind (runFeed OrderBook.empty
        [ev 'A' 'B' 10000 10 1, ev 'A' 'B' 10000 0 2]).bids 10000 = some ⟨10000, 10, 2⟩ ∧
      mapFind (processRecord (runFeed OrderBook.empty
        [ev 'A' 'B' 10000 10 1, ev 'A' 'B' 10000 0 2]) (ev 'C' 'B' 10000 10 1)).bids 10000
        = none ∧
      mapFind (processRecord (runFeed OrderBook.empty
        [ev 'A' 'B' 10000 10 1, ev 'A' 'B' 10000 0 2]) (ev 'C' 'B' 10000 10 1)).orders 2
        = some ⟨2, 10000, 0, 'B'⟩) := by
  decide

/-- C3, amended. For every book state whose pending buffer does not end with a
Trade entry followed by a Fill entry, and every Cancel-coded event whose order id
is live: after `processRecord` that order id is no longer live and no other
order changes; the level at the order's stored price on its stored side is
debited by the stored size and one order (reduced by both, or absent when either
total drops to zero or below, in particular when that order was its only
contributor; untouched when there was no level); no other level changes. -/
theorem C3_cancel_live_order (b : OrderBook) (r : MBORecord) (o : Order)
    (ha : r.action = 'C') (hm : endsTradeFill b.pending_sequence = false)
    (ho : mapFind b.orders r.order_id = some o) :
    mapFind (processRecord b r).orders r.order_id = none ∧
    (∀ k, k ≠ r.order_id → mapFind (processRecord b r).orders k = mapFind b.orders k) ∧
    mapFind (levelsOn (processRecord b r) o.side) o.price
      = debited (mapFind (levelsOn b o.side) o.price) o.size ∧
    (∀ q, q ≠ o.price →
      mapFind (levelsOn (processRecord b r) o.side) q = mapFind (levelsOn b o.side) q) ∧
    (∀ s, s ≠ o.side → levelsOn (processRecord b r) s = levelsOn b s) :=
  removal_effect b r.order_id o o.side (b.pending_sequence ++ [r]) (processRecord b r)
    (processRecord_cancel_nomatch_live b r o ha hm ho)

theorem C3_cancel_live_order_witness :
    (ev 'C' 'B' 10000 100 1).action = 'C' ∧
    endsTradeFill (runFeed OrderBook.empty
      [ev 'A' 'B' 10000 100 1, ev 'A' 'B' 10000 200 2]).pending_sequence = false ∧
    mapFind (runFeed OrderBook.empty
      [ev 'A' 'B' 10000 100 1, ev 'A' 'B' 10000 200 2]).orders 1 = some ⟨1, 10000, 100, 'B'⟩ ∧
    mapFind (levelsOn (processRecord (runFeed OrderBook.empty
      [ev 'A' 'B' 10000 100 1, ev 'A' 'B' 10000 200 2]) (ev 'C' 'B' 10000 100 1)) 'B') 10000
      = some ⟨10000, 200, 1⟩ :=
  ⟨by decide, by decide, by decide,
    (C3_cancel_live_order (runFeed OrderBook.empty
      [ev 'A' 'B' 10000 100 1, ev 'A' 'B' 10000 200 2]) (ev 'C' 'B' 10000 100 1)
      ⟨1, 10000, 100, 'B'⟩ (by decide) (by decide) (by decide)).2.2.1.trans (by decide)⟩

/-- C4, counterexample. Order 1 rests on the bid side at 100.00 and order 2 on
the ask side at the same price.  The run Trade (side N), Fill (order 1, side A),
Cancel (order 1) debits the bid level (the stored side), not the level on the
side of the Fill: the Trade with side N never enters the buffer, so the Cancel is
processed as a standalone cancel. -/
theorem C4_counterexample :
    mapFind (runFeed OrderBook.empty
      [ev 'A' 'B' 10000 10 1, ev 'A' 'A' 10000 20 2]).orders 1 = some ⟨1, 10000, 10, 'B'⟩ ∧
    (runFeed OrderBook.empty [ev 'A' 'B' 10000 10 1, ev 'A' 'A' 10000 20 2]).bids
      = [(10000, ⟨10000, 10, 1⟩)] ∧
    (runFeed OrderBook.empty [ev 'A' 'B' 10000 10 1, ev 'A' 'A' 10000 20 2]).asks
      = [(10000, ⟨10000, 20, 1⟩)] ∧
    (runFeed OrderBook.empty
      [ev 'A' 'B' 10000 10 1, ev 'A' 'A' 10000 20 2,
       ev 'T' 'N' 10000 10 9, ev 'F' 'A' 10000 10 1, ev 'C' 'A' 10000 10 1]).bids = [] ∧
    (runFeed OrderBook.empty
      [ev 'A' 'B' 10000 10 1, ev 'A' 'A' 10000 20 2,
       ev 'T' 'N' 10000 10 9, ev 'F' 'A' 10000 10 1, ev 'C' 'A' 10000 10 1]).asks
      = [(10000, ⟨10000, 20, 1⟩)] := by
  decide

/-- C4, amended. For every book state in which order id X is live, applying three
consecutive events Trade (side other than N, any order id), Fill (order id X,
side s), Cancel-coded (any order id) leaves X not live and every other order
unchanged; the level debited is the one at the stored price of X on the side s of
the Fill (B or A; no level for any other s), by the stored size of X and one
order; no other level changes and the pending buffer is as before the run. -/
theorem C4_complete_execution_run (b : OrderBook) (t f c : MBORecord) (o : Order)
    (ht : t.action = 'T') (hts : t.side ≠ 'N') (hf : f.action = 'F') (hc : c.action = 'C')
    (ho : mapFind b.orders f.order_id = some o) :
    mapFind (runFeed b [t, f, c]).orders f.order_id = none ∧
    (∀ k, k ≠ f.order_id → mapFind (runFeed b [t, f, c]).orders k = mapFind b.orders k) ∧
    mapFind (levelsOn (runFeed b [t, f, c]) f.side) o.price
      = debited (mapFind (levelsOn b f.side) o.price) o.size ∧
    (∀ q, q ≠ o.price →
      mapFind (levelsOn (runFeed b [t, f, c]) f.side) q = mapFind (levelsOn b f.side) q) ∧
    (∀ s, s ≠ f.side → levelsOn (runFeed b [t, f, c]) s = levelsOn b s) ∧
    (runFeed b [t, f, c]).pending_sequence = b.pending_sequence := by
  have e : runFeed b [t, f, c] =
      { orders := mapErase b.orders f.order_id,
        bids := if f.side = 'B' then updatePriceLevel b.bids o.price (wrapInt32 (-o.size)) (-1)
          else b.bids,
        asks := if f.side = 'A' then updatePriceLevel b.asks o.price (wrapInt32 (-o.size)) (-1)
          else b.asks,
        pending_sequence := b.pending_sequence } := by
    have e1 : processRecord b t
        = ⟨b.orders, b.bids, b.asks, b.pending_sequence ++ [t]⟩ :=
      processRecord_of_trade b t ht hts
    have e2 : processRecord ⟨b.orders, b.bids, b.asks, b.pending_sequence ++ [t]⟩ f
        = ⟨b.orders, b.bids, b.asks, b.pending_sequence ++ [t] ++ [f]⟩ :=
      processRecord_of_fill _ f hf
    simp only [runFeed, List.foldl_cons, List.foldl_nil]
    rw [e1, e2]
    exact processRecord_cancel_match_live
      ⟨b.orders, b.bids, b.asks, b.pending_sequence ++ [t] ++ [f]⟩ c hc b.pending_sequence t f
      (by simp) ht hf o ho
  have h := removal_effect b f.order_id o f.side b.pending_sequence _ e
  refine ⟨h.1, h.2.1, h.2.2.1, h.2.2.2.1, h.2.2.2.2, ?_⟩
  rw [e]

theorem C4_complete_execution_run_witness :
    (ev 'T' 'A' 10000 100 9).action = 'T' ∧ (ev 'T' 'A' 10000 100 9).side ≠ 'N' ∧
    (ev 'F' 'B' 10000 100 1).action = 'F' ∧ (ev 'C' 'B' 10000 100 1).action = 'C' ∧
    mapFind sampleBook.orders (ev 'F' 'B' 10000 100 1).order_id = some ⟨1, 10000, 100, 'B'⟩ ∧
    mapFind (levelsOn (runFeed sampleBook
      [ev 'T' 'A' 10000 100 9, ev 'F' 'B' 10000 100 1, ev 'C' 'B' 10000 100 1]) 'B') 10000
      = some ⟨10000, 200, 1⟩ :=
  ⟨by decide, by decide, by decide, by decide, by decide,
    (C4_complete_execution_run sampleBook (ev 'T' 'A' 10000 100 9) (ev 'F' 'B' 10000 100 1)
      (ev 'C' 'B' 10000 100 1) ⟨1, 10000, 100, 'B'⟩ (by decide) (by decide) (by decide)
      (by decide) (by decide)).2.2.1.trans (by decide)⟩

/-- C5, counterexample. The book reached by one Add of size INT_MAX = 2147483647
holds the bid level (INT_MAX, 1 order).  A second Add at that price with size 1
makes the `int` total overflow: the level is erased instead of growing by the
size and by one order, although the second order is stored. -/
theorem C5_counterexample :
    mapFind (levelsOn (runFeed OrderBook.empty [ev 'A' 'B' 10000 2147483647 1]) 'B') 10000
      = some ⟨10000, 2147483647, 1⟩ ∧
    mapFind (levelsOn (processRecord (runFeed OrderBook.empty [ev 'A' 'B' 10000 2147483647 1])
      (ev 'A' 'B' 10000 1 2)) 'B') 10000 = none ∧
    mapFind (processRecord (runFeed OrderBook.empty [ev 'A' 'B' 10000 2147483647 1])
      (ev 'A' 'B' 10000 1 2)).orders 2 = some ⟨2, 10000, 1, 'B'⟩ := by
  decide

/-- C5, amended. Add postcondition: for every book state whose levels on the
event's side are positive (every reachable state), and every Add event with side
B or A and size > 0 such that a level existing at the event's price has a total
size plus the event's size, and an order count plus one, of at most INT_MAX:
after `processRecord` the order map maps the event's order id to an order holding
exactly the event's price, size and side; the same side's level at the event's
price is a new level (price, size, 1) if none existed and otherwise has grown by
size and by one order; the other levels of that side, the other side's level map,
all other orders and the pending buffer are unchanged. -/
theorem C5_add_postcondition (b : OrderBook) (r : MBORecord)
    (hpos : LevelsPositive (levelsOn b r.side)) (ha : r.action = 'A')
    (hs : r.side = 'B' ∨ r.side = 'A') (hsize : 0 < r.size)
    (hfit : ∀ l, mapFind (levelsOn b r.side) r.price = some l →
      l.total_size + r.size < 2147483648 ∧ l.order_count + 1 < 2147483648) :
    mapFind (processRecord b r).orders r.order_id
      = some ⟨r.order_id, r.price, r.size, r.side⟩ ∧
    (mapFind (levelsOn b r.side) r.price = none →
      mapFind (levelsOn (processRecord b r) r.side) r.price = some ⟨r.price, r.size, 1⟩) ∧
    (∀ l, mapFind (levelsOn b r.side) r.price = some l →
      mapFind (levelsOn (processRecord b r) r.side) r.price
        = some ⟨l.price, l.total_size + r.size, l.order_count + 1⟩) ∧
    (∀ q, q ≠ r.price →
      mapFind (levelsOn (processRecord b r) r.side) q = mapFind (levelsOn b r.side) q) ∧
    (∀ s, s ≠ r.side → levelsOn (processRecord b r) s = levelsOn b s) ∧
    (∀ k, k ≠ r.order_id → mapFind (processRecord b r).orders k = mapFind b.orders k) ∧
    (processRecord b r).pending_sequence = b.pending_sequence := by
  rw [processRecord_of_add b r ha]
  have key : levelsOn (addOrder b r) r.side
      = updatePriceLevel (levelsOn b r.side) r.price r.size 1 := by
    rcases hs with h | h
    · simp [levelsOn, h, addOrder_bids]
    · simp [levelsOn, h, addOrder_asks]
  refine ⟨by simp [addOrder_orders, mapFind_mapAssign], ?_, ?_, ?_, ?_,
    fun k hk => by simp [addOrder_orders, mapFind_mapAssign, hk], addOrder_pending b r⟩
  · intro hnone
    rw [key, mapFind_updatePriceLevel_self, hnone]
    simp [hsize]
  · intro l hl
    have hl2 := hpos _ (mapFind_mem _ _ _ hl)
    have hl3 := hfit l hl
    rw [key, mapFind_updatePriceLevel_self, hl]
    dsimp only at hl2 ⊢
    rw [wrapInt32_of_range (l.total_size + r.size) (by omega) (by omega),
      wrapInt32_of_range (l.order_count + 1) (by omega) (by omega), if_neg (by omega)]
  · intro q hq
    rw [key, mapFind_updatePriceLevel_other _ _ _ _ _ hq]
  · intro s hne
    unfold levelsOn
    rw [addOrder_bids, addOrder_asks]
    by_cases hB : s = 'B'
    · have : r.side ≠ 'B' := fun h => hne (hB.trans h.symm)
      simp [hB, this]
    · by_cases hA : s = 'A'
      · have : r.side ≠ 'A' := fun h => hne (hA.trans h.symm)
        simp [hA, this]
      · simp [hA, hB]

theorem C5_add_postcondition_witness :
    LevelsPositive (levelsOn sampleBook (ev 'A' 'B' 10000 50 7).side) ∧
    (ev 'A' 'B' 10000 50 7).action = 'A' ∧ 0 < (ev 'A' 'B' 10000 50 7).size ∧
    mapFind (levelsOn sampleBook 'B') 10000 = some ⟨10000, 300, 2⟩ ∧
    mapFind (levelsOn (processRecord sampleBook (ev 'A' 'B' 10000 50 7)) 'B') 10000
      = some ⟨10000, 350, 3⟩ :=
  ⟨by decide, by decide, by decide, by decide,
    (C5_add_postcondition sampleBook (ev 'A' 'B' 10000 50 7) (by decide) (by decide)
      (Or.inl (by decide)) (by decide)
      (fun l hl => by
        have e : l = ⟨10000, 300, 2⟩ :=
          Option.some.inj (hl.symm.trans (by decide))
        subst e
        decide)).2.2.1 ⟨10000, 300, 2⟩ (by decide)⟩

/-- C6. Incomplete execution pair: a Trade event followed by a Fill event, with
no terminating Cancel, leaves the order map and both level maps exactly as they
were; in particular the order named by the Fill is still stored unchanged. -/
theorem C6_trade_fill_pair_keeps_book (b : OrderBook) (t f : MBORecord)
    (ht : t.action = 'T') (hf : f.action = 'F') :
    (processRecord (processRecord b t) f).orders = b.orders ∧
    (processRecord (processRecord b t) f).bids = b.bids ∧
    (processRecord (processRecord b t) f).asks = b.asks ∧
    mapFind (processRecord (processRecord b t) f).orders f.order_id =
      mapFind b.orders f.order_id := by
  rw [processRecord_of_fill _ f hf]
  by_cases hs : t.side = 'N'
  · rw [processRecord_of_tradeN b t ht hs]; exact ⟨rfl, rfl, rfl, rfl⟩
  · rw [processRecord_of_trade b t ht hs]; exact ⟨rfl, rfl, rfl, rfl⟩

theorem C6_trade_fill_pair_keeps_book_witness :
    (ev 'T' 'A' 10000 100 2).action = 'T' ∧ (ev 'F' 'B' 10000 100 1).action = 'F' ∧
    (processRecord (processRecord sampleBook (ev 'T' 'A' 10000 100 2))
      (ev 'F' 'B' 10000 100 1)).bids = [(10000, ⟨10000, 300, 2⟩)] :=
  ⟨by decide, by decide,
    (C6_trade_fill_pair_keeps_book sampleBook (ev 'T' 'A' 10000 100 2) (ev 'F' 'B' 10000 100 1)
      (by decide) (by decide)).2.1.trans (by decide)⟩

/-- C7. Reset is a no-op: for every book state and every event with action
code R, whatever its other fields, `processRecord` leaves the order map, both
level maps and the pending buffer unchanged. -/
theorem C7_reset_is_noop (b : OrderBook) (r : MBORecord) (h : r.action = 'R') :
    processRecord b r = b :=
  processRecord_of_reset b r h

theorem C7_reset_is_noop_witness :
    (ev 'R' 'N' 0 0 0).action = 'R' ∧ processRecord sampleBook (ev 'R' 'N' 0 0 0) = sampleBook :=
  ⟨by decide, C7_reset_is_noop sampleBook (ev 'R' 'N' 0 0 0) (by decide)⟩

/-- C8. Trade with side None is a no-op: for every book state and every event
with action code T and side code N, `processRecord` leaves the order map, both
level maps and the pending buffer unchanged. -/
theorem C8_trade_side_none_is_noop (b : OrderBook) (r : MBORecord) (ha : r.action = 'T')
    (hs : r.side = 'N') : processRecord b r = b :=
  processRecord_of_tradeN b r ha hs

theorem C8_trade_side_none_is_noop_witness :
    (ev 'T' 'N' 10000 100 1).action = 'T' ∧ (ev 'T' 'N' 10000 100 1).side = 'N' ∧
    processRecord sampleBook (ev 'T' 'N' 10000 100 1) = sampleBook :=
  ⟨by decide, by decide,
    C8_trade_side_none_is_noop sampleBook (ev 'T' 'N' 10000 100 1) (by decide) (by decide)⟩

/-- C9. Unknown action is ignored: for every book state and every event whose
action code is none of A, C, T, F, R, `processRecord` leaves the whole book
state (order map, both level maps, pending buffer) unchanged. -/
theorem C9_unknown_action_ignored (b : OrderBook) (r : MBORecord) (hA : r.action ≠ 'A')
    (hC : r.action ≠ 'C') (hT : r.action ≠ 'T') (hF : r.action ≠ 'F') (hR : r.action ≠ 'R') :
    processRecord b r = b :=
  processRecord_of_other b r hA hC hT hF hR

theorem C9_unknown_action_ignored_witness :
    (ev 'M' 'B' 10000 100 1).action ≠ 'A' ∧ (ev 'M' 'B' 10000 100 1).action ≠ 'C' ∧
    (ev 'M' 'B' 10000 100 1).action ≠ 'T' ∧ (ev 'M' 'B' 10000 100 1).action ≠ 'F' ∧
    (ev 'M' 'B' 10000 100 1).action ≠ 'R' ∧
    processRecord sampleBook (ev 'M' 'B' 10000 100 1) = sampleBook :=
  ⟨by decide, by decide, by decide, by decide, by decide,
    C9_unknown_action_ignored sampleBook (ev 'M' 'B' 10000 100 1)
      (by decide) (by decide) (by decide) (by decide) (by decide)⟩

/-- C10, counterexample. An Add event with side code N applied to the empty book
is not a no-op: `addOrder` stores the order before it looks at the side. -/
theorem C10_counterexample :
    (ev 'A' 'N' 10000 100 1).action = 'A' ∧ (ev 'A' 'N' 10000 100 1).side ≠ 'B' ∧
    (ev 'A' 'N' 10000 100 1).side ≠ 'A' ∧
    (processRecord OrderBook.empty (ev 'A' 'N' 10000 100 1)).orders
      = [(1, ⟨1, 10000, 100, 'N'⟩)] ∧
    (processRecord OrderBook.empty (ev 'A' 'N' 10000 100 1)).orders
      ≠ OrderBook.empty.orders := by
  decide

/-- C10, amended. For every book state and every Add event whose side code is
neither B nor A, `processRecord` leaves both level maps and the pending buffer
unchanged, while the order is nevertheless recorded in the order map under the
event's order id with the event's price, size and side code (all other orders
unchanged). -/
theorem C10_add_unknown_side (b : OrderBook) (r : MBORecord) (ha : r.action = 'A')
    (hB : r.side ≠ 'B') (hA : r.side ≠ 'A') :
    (processRecord b r).bids = b.bids ∧
    (processRecord b r).asks = b.asks ∧
    (processRecord b r).pending_sequence = b.pending_sequence ∧
    mapFind (processRecord b r).orders r.order_id
      = some ⟨r.order_id, r.price, r.size, r.side⟩ ∧
    (∀ k, k ≠ r.order_id → mapFind (processRecord b r).orders k = mapFind b.orders k) := by
  rw [processRecord_of_add b r ha]
  refine ⟨by simp [addOrder_bids, hB], by simp [addOrder_asks, hA], addOrder_pending b r,
    by simp [addOrder_orders, mapFind_mapAssign],
    fun k hk => by simp [addOrder_orders, mapFind_mapAssign, hk]⟩

theorem C10_add_unknown_side_witness :
    (ev 'A' 'N' 10000 100 7).action = 'A' ∧ (ev 'A' 'N' 10000 100 7).side ≠ 'B' ∧
    (ev 'A' 'N' 10000 100 7).side ≠ 'A' ∧
    (processRecord sampleBook (ev 'A' 'N' 10000 100 7)).bids = [(10000, ⟨10000, 300, 2⟩)] :=
  ⟨by decide, by decide, by decide,
    (C10_add_unknown_side sampleBook (ev 'A' 'N' 10000 100 7) (by decide) (by decide)
      (by decide)).1.trans (by decide)⟩

/-- C11. References to non-live orders are ignored: a Cancel-coded event that
does not complete a Trade, Fill, Cancel pattern in the buffer and whose order id
is not live leaves the order map and both level maps unchanged; and a
Cancel-coded event that completes the pattern while the order id of the Fill
entry is not live also leaves the order map and both level maps unchanged. -/
theorem C11_non_live_reference_ignored (b : OrderBook) (r : MBORecord) (ha : r.action = 'C') :
    (endsTradeFill b.pending_sequence = false → mapFind b.orders r.order_id = none →
      (processRecord b r).orders = b.orders ∧ (processRecord b r).bids = b.bids ∧
      (processRecord b r).asks = b.asks) ∧
    (∀ pre t f, b.pending_sequence = pre ++ [t, f] → t.action = 'T' → f.action = 'F' →
      mapFind b.orders f.order_id = none →
      (processRecord b r).orders = b.orders ∧ (processRecord b r).bids = b.bids ∧
      (processRecord b r).asks = b.asks) := by
  constructor
  · intro hm ho
    rw [processRecord_cancel_nomatch_dead b r ha hm ho]
    exact ⟨rfl, rfl, rfl⟩
  · intro pre t f hp ht hf ho
    rw [processRecord_cancel_match_dead b r ha pre t f hp ht hf ho]
    exact ⟨rfl, rfl, rfl⟩

theorem C11_non_live_reference_ignored_witness :
    (ev 'C' 'B' 10000 100 77).action = 'C' ∧
    endsTradeFill (runFeed OrderBook.empty [ev 'A' 'B' 10000 100 1]).pending_sequence = false ∧
    mapFind (runFeed OrderBook.empty [ev 'A' 'B' 10000 100 1]).orders 77 = none ∧
    (processRecord (runFeed OrderBook.empty [ev 'A' 'B' 10000 100 1])
      (ev 'C' 'B' 10000 100 77)).bids = [(10000, ⟨10000, 100, 1⟩)] ∧
    (processRecord (runFeed OrderBook.empty
        [ev 'A' 'B' 10000 100 1, ev 'T' 'A' 10000 100 9, ev 'F' 'B' 10000 100 5])
      (ev 'C' 'B' 10000 100 5)).bids = [(10000, ⟨10000, 100, 1⟩)] :=
  ⟨by decide, by decide, by decide,
    ((C11_non_live_reference_ignored (runFeed OrderBook.empty [ev 'A' 'B' 10000 100 1])
      (ev 'C' 'B' 10000 100 77) (by decide)).1 (by decide) (by decide)).2.1.trans (by decide),
    ((C11_non_live_reference_ignored (runFeed OrderBook.empty
        [ev 'A' 'B' 10000 100 1, ev 'T' 'A' 10000 100 9, ev 'F' 'B' 10000 100 5])
      (ev 'C' 'B' 10000 100 5) (by decide)).2 [] (ev 'T' 'A' 10000 100 9)
      (ev 'F' 'B' 10000 100 5) (by decide) (by decide) (by decide) (by decide)).2.1.trans
      (by decide)⟩

/-- C12, failing input. On any book, `getBidLevels(-1)` and `getAskLevels(-1)` do
not return: `result.reserve(max_levels)` is reached first and throws
`std::length_error` for a negative count. -/
theorem C12_negative_count_raises (b : OrderBook) :
    getBidLevels b (-1) = none ∧ getAskLevels b (-1) = none :=
  ⟨getBidLevels_of_neg b (-1) (by decide), getAskLevels_of_neg b (-1) (by decide)⟩

/-- C13, counterexample. A single Add event on the bid side with size 0, applied
to the empty book: one distinct price, but no bid level is created. -/
theorem C13_counterexample :
    (ev 'A' 'B' 10000 0 1).action = 'A' ∧ (ev 'A' 'B' 10000 0 1).side = 'B' ∧
    ([ev 'A' 'B' 10000 0 1].map (fun e => e.price)).Nodup ∧
    (runFeed OrderBook.empty [ev 'A' 'B' 10000 0 1]).bids.length = 0 ∧
    (runFeed OrderBook.empty [ev 'A' 'B' 10000 0 1]).bids.length
      ≠ [ev 'A' 'B' 10000 0 1].length ∧
    getBidLevels (runFeed OrderBook.empty [ev 'A' 'B' 10000 0 1]) 10 = some [] := by
  decide

/-- C13, amended. Ordering after adds: for every list of Add events on one side
(all B or all A) with sizes > 0 and pairwise distinct prices, applied to an empty
book, the number of levels on that side equals the number of events (of distinct
prices); and with `all` the list of the levels (price, size, 1), one per event,
in strictly descending price order for bids and strictly ascending price order
for asks, the top-levels query for n >= 0 levels returns exactly the first n
entries of `all` (all of them when n is at least their number): min(n, count)
levels, each with a better price than every level left out. -/
theorem C13_ordering_after_adds (evs : List MBORecord) (side : Char)
    (hs : side = 'B' ∨ side = 'A')
    (hadd : ∀ e ∈ evs, e.action = 'A' ∧ e.side = side ∧ 0 < e.size)
    (hd : (evs.map (fun e => e.price)).Nodup) (n : Int) (hn : 0 ≤ n) :
    (levelsOn (runFeed OrderBook.empty evs) side).length = evs.length ∧
    (side = 'B' → ∃ all : List PriceLevel,
      all.Perm (evs.map (fun e => (⟨e.price, e.size, 1⟩ : PriceLevel))) ∧
      all.Pairwise (fun x y => y.price < x.price) ∧
      getBidLevels (runFeed OrderBook.empty evs) n = some (all.take n.toNat) ∧
      (all.take n.toNat).length = min n.toNat evs.length ∧
      (∀ x ∈ all.take n.toNat, ∀ y ∈ all.drop n.toNat, y.price < x.price)) ∧
    (side = 'A' → ∃ all : List PriceLevel,
      all.Perm (evs.map (fun e => (⟨e.price, e.size, 1⟩ : PriceLevel))) ∧
      all.Pairwise (fun x y => x.price < y.price) ∧
      getAskLevels (runFeed OrderBook.empty evs) n = some (all.take n.toNat) ∧
      (all.take n.toNat).length = min n.toNat evs.length ∧
      (∀ x ∈ all.take n.toNat, ∀ y ∈ all.drop n.toNat, x.price < y.price)) := by
  obtain ⟨hk, hp⟩ := adds_one_side evs side hs hadd hd
  have hkeyed := adds_one_side_keyed evs _ hp
  have hvals := adds_one_side_vals evs _ hp
  refine ⟨by rw [hp.length_eq, List.length_map], ?_, ?_⟩
  · intro hB
    subst hB
    have hlv : levelsOn (runFeed OrderBook.empty evs) 'B'
        = (runFeed OrderBook.empty evs).bids := by simp [levelsOn]
    rw [hlv] at hk hkeyed hvals
    have hperm : ((runFeed OrderBook.empty evs).bids.reverse.map Prod.snd).Perm
        (evs.map (fun e => (⟨e.price, e.size, 1⟩ : PriceLevel))) := by
      rw [List.map_reverse]
      exact (List.reverse_perm _).trans hvals
    have hdesc := levels_descending_prices _ hk hkeyed
    exact ⟨_, hperm, hdesc, getBidLevels_of_nonneg _ n hn,
      take_of_ordered_levels _ evs _ hdesc hperm n.toNat⟩
  · intro hA
    subst hA
    have hlv : levelsOn (runFeed OrderBook.empty evs) 'A'
        = (runFeed OrderBook.empty evs).asks := by simp [levelsOn]
    rw [hlv] at hk hkeyed hvals
    have hasc := levels_ascending_prices _ hk hkeyed
    exact ⟨_, hvals, hasc, getAskLevels_of_nonneg _ n hn,
      take_of_ordered_levels _ evs _ hasc hvals n.toNat⟩

theorem C13_ordering_after_adds_witness :
    (∀ e ∈ [ev 'A' 'B' 9800 100 1, ev 'A' 'B' 10000 100 2, ev 'A' 'B' 9900 100 3],
      e.action = 'A' ∧ e.side = 'B' ∧ 0 < e.size) ∧
    ([ev 'A' 'B' 9800 100 1, ev 'A' 'B' 10000 100 2, ev 'A' 'B' 9900 100 3].map
      (fun e => e.price)).Nodup ∧
    getBidLevels (runFeed OrderBook.empty
      [ev 'A' 'B' 9800 100 1, ev 'A' 'B' 10000 100 2, ev 'A' 'B' 9900 100 3]) 2
      = some [⟨10000, 100, 1⟩, ⟨9900, 100, 1⟩] ∧
    (levelsOn (runFeed OrderBook.empty
      [ev 'A' 'B' 9800 100 1, ev 'A' 'B' 10000 100 2, ev 'A' 'B' 9900 100 3]) 'B').length
      = 3 :=
  ⟨by decide, by decide, by decide,
    (C13_ordering_after_adds
      [ev 'A' 'B' 9800 100 1, ev 'A' 'B' 10000 100 2, ev 'A' 'B' 9900 100 3] 'B'
      (Or.inl rfl) (by decide) (by decide) 2 (by decide)).1⟩

/-- C14, counterexample. Two Add events with distinct order ids, side B and the
same price.  (i) With sizes 0 and 10: the zero-size Add creates no level, so the
level created by the second Add has order count 1, not 2.  (ii) With sizes
INT_MAX = 2147483647 and INT_MAX: the sum overflows the `int` total, which
becomes negative, and the level is erased: the side has no level at all. -/
theorem C14_counterexample :
    ((runFeed OrderBook.empty [ev 'A' 'B' 10000 0 1, ev 'A' 'B' 10000 10 2]).bids
      = [(10000, ⟨10000, 10, 1⟩)] ∧
    (runFeed OrderBook.empty [ev 'A' 'B' 10000 0 1, ev 'A' 'B' 10000 10 2]).bids
      ≠ [(10000, ⟨10000, 0 + 10, 2⟩)]) ∧
    ((runFeed OrderBook.empty
      [ev 'A' 'B' 10000 2147483647 1, ev 'A' 'B' 10000 2147483647 2]).bids = [] ∧
    (runFeed OrderBook.empty
      [ev 'A' 'B' 10000 2147483647 1, ev 'A' 'B' 10000 2147483647 2]).bids
      ≠ [(10000, ⟨10000, 2147483647 + 2147483647, 2⟩)]) := by
  decide

/-- C14, amended. Same-price aggregation: for an empty book and any two Add
events with the same side (B or A) and the same price, with sizes s1 > 0 and s2
such that 0 < s1 + s2 <= INT_MAX (in particular any s2 >= 0 whose sum with s1
fits in an `int`), after both are applied that side has exactly one level, with
total size s1 + s2 and order count 2. -/
theorem C14_same_price_aggregation (a1 a2 : MBORecord) (side : Char)
    (hs : side = 'B' ∨ side = 'A') (h1 : a1.action = 'A') (h2 : a2.action = 'A')
    (hs1 : a1.side = side) (hs2 : a2.side = side) (hp : a2.price = a1.price)
    (hpos : 0 < a1.size) (hsum : 0 < a1.size + a2.size)
    (hfit : a1.size + a2.size < 2147483648) :
    levelsOn (runFeed OrderBook.empty [a1, a2]) side
      = [(a1.price, ⟨a1.price, a1.size + a2.size, 2⟩)] := by
  have e1 : updatePriceLevel [] a1.price a1.size 1 = [(a1.price, ⟨a1.price, a1.size, 1⟩)] := by
    simp [updatePriceLevel, mapFind, mapAssign, hpos]
  have w1 : wrapInt32 (a1.size + a2.size) = a1.size + a2.size :=
    wrapInt32_of_range _ (by omega) hfit
  have w2 : wrapInt32 (1 + 1) = 2 := by decide
  have e2 : updatePriceLevel [(a1.price, ⟨a1.price, a1.size, 1⟩)] a1.price a2.size 1
      = [(a1.price, ⟨a1.price, a1.size + a2.size, 2⟩)] := by
    simp only [updatePriceLevel, mapFind, if_true]
    rw [w1, w2, if_neg (by omega)]
    simp [mapAssign]
  simp only [runFeed, List.foldl_cons, List.foldl_nil]
  rw [processRecord_of_add _ a2 h2, processRecord_of_add _ a1 h1]
  rcases hs with h | h
  · subst h
    simp only [levelsOn, if_true, addOrder_bids, hs1, hs2, hp]
    rw [show OrderBook.empty.bids = [] from rfl, e1, e2]
  · subst h
    simp only [levelsOn, addOrder_asks, hs1, hs2, hp, if_true,
      show ¬ ('A' = 'B') from by decide, if_false]
    rw [show OrderBook.empty.asks = [] from rfl, e1, e2]

theorem C14_same_price_aggregation_witness :
    (ev 'A' 'B' 10000 100 1).action = 'A' ∧ (ev 'A' 'B' 10000 200 2).action = 'A' ∧
    (ev 'A' 'B' 10000 200 2).price = (ev 'A' 'B' 10000 100 1).price ∧
    0 < (ev 'A' 'B' 10000 100 1).size ∧
    levelsOn (runFeed OrderBook.empty [ev 'A' 'B' 10000 100 1, ev 'A' 'B' 10000 200 2]) 'B'
      = [(10000, ⟨10000, 300, 2⟩)] :=
  ⟨by decide, by decide, by decide, by decide,
    C14_same_price_aggregation (ev 'A' 'B' 10000 100 1) (ev 'A' 'B' 10000 200 2) 'B'
      (Or.inl rfl) (by decide) (by decide) (by decide) (by decide) (by decide) (by decide)
      (by decide) (by decide)⟩

/-- C15. End-to-end scenario: applying to an empty book the feed Reset;
Add(id 1, B, 100.00, 100); Add(id 2, A, 101.00, 50); Trade(id 3, A, 100.00, 100);
Fill(id 1, B, 100.00, 100); Cancel(id 1, B, 100.00, 100), whatever the other
fields of the six records are, yields a final book with zero bid levels and
exactly one ask level, at price 101.00 with total size 50 and order count 1
(as stored, and as returned by the top-levels queries). -/
theorem C15_end_to_end_scenario (r0 r1 r2 r3 r4 r5 : MBORecord) :
    (runFeed OrderBook.empty
      [{ r0 with action := 'R' }, withFields r1 'A' 'B' 10000 100 1,
       withFields r2 'A' 'A' 10100 50 2, withFields r3 'T' 'A' 10000 100 3,
       withFields r4 'F' 'B' 10000 100 1, withFields r5 'C' 'B' 10000 100 1]).bids = [] ∧
    (runFeed OrderBook.empty
      [{ r0 with action := 'R' }, withFields r1 'A' 'B' 10000 100 1,
       withFields r2 'A' 'A' 10100 50 2, withFields r3 'T' 'A' 10000 100 3,
       withFields r4 'F' 'B' 10000 100 1, withFields r5 'C' 'B' 10000 100 1]).asks
      = [(10100, ⟨10100, 50, 1⟩)] ∧
    getBidLevels (runFeed OrderBook.empty
      [{ r0 with action := 'R' }, withFields r1 'A' 'B' 10000 100 1,
       withFields r2 'A' 'A' 10100 50 2, withFields r3 'T' 'A' 10000 100 3,
       withFields r4 'F' 'B' 10000 100 1, withFields r5 'C' 'B' 10000 100 1]) 10 = some [] ∧
    getAskLevels (runFeed OrderBook.empty
      [{ r0 with action := 'R' }, withFields r1 'A' 'B' 10000 100 1,
       withFields r2 'A' 'A' 10100 50 2, withFields r3 'T' 'A' 10000 100 3,
       withFields r4 'F' 'B' 10000 100 1, withFields r5 'C' 'B' 10000 100 1]) 10
      = some [⟨10100, 50, 1⟩] := by
  have e : runFeed OrderBook.empty
      [{ r0 with action := 'R' }, withFields r1 'A' 'B' 10000 100 1,
       withFields r2 'A' 'A' 10100 50 2, withFields r3 'T' 'A' 10000 100 3,
       withFields r4 'F' 'B' 10000 100 1, withFields r5 'C' 'B' 10000 100 1]
      = ⟨[(2, ⟨2, 10100, 50, 'A'⟩)], [], [(10100, ⟨10100, 50, 1⟩)], []⟩ := by
    have s1 : processRecord OrderBook.empty { r0 with action := 'R' } = OrderBook.empty :=
      processRecord_of_reset _ _ rfl
    have s2 : processRecord OrderBook.empty (withFields r1 'A' 'B' 10000 100 1)
        = ⟨[(1, ⟨1, 10000, 100, 'B'⟩)], [(10000, ⟨10000, 100, 1⟩)], [], []⟩ := by
      rw [processRecord_of_add _ _ rfl]
      simp [addOrder, withFields, OrderBook.empty, updatePriceLevel, mapFind, mapAssign]
    have s3 : processRecord ⟨[(1, ⟨1, 10000, 100, 'B'⟩)], [(10000, ⟨10000, 100, 1⟩)], [], []⟩
        (withFields r2 'A' 'A' 10100 50 2)
        = ⟨[(1, ⟨1, 10000, 100, 'B'⟩), (2, ⟨2, 10100, 50, 'A'⟩)],
            [(10000, ⟨10000, 100, 1⟩)], [(10100, ⟨10100, 50, 1⟩)], []⟩ := by
      rw [processRecord_of_add _ _ rfl]
      simp [addOrder, withFields, updatePriceLevel, mapFind, mapAssign]
    have s4 : processRecord ⟨[(1, ⟨1, 10000, 100, 'B'⟩), (2, ⟨2, 10100, 50, 'A'⟩)],
            [(10000, ⟨10000, 100, 1⟩)], [(10100, ⟨10100, 50, 1⟩)], []⟩
        (withFields r3 'T' 'A' 10000 100 3)
        = ⟨[(1, ⟨1, 10000, 100, 'B'⟩), (2, ⟨2, 10100, 50, 'A'⟩)],
            [(10000, ⟨10000, 100, 1⟩)], [(10100, ⟨10100, 50, 1⟩)],
            [withFields r3 'T' 'A' 10000 100 3]⟩ :=
      processRecord_of_trade _ _ rfl (by simp [withFields])
    have s5 : processRecord ⟨[(1, ⟨1, 10000, 100, 'B'⟩), (2, ⟨2, 10100, 50, 'A'⟩)],
            [(10000, ⟨10000, 100, 1⟩)], [(10100, ⟨10100, 50, 1⟩)],
            [withFields r3 'T' 'A' 10000 100 3]⟩
        (withFields r4 'F' 'B' 10000 100 1)
        = ⟨[(1, ⟨1, 10000, 100, 'B'⟩), (2, ⟨2, 10100, 50, 'A'⟩)],
            [(10000, ⟨10000, 100, 1⟩)], [(10100, ⟨10100, 50, 1⟩)],
            [withFields r3 'T' 'A' 10000 100 3, withFields r4 'F' 'B' 10000 100 1]⟩ :=
      processRecord_of_fill _ _ rfl
    have s6 : processRecord ⟨[(1, ⟨1, 10000, 100, 'B'⟩), (2, ⟨2, 10100, 50, 'A'⟩)],
            [(10000, ⟨10000, 100, 1⟩)], [(10100, ⟨10100, 50, 1⟩)],
            [withFields r3 'T' 'A' 10000 100 3, withFields r4 'F' 'B' 10000 100 1]⟩
        (withFields r5 'C' 'B' 10000 100 1)
        = ⟨[(2, ⟨2, 10100, 50, 'A'⟩)], [], [(10100, ⟨10100, 50, 1⟩)], []⟩ := by
      rw [processRecord_cancel_match_live _ (withFields r5 'C' 'B' 10000 100 1) rfl []
        (withFields r3 'T' 'A' 10000 100 3) (withFields r4 'F' 'B' 10000 100 1) rfl rfl rfl
        ⟨1, 10000, 100, 'B'⟩ (by simp [withFields, mapFind])]
      have w1 : wrapInt32 (-100) = -100 := by decide
      have w2 : wrapInt32 0 = 0 := by decide
      simp [withFields, updatePriceLevel, mapFind, mapErase, w1, w2]
    simp only [runFeed, List.foldl_cons, List.foldl_nil]
    rw [s1, s2, s3, s4, s5, s6]
  rw [e]
  exact ⟨rfl, rfl, by decide, by decide⟩

/-- C16. One snapshot per event: for every list of events the processing loop of
the driver returns exactly as many output rows as there are input events, in
input order, and row i is the rendering, for event i, of the book state obtained
by applying events 0..i (inclusive) to the empty book; this includes Reset
events and Trade events with side None. -/
theorem C16_one_snapshot_per_event (events : List MBORecord) :
    ∃ rows, mainLoop OrderBook.empty 0 events = some rows ∧
      rows.length = events.length ∧
      ∀ (i : Nat) (e : MBORecord), events[i]? = some e →
        rows[i]? = generateMBPOutput (runFeed OrderBook.empty (events.take (i + 1))) e i := by
  obtain ⟨rows, h1, h2, h3⟩ := mainLoop_spec events OrderBook.empty 0
  refine ⟨rows, h1, h2, fun i e he => ?_⟩
  rw [h3 i e he, Int.zero_add]

/-- C17. Snapshot layout: for every book state and triggering event the rendered
record is, joined by commas, thirteen event columns, then sixty level columns,
then the symbol and the order id of the event.  The level columns are the
triples bid i, ask i for i = 0..9: triple i of a side is (price, total size,
order count) of the i-th best level of that side when it exists and the
placeholder (empty price, 0, 0) otherwise; best-first means descending price for
bids and ascending price for asks. -/
theorem C17_snapshot_layout (b : OrderBook) (r : MBORecord) (idx : Int) :
    (∃ eventCols : List String, eventCols.length = 13 ∧
      generateMBPOutput b r idx
        = some (joinComma (eventCols ++ levelColumns b ++ [r.symbol, toString r.order_id]))) ∧
    (levelColumns b).length = 60 ∧
    (∀ i, i < 10 →
      ((levelColumns b).drop (6 * i)).take 3 = levelTriple (bestBids b) i ∧
      ((levelColumns b).drop (6 * i + 3)).take 3 = levelTriple (bestAsks b) i) ∧
    (∀ (levels : List PriceLevel) (i : Nat) (l : PriceLevel), levels[i]? = some l →
      levelTriple levels i
        = [formatPrice l.price, toString l.total_size, toString l.order_count]) ∧
    (∀ (levels : List PriceLevel) (i : Nat), levels[i]? = none →
      levelTriple levels i = ["", "0", "0"]) ∧
    (KeysAscending b.bids → LevelsKeyed b.bids →
      (bestBids b).Pairwise (fun x y => y.price < x.price)) ∧
    (KeysAscending b.asks → LevelsKeyed b.asks →
      (bestAsks b).Pairwise (fun x y => x.price < y.price)) := by
  refine ⟨⟨_, ?_, generateMBPOutput_eq b r idx⟩, levelColumns_length b,
    fun i hi => ⟨levelColumns_bid b i hi, levelColumns_ask b i hi⟩, ?_, ?_,
    levels_descending_prices b.bids, levels_ascending_prices b.asks⟩
  · rfl
  · intro levels i l h
    simp [levelTriple, h]
  · intro levels i h
    simp [levelTriple, h]

set_option maxRecDepth 100000 in
/-- C18, failing input. The row rendered for the event Add(id 3, A, 101.00, 50) on
a book with one bid and one ask level, with row index 5, starts with the receipt
timestamp and has 75 comma-separated fields, while the header written by the
driver has 76: the row index is not written, and the row is the same for every
row index. -/
theorem C18_row_lacks_index_column :
    generateMBPOutput sampleBook (ev 'A' 'A' 10100 50 3) 5
      = some "2025-01-01T10:00:00Z,2025-01-01T10:00:00Z,10,2,1108,A,A,0,101.00,50,130,165200,851012,100.00,300,2,101.00,50,1,,0,0,,0,0,,0,0,,0,0,,0,0,,0,0,,0,0,,0,0,,0,0,,0,0,,0,0,,0,0,,0,0,,0,0,,0,0,,0,0,,0,0,,0,0,TEST,3" ∧
    (generateMBPOutput sampleBook (ev 'A' 'A' 10100 50 3) 5).map fieldCount = some 75 ∧
    fieldCount csvHeader = 76 ∧
    generateMBPOutput sampleBook (ev 'A' 'A' 10100 50 3) 5
      = generateMBPOutput sampleBook (ev 'A' 'A' 10100 50 3) 0 := by
  refine ⟨?_, ?_, ?_, rfl⟩ <;> decide

set_option maxRecDepth 100000 in
/-- C19, counterexample. The event has record type 160, but the record type
column of its rendered row (the third column) carries 10. -/
theorem C19_counterexample :
    (ev 'R' 'N' 0 0 0).rtype = 160 ∧
    generateMBPOutput OrderBook.empty (ev 'R' 'N' 0 0 0) 0
      = some (joinComma (["2025-01-01T10:00:00Z", "2025-01-01T10:00:00Z", "10", "2", "1108",
          "R", "N", "0", "0.00", "0", "130", "165200", "851012"]
          ++ levelColumns OrderBook.empty ++ ["TEST", "0"])) ∧
    toString (ev 'R' 'N' 0 0 0).rtype ≠ "10" := by
  refine ⟨?_, ?_, ?_⟩ <;> decide

/-- C19, amended. For every book state and triggering event, the event columns of
the rendered record carry, in this order: the receipt timestamp, the exchange
timestamp, the constant 10 in the record type column (not the record type of the
event), the publisher id, the instrument id, the action, the side, the constant
0 in the depth column, the price with two decimals, the size, the flags, the
delta time and the sequence of the triggering event; and, after the level
columns, its symbol and its order id. -/
theorem C19_event_columns (b : OrderBook) (r : MBORecord) (idx : Int) :
    generateMBPOutput b r idx = some (joinComma (
      [r.ts_recv, r.ts_event, "10", toString r.publisher_id, toString r.instrument_id,
       r.action.toString, r.side.toString, "0", formatPrice r.price, toString r.size,
       toString r.flags, toString r.ts_in_delta, toString r.sequence]
      ++ levelColumns b ++ [r.symbol, toString r.order_id])) :=
  generateMBPOutput_eq b r idx

/-- C20. Cancel ignores the price, side and size of the event: any two
Cancel-coded events that carry the same order id, however they differ in their
other fields, produce the same order map and the same bid and ask level maps. -/
theorem C20_cancel_ignores_own_fields (b : OrderBook) (r1 r2 : MBORecord)
    (h1 : r1.action = 'C') (h2 : r2.action = 'C') (hid : r1.order_id = r2.order_id) :
    (processRecord b r1).orders = (processRecord b r2).orders ∧
    (processRecord b r1).bids = (processRecord b r2).bids ∧
    (processRecord b r1).asks = (processRecord b r2).asks := by
  cases hm : endsTradeFill b.pending_sequence with
  | false =>
    cases ho : mapFind b.orders r1.order_id with
    | none =>
      rw [processRecord_cancel_nomatch_dead b r1 h1 hm ho,
        processRecord_cancel_nomatch_dead b r2 h2 hm (hid ▸ ho)]
      exact ⟨rfl, rfl, rfl⟩
    | some o =>
      rw [processRecord_cancel_nomatch_live b r1 o h1 hm ho,
        processRecord_cancel_nomatch_live b r2 o h2 hm (hid ▸ ho), hid]
      exact ⟨rfl, rfl, rfl⟩
  | true =>
    obtain ⟨pre, t, f, hp, ht, hf⟩ := endsTradeFill_split _ hm
    cases ho : mapFind b.orders f.order_id with
    | none =>
      rw [processRecord_cancel_match_dead b r1 h1 pre t f hp ht hf ho,
        processRecord_cancel_match_dead b r2 h2 pre t f hp ht hf ho]
      exact ⟨rfl, rfl, rfl⟩
    | some o =>
      rw [processRecord_cancel_match_live b r1 h1 pre t f hp ht hf o ho,
        processRecord_cancel_match_live b r2 h2 pre t f hp ht hf o ho]
      exact ⟨rfl, rfl, rfl⟩

theorem C20_cancel_ignores_own_fields_witness :
    (ev 'C' 'B' 10000 100 2).action = 'C' ∧ (ev 'C' 'A' 555 7 2).action = 'C' ∧
    (ev 'C' 'B' 10000 100 2).order_id = (ev 'C' 'A' 555 7 2).order_id ∧
    (processRecord (runFeed OrderBook.empty [ev 'A' 'B' 10000 100 1, ev 'A' 'B' 10000 200 2])
      (ev 'C' 'B' 10000 100 2)).bids = [(10000, ⟨10000, 100, 1⟩)] :=
  ⟨by decide, by decide, by decide,
    (C20_cancel_ignores_own_fields
      (runFeed OrderBook.empty [ev 'A' 'B' 10000 100 1, ev 'A' 'B' 10000 200 2])
      (ev 'C' 'B' 10000 100 2) (ev 'C' 'A' 555 7 2) (by decide) (by decide)
      (by decide)).2.1.trans (by decide)⟩

set_option maxRecDepth 100000 in
/-- C21, failing input. A line with fifteen comma-separated fields in the fixed
order, well-formed numeric fields and a blank last field (the symbol): the
splitter returns fourteen fields, so `parseLine` rejects the line, whatever the
numeric conversions do. -/
theorem C21_blank_last_field_rejected (stoi stol stod : String → Option Int) :
    "2025-01-01T10:00:00Z,2025-01-01T10:00:00Z,160,2,1108,A,B,100.50,100,0,12345,130,165200,851012,".toList.count ','
      + 1 = 15 ∧
    splitCSV "2025-01-01T10:00:00Z,2025-01-01T10:00:00Z,160,2,1108,A,B,100.50,100,0,12345,130,165200,851012,"
      = ["2025-01-01T10:00:00Z", "2025-01-01T10:00:00Z", "160", "2", "1108", "A", "B", "100.50",
         "100", "0", "12345", "130", "165200", "851012"] ∧
    parseLine stoi stol stod
      "2025-01-01T10:00:00Z,2025-01-01T10:00:00Z,160,2,1108,A,B,100.50,100,0,12345,130,165200,851012,"
      = none := by
  refine ⟨by decide, by decide, parseLine_of_few stoi stol stod _ (by decide)⟩

/-- C22, counterexample. The level (INT_MAX = 2147483647, 1 order) updated with
the deltas (+1, +1): both exact sums, 2147483648 and 2, are positive, yet the
`int` total overflows to a negative value and the level is deleted. -/
theorem C22_counterexample :
    mapFind [(10000, (⟨10000, 2147483647, 1⟩ : PriceLevel))] 10000
      = some ⟨10000, 2147483647, 1⟩ ∧
    ¬ ((2147483647 : Int) + 1 ≤ 0 ∨ (1 : Int) + 1 ≤ 0) ∧
    updatePriceLevel [(10000, ⟨10000, 2147483647, 1⟩)] 10000 1 1 = [] ∧
    mapFind (updatePriceLevel [(10000, ⟨10000, 2147483647, 1⟩)] 10000 1 1) 10000 = none := by
  decide

/-- C22, amended. Price-level update primitive: for every level map, price, size
delta and count delta, `updatePriceLevel` (i) when a level exists at the price,
adds both deltas to it in 32-bit `int` arithmetic and deletes it iff the
resulting total size or order count is <= 0, keeping it with the resulting
totals otherwise; when both exact sums fit in an `int` (from INT_MIN to INT_MAX)
the resulting totals are the exact sums; (ii) when no level exists and both
deltas are > 0, inserts a level with those deltas as its totals; (iii) otherwise
changes nothing; and in every case leaves the levels at all other prices
unchanged. -/
theorem C22_updatePriceLevel_cases (m : Table PriceLevel) (p sd cd : Int) :
    (∀ l, mapFind m p = some l →
      (wrapInt32 (l.total_size + sd) ≤ 0 ∨ wrapInt32 (l.order_count + cd) ≤ 0) →
      mapFind (updatePriceLevel m p sd cd) p = none) ∧
    (∀ l, mapFind m p = some l →
      ¬ (wrapInt32 (l.total_size + sd) ≤ 0 ∨ wrapInt32 (l.order_count + cd) ≤ 0) →
      mapFind (updatePriceLevel m p sd cd) p
        = some ⟨l.price, wrapInt32 (l.total_size + sd), wrapInt32 (l.order_count + cd)⟩) ∧
    (∀ l, mapFind m p = some l →
      -2147483648 ≤ l.total_size + sd → l.total_size + sd < 2147483648 →
      -2147483648 ≤ l.order_count + cd → l.order_count + cd < 2147483648 →
      mapFind (updatePriceLevel m p sd cd) p
        = if l.total_size + sd ≤ 0 ∨ l.order_count + cd ≤ 0 then none
          else some ⟨l.price, l.total_size + sd, l.order_count + cd⟩) ∧
    (mapFind m p = none → 0 < sd → 0 < cd →
      mapFind (updatePriceLevel m p sd cd) p = some ⟨p, sd, cd⟩) ∧
    (mapFind m p = none → ¬ (0 < sd ∧ 0 < cd) → updatePriceLevel m p sd cd = m) ∧
    (∀ q, q ≠ p → mapFind (updatePriceLevel m p sd cd) q = mapFind m q) := by
  refine ⟨?_, ?_, ?_, ?_, ?_, fun q hq => mapFind_updatePriceLevel_other m p sd cd q hq⟩
  · intro l hl hdel
    rw [mapFind_updatePriceLevel_self, hl]
    dsimp only
    rw [if_pos (Or.symm hdel)]
  · intro l hl hkeep
    rw [mapFind_updatePriceLevel_self, hl]
    dsimp only
    rw [if_neg (fun h => hkeep (Or.symm h))]
  · intro l hl t1 t2 c1 c2
    rw [mapFind_updatePriceLevel_self, hl]
    dsimp only
    rw [wrapInt32_of_range _ t1 t2, wrapInt32_of_range _ c1 c2]
    by_cases h : l.total_size + sd ≤ 0 ∨ l.order_count + cd ≤ 0
    · rw [if_pos (Or.symm h), if_pos h]
    · rw [if_neg (fun h2 => h (Or.symm h2)), if_neg h]
  · intro hn hsd hcd
    rw [mapFind_updatePriceLevel_self, hn]
    dsimp only
    rw [if_pos ⟨hsd, hcd⟩]
  · intro hn hnot
    unfold updatePriceLevel
    rw [hn]
    dsimp only
    rw [if_neg hnot]

theorem C22_updatePriceLevel_cases_witness :
    mapFind [(10000, (⟨10000, 300, 2⟩ : PriceLevel))] 10000 = some ⟨10000, 300, 2⟩ ∧
    mapFind (updatePriceLevel [(10000, ⟨10000, 300, 2⟩)] 10000 (-100) (-1)) 10000
      = some ⟨10000, 200, 1⟩ :=
  ⟨by decide,
    ((C22_updatePriceLevel_cases [(10000, ⟨10000, 300, 2⟩)] 10000 (-100) (-1)).2.2.1
      ⟨10000, 300, 2⟩ (by decide) (by decide) (by decide) (by decide) (by decide)).trans
      (by decide)⟩

/-- C23. Pattern-match resolution step: for every book state whose pending buffer
ends with a Trade entry followed by a Fill entry, processing any Cancel-coded
event leaves the old buffer without those two entries (and without the event),
and changes the book only by removing the order named by the order id of the
Fill entry, if live, and debiting the level at the stored price of that order on
the side of the Fill entry by the stored size and one order; the result depends
on the three events only through the order id and the side of the Fill. -/
theorem C23_pattern_match_resolution (b : OrderBook) (r : MBORecord) (pre : List MBORecord)
    (t f : MBORecord) (hb : b.pending_sequence = pre ++ [t, f]) (ht : t.action = 'T')
    (hf : f.action = 'F') (ha : r.action = 'C') :
    (processRecord b r).pending_sequence = pre ∧
    (mapFind b.orders f.order_id = none →
      (processRecord b r).orders = b.orders ∧ (processRecord b r).bids = b.bids ∧
      (processRecord b r).asks = b.asks) ∧
    (∀ o, mapFind b.orders f.order_id = some o →
      mapFind (processRecord b r).orders f.order_id = none ∧
      (∀ k, k ≠ f.order_id → mapFind (processRecord b r).orders k = mapFind b.orders k) ∧
      mapFind (levelsOn (processRecord b r) f.side) o.price
        = debited (mapFind (levelsOn b f.side) o.price) o.size ∧
      (∀ q, q ≠ o.price →
        mapFind (levelsOn (processRecord b r) f.side) q = mapFind (levelsOn b f.side) q) ∧
      (∀ s, s ≠ f.side → levelsOn (processRecord b r) s = levelsOn b s)) ∧
    (∀ (b2 : OrderBook) (r2 t2 f2 : MBORecord) (pre2 : List MBORecord),
      b2.orders = b.orders → b2.bids = b.bids → b2.asks = b.asks →
      b2.pending_sequence = pre2 ++ [t2, f2] → t2.action = 'T' → f2.action = 'F' →
      r2.action = 'C' → f2.order_id = f.order_id → f2.side = f.side →
      (processRecord b2 r2).orders = (processRecord b r).orders ∧
      (processRecord b2 r2).bids = (processRecord b r).bids ∧
      (processRecord b2 r2).asks = (processRecord b r).asks) := by
  refine ⟨?_, ?_, ?_, ?_⟩
  · cases ho : mapFind b.orders f.order_id with
    | none => rw [processRecord_cancel_match_dead b r ha pre t f hb ht hf ho]
    | some o => rw [processRecord_cancel_match_live b r ha pre t f hb ht hf o ho]
  · intro ho
    rw [processRecord_cancel_match_dead b r ha pre t f hb ht hf ho]
    exact ⟨rfl, rfl, rfl⟩
  · intro o ho
    exact removal_effect b f.order_id o f.side pre (processRecord b r)
      (processRecord_cancel_match_live b r ha pre t f hb ht hf o ho)
  · intro b2 r2 t2 f2 pre2 h1 h2 h3 hb2 ht2 hf2 ha2 hid hside
    cases ho : mapFind b.orders f.order_id with
    | none =>
      rw [processRecord_cancel_match_dead b r ha pre t f hb ht hf ho,
        processRecord_cancel_match_dead b2 r2 ha2 pre2 t2 f2 hb2 ht2 hf2
          (by rw [h1, hid]; exact ho)]
      exact ⟨h1, h2, h3⟩
    | some o =>
      rw [processRecord_cancel_match_live b r ha pre t f hb ht hf o ho,
        processRecord_cancel_match_live b2 r2 ha2 pre2 t2 f2 hb2 ht2 hf2 o
          (by rw [h1, hid]; exact ho)]
      simp [h1, h2, h3, hid, hside]

theorem C23_pattern_match_resolution_witness :
    sampleBook.pending_sequence = [] ++ [ev 'T' 'A' 10000 100 9, ev 'F' 'B' 10000 100 1] ∧
    (ev 'T' 'A' 10000 100 9).action = 'T' ∧ (ev 'F' 'B' 10000 100 1).action = 'F' ∧
    (ev 'C' 'B' 10000 100 1).action = 'C' ∧
    (processRecord sampleBook (ev 'C' 'B' 10000 100 1)).pending_sequence = [] :=
  ⟨by decide, by decide, by decide, by decide,
    (C23_pattern_match_resolution sampleBook (ev 'C' 'B' 10000 100 1) []
      (ev 'T' 'A' 10000 100 9) (ev 'F' 'B' 10000 100 1) (by decide) (by decide) (by decide)
      (by decide)).1⟩

/-- C24. No-match step and fallback: for every book state and every Trade (side
not None), Fill or Cancel-coded event for which the last three buffer entries
after the append are not (Trade, Fill, Cancel), the new buffer is the old buffer
with the event appended; for a Trade or Fill the order map and the level maps
are unchanged; for a Cancel-coded event the order map and the level maps are
exactly those produced by a standalone cancel (`cancelOrder`) of the event. -/
theorem C24_no_match_step (b : OrderBook) (r : MBORecord)
    (hact : (r.action = 'T' ∧ r.side ≠ 'N') ∨ r.action = 'F' ∨ r.action = 'C')
    (hno : lastThreeAreTFC (b.pending_sequence ++ [r]) = false) :
    (processRecord b r).pending_sequence = b.pending_sequence ++ [r] ∧
    (r.action = 'T' ∨ r.action = 'F' →
      (processRecord b r).orders = b.orders ∧ (processRecord b r).bids = b.bids ∧
      (processRecord b r).asks = b.asks) ∧
    (r.action = 'C' →
      (processRecord b r).orders = (cancelOrder b r).orders ∧
      (processRecord b r).bids = (cancelOrder b r).bids ∧
      (processRecord b r).asks = (cancelOrder b r).asks) := by
  rcases hact with ⟨hT, hs⟩ | hF | hC
  · rw [processRecord_of_trade b r hT hs]
    refine ⟨rfl, fun _ => ⟨rfl, rfl, rfl⟩, fun hC => ?_⟩
    rw [hT] at hC
    exact absurd hC (by decide)
  · rw [processRecord_of_fill b r hF]
    refine ⟨rfl, fun _ => ⟨rfl, rfl, rfl⟩, fun hC => ?_⟩
    rw [hF] at hC
    exact absurd hC (by decide)
  · have hm : endsTradeFill b.pending_sequence = false := by
      rw [lastThreeAreTFC_append] at hno
      simpa [hC] using hno
    have hTF : ¬ (r.action = 'T' ∨ r.action = 'F') := by
      rw [hC]; decide
    cases ho : mapFind b.orders r.order_id with
    | none =>
      rw [processRecord_cancel_nomatch_dead b r hC hm ho, cancelOrder_of_dead b r ho]
      exact ⟨rfl, fun h => absurd h hTF, fun _ => ⟨rfl, rfl, rfl⟩⟩
    | some o =>
      rw [processRecord_cancel_nomatch_live b r o hC hm ho, cancelOrder_of_live b r o ho]
      exact ⟨rfl, fun h => absurd h hTF, fun _ => ⟨rfl, rfl, rfl⟩⟩

theorem C24_no_match_step_witness :
    (ev 'C' 'B' 10000 100 1).action = 'C' ∧
    lastThreeAreTFC ((runFeed OrderBook.empty
      [ev 'A' 'B' 10000 100 1, ev 'F' 'B' 10000 100 1]).pending_sequence
      ++ [ev 'C' 'B' 10000 100 1]) = false ∧
    (processRecord (runFeed OrderBook.empty [ev 'A' 'B' 10000 100 1, ev 'F' 'B' 10000 100 1])
      (ev 'C' 'B' 10000 100 1)).pending_sequence
      = [ev 'F' 'B' 10000 100 1, ev 'C' 'B' 10000 100 1] :=
  ⟨by decide, by decide,
    (C24_no_match_step (runFeed OrderBook.empty
      [ev 'A' 'B' 10000 100 1, ev 'F' 'B' 10000 100 1]) (ev 'C' 'B' 10000 100 1)
      (Or.inr (Or.inr (by decide))) (by decide)).1.trans (by decide)⟩

/-- C25. Removal is idempotent: for every book state, applying `cancelOrder` with
the same event twice gives the same book (order map, level maps) as applying it
once, and applying `handleTradeSequence` with the same sequence twice gives the
same book as applying it once: the second removal finds no order and debits no
level. -/
theorem C25_removal_idempotent (b : OrderBook) (r : MBORecord) (sequence : List MBORecord) :
    cancelOrder (cancelOrder b r) r = cancelOrder b r ∧
    handleTradeSequence (handleTradeSequence b sequence) sequence
      = handleTradeSequence b sequence :=
  ⟨cancelOrder_idem b r, handleTradeSequence_idem b sequence⟩

/-- C26. Zero-size add creates no level: for every book state in which no level
exists at price p on side s (B or A; for any other side code no level map is
selected at all), applying an Add event with side s, price p and size 0 leaves
both level maps unchanged, while the order is nevertheless recorded in the order
map. -/
theorem C26_zero_size_add (b : OrderBook) (r : MBORecord) (ha : r.action = 'A')
    (hz : r.size = 0)
    (hnone : mapFind (levelsOn b r.side) r.price = none) :
    (processRecord b r).bids = b.bids ∧ (processRecord b r).asks = b.asks ∧
    mapFind (processRecord b r).orders r.order_id
      = some ⟨r.order_id, r.price, r.size, r.side⟩ := by
  rw [processRecord_of_add b r ha]
  have hupd : ∀ m : Table PriceLevel, mapFind m r.price = none →
      updatePriceLevel m r.price r.size 1 = m := by
    intro m hm
    unfold updatePriceLevel
    rw [hm]
    dsimp only
    rw [if_neg (by omega)]
  refine ⟨?_, ?_, by simp [addOrder_orders, mapFind_mapAssign]⟩
  · rw [addOrder_bids]
    split_ifs with h
    · apply hupd
      simpa [levelsOn, h] using hnone
    · rfl
  · rw [addOrder_asks]
    split_ifs with h
    · apply hupd
      have hB : r.side ≠ 'B' := by rw [h]; decide
      simpa [levelsOn, h] using hnone
    · rfl

theorem C26_zero_size_add_witness :
    (ev 'A' 'B' 9900 0 7).action = 'A' ∧ (ev 'A' 'B' 9900 0 7).size = 0 ∧
    mapFind (levelsOn sampleBook (ev 'A' 'B' 9900 0 7).side) (ev 'A' 'B' 9900 0 7).price
      = none ∧
    (processRecord sampleBook (ev 'A' 'B' 9900 0 7)).bids = [(10000, ⟨10000, 300, 2⟩)] :=
  ⟨by decide, by decide, by decide,
    (C26_zero_size_add sampleBook (ev 'A' 'B' 9900 0 7) (by decide) (by decide)
      (by decide)).1.trans (by decide)⟩

/-- C27, counterexample. The feed of three Adds at one bid price with sizes
INT_MAX = 2147483647, 1 and 5 and fresh order ids is well formed (side B,
size > 0, ids not live).  After the first two events the `int` total has
overflowed and the level is erased, so no level exists although two live orders
are stored there; after the third the level is (5, 1 order) beside three live
orders of total size 2147483653. -/
theorem C27_counterexample :
    (∀ e ∈ [ev 'A' 'B' 10000 2147483647 1, ev 'A' 'B' 10000 1 2, ev 'A' 'B' 10000 5 3],
      e.action = 'A' ∧ e.side = 'B' ∧ 0 < e.size) ∧
    feedOk OrderBook.empty
      [ev 'A' 'B' 10000 2147483647 1, ev 'A' 'B' 10000 1 2, ev 'A' 'B' 10000 5 3] = true ∧
    (mapFind (levelsOn (runFeed OrderBook.empty
      [ev 'A' 'B' 10000 2147483647 1, ev 'A' 'B' 10000 1 2]) 'B') 10000 = none ∧
    orderCnt (runFeed OrderBook.empty
      [ev 'A' 'B' 10000 2147483647 1, ev 'A' 'B' 10000 1 2]).orders 'B' 10000 = 2) ∧
    (mapFind (levelsOn (runFeed OrderBook.empty
      [ev 'A' 'B' 10000 2147483647 1, ev 'A' 'B' 10000 1 2,
       ev 'A' 'B' 10000 5 3]) 'B') 10000 = some ⟨10000, 5, 1⟩ ∧
    sizeSum (runFeed OrderBook.empty
      [ev 'A' 'B' 10000 2147483647 1, ev 'A' 'B' 10000 1 2,
       ev 'A' 'B' 10000 5 3]).orders 'B' 10000 = 2147483653 ∧
    orderCnt (runFeed OrderBook.empty
      [ev 'A' 'B' 10000 2147483647 1, ev 'A' 'B' 10000 1 2,
       ev 'A' 'B' 10000 5 3]).orders 'B' 10000 = 3) := by
  decide

/-- C27, amended. Aggregation invariant under a well-formed feed: if every Add
event has size > 0 and an order id that is not live when it is applied, every
Add event finds, at its side and price, live orders whose sizes plus its own
size, and whose number plus one, do not exceed INT_MAX, and every Fill entry
consumed by a pattern match carries the stored side of the live order it names
(a fortiori when, in addition, every Add has side B or A), then in every state
reached from the empty book, for each side (B or A) and price a level exists iff
at least one live order has that side and price, and then its total size is the
sum of the sizes of those orders and its order count is their number. -/
theorem C27_aggregation_invariant (events : List MBORecord)
    (hok : feedOk OrderBook.empty events = true)
    (hfit : feedFits OrderBook.empty events = true) (side : Char)
    (hs : side = 'B' ∨ side = 'A') (p : Int) :
    ((∃ l, mapFind (levelsOn (runFeed OrderBook.empty events) side) p = some l) ↔
      (∃ k o, mapFind (runFeed OrderBook.empty events).orders k = some o ∧
        o.side = side ∧ o.price = p)) ∧
    (∀ l, mapFind (levelsOn (runFeed OrderBook.empty events) side) p = some l →
      l.total_size = sizeSum (runFeed OrderBook.empty events).orders side p ∧
      l.order_count = orderCnt (runFeed OrderBook.empty events).orders side p) := by
  have h := aggregated_runFeed events OrderBook.empty aggregated_empty hok hfit
  obtain ⟨hpos, htot⟩ := aggregated_side _ h side hs
  have ht := htot p
  constructor
  · rw [← orderCnt_pos_iff _ h.keys]
    constructor
    · rintro ⟨l, hl⟩
      have hl2 := hpos _ (mapFind_mem _ _ _ hl)
      simp only [totals, hl, Prod.mk.injEq] at ht
      rw [← ht.2]
      exact hl2.2
    · intro hc
      cases hl : mapFind (levelsOn (runFeed OrderBook.empty events) side) p with
      | some l => exact ⟨l, rfl⟩
      | none =>
        simp only [totals, hl, Prod.mk.injEq] at ht
        omega
  · intro l hl
    simp only [totals, hl, Prod.mk.injEq] at ht
    exact ht

theorem C27_aggregation_invariant_witness :
    feedOk OrderBook.empty
      [ev 'A' 'B' 10000 100 1, ev 'A' 'B' 10000 200 2, ev 'A' 'A' 10100 50 3,
       ev 'T' 'A' 10000 100 9, ev 'F' 'B' 10000 100 1, ev 'C' 'B' 10000 100 1] = true ∧
    feedFits OrderBook.empty
      [ev 'A' 'B' 10000 100 1, ev 'A' 'B' 10000 200 2, ev 'A' 'A' 10100 50 3,
       ev 'T' 'A' 10000 100 9, ev 'F' 'B' 10000 100 1, ev 'C' 'B' 10000 100 1] = true ∧
    (200 : Int) = sizeSum (runFeed OrderBook.empty
      [ev 'A' 'B' 10000 100 1, ev 'A' 'B' 10000 200 2, ev 'A' 'A' 10100 50 3,
       ev 'T' 'A' 10000 100 9, ev 'F' 'B' 10000 100 1, ev 'C' 'B' 10000 100 1]).orders
      'B' 10000 ∧
    (1 : Int) = orderCnt (runFeed OrderBook.empty
      [ev 'A' 'B' 10000 100 1, ev 'A' 'B' 10000 200 2, ev 'A' 'A' 10100 50 3,
       ev 'T' 'A' 10000 100 9, ev 'F' 'B' 10000 100 1, ev 'C' 'B' 10000 100 1]).orders
      'B' 10000 :=
  ⟨by decide, by decide,
    (C27_aggregation_invariant
      [ev 'A' 'B' 10000 100 1, ev 'A' 'B' 10000 200 2, ev 'A' 'A' 10100 50 3,
       ev 'T' 'A' 10000 100 9, ev 'F' 'B' 10000 100 1, ev 'C' 'B' 10000 100 1]
      (by decide) (by decide) 'B' (Or.inl rfl) 10000).2 ⟨10000, 200, 1⟩ (by decide)⟩

/-- C28. Pending-buffer invariant: in every state reached from the empty book,
every entry of the pending buffer has action T, F or C, no entry is a Trade with
side N, and the buffer contains no three consecutive entries whose actions are
T, F, C. -/
theorem C28_pending_buffer_invariant (events : List MBORecord) :
    (∀ e ∈ (runFeed OrderBook.empty events).pending_sequence,
      (e.action = 'T' ∨ e.action = 'F' ∨ e.action = 'C') ∧
      ¬ (e.action = 'T' ∧ e.side = 'N')) ∧
    (∀ i, ¬ (actionAt (runFeed OrderBook.empty events).pending_sequence i = some 'T' ∧
      actionAt (runFeed OrderBook.empty events).pending_sequence (i + 1) = some 'F' ∧
      actionAt (runFeed OrderBook.empty events).pending_sequence (i + 2) = some 'C')) :=
  pendingOk_runFeed events OrderBook.empty
    ⟨fun _ hx => absurd hx (List.not_mem_nil _),
      fun i hi => by simp [actionAt, OrderBook.empty] at hi⟩

/-- C29, counterexample. The book reached by one Add of size INT_MAX = 2147483647
holds the bid level (INT_MAX, 1 order) and an empty pending buffer.  An Add with
the fresh id 2, side B, the same price and size 1 makes the `int` total
overflow, which erases the level; the Cancel of id 2 then finds no level to
debit.  The order map is restored, but the bid map is left empty. -/
theorem C29_counterexample :
    endsTradeFill (runFeed OrderBook.empty
      [ev 'A' 'B' 10000 2147483647 1]).pending_sequence = false ∧
    mapFind (runFeed OrderBook.empty [ev 'A' 'B' 10000 2147483647 1]).orders 2 = none ∧
    (runFeed OrderBook.empty [ev 'A' 'B' 10000 2147483647 1]).bids
      = [(10000, ⟨10000, 2147483647, 1⟩)] ∧
    (runFeed (runFeed OrderBook.empty [ev 'A' 'B' 10000 2147483647 1])
      [ev 'A' 'B' 10000 1 2, ev 'C' 'B' 10000 1 2]).bids = [] ∧
    (runFeed (runFeed OrderBook.empty [ev 'A' 'B' 10000 2147483647 1])
      [ev 'A' 'B' 10000 1 2, ev 'C' 'B' 10000 1 2]).bids
      ≠ (runFeed OrderBook.empty [ev 'A' 'B' 10000 2147483647 1]).bids := by
  decide

/-- C29, amended. Add then Cancel round trip: for every book state reached from
the empty book whose pending buffer does not end with a Trade entry followed by
a Fill entry, and every order id not live in that state, applying an Add event
with that id and size > 0 (side B or A; any other side code touches no level at
all), such that a level existing at the side and price of the Add has a total
size plus the size of the Add, and an order count plus one, of at most INT_MAX,
and then a Cancel-coded event with the same id restores the order map and both
level maps to exactly what they were before the Add. -/
theorem C29_add_cancel_round_trip (events : List MBORecord) (a c : MBORecord)
    (hbuf : endsTradeFill (runFeed OrderBook.empty events).pending_sequence = false)
    (hfresh : mapFind (runFeed OrderBook.empty events).orders a.order_id = none)
    (ha : a.action = 'A') (hsize : 0 < a.size)
    (hfit : ∀ l, mapFind (levelsOn (runFeed OrderBook.empty events) a.side) a.price = some l →
      l.total_size + a.size < 2147483648 ∧ l.order_count + 1 < 2147483648)
    (hc : c.action = 'C') (hid : c.order_id = a.order_id) :
    (runFeed (runFeed OrderBook.empty events) [a, c]).orders
      = (runFeed OrderBook.empty events).orders ∧
    (runFeed (runFeed OrderBook.empty events) [a, c]).bids
      = (runFeed OrderBook.empty events).bids ∧
    (runFeed (runFeed OrderBook.empty events) [a, c]).asks
      = (runFeed OrderBook.empty events).asks := by
  have hsorted := sorted_runFeed events OrderBook.empty
    ⟨List.Pairwise.nil, List.Pairwise.nil, List.Pairwise.nil⟩
  have hpos := levelsPositive_runFeed events OrderBook.empty
    ⟨fun _ hx => absurd hx (List.not_mem_nil _), fun _ hx => absurd hx (List.not_mem_nil _)⟩
  generalize runFeed OrderBook.empty events = b at hbuf hfresh hfit hsorted hpos ⊢
  have hlive : mapFind (addOrder b a).orders c.order_id
      = some ⟨a.order_id, a.price, a.size, a.side⟩ := by
    rw [addOrder_orders, hid, mapFind_mapAssign, if_pos rfl]
  have hbuf2 : endsTradeFill (addOrder b a).pending_sequence = false := by
    rw [addOrder_pending]; exact hbuf
  simp only [runFeed, List.foldl_cons, List.foldl_nil]
  rw [processRecord_of_add b a ha,
    processRecord_cancel_nomatch_live (addOrder b a) c _ hc hbuf2 hlive]
  dsimp only
  rw [addOrder_orders, addOrder_bids, addOrder_asks, hid]
  refine ⟨mapErase_mapAssign_fresh _ _ _ hfresh, ?_, ?_⟩
  · by_cases hB : a.side = 'B'
    · rw [if_pos hB, if_pos hB]
      have hfitB : ∀ l, mapFind b.bids a.price = some l →
          l.total_size + a.size < 2147483648 ∧ l.order_count + 1 < 2147483648 := by
        intro l hl
        refine hfit l ?_
        simp only [levelsOn, hB, if_true]
        exact hl
      exact updatePriceLevel_round_trip _ hsorted.2.1 hpos.1 _ _ hsize hfitB
    · rw [if_neg hB, if_neg hB]
  · by_cases hA : a.side = 'A'
    · rw [if_pos hA, if_pos hA]
      have hfitA : ∀ l, mapFind b.asks a.price = some l →
          l.total_size + a.size < 2147483648 ∧ l.order_count + 1 < 2147483648 := by
        intro l hl
        refine hfit l ?_
        simp only [levelsOn, hA, show ¬ ('A' = 'B') from by decide, if_false, if_true]
        exact hl
      exact updatePriceLevel_round_trip _ hsorted.2.2 hpos.2 _ _ hsize hfitA
    · rw [if_neg hA, if_neg hA]

theorem C29_add_cancel_round_trip_witness :
    endsTradeFill (runFeed OrderBook.empty
      [ev 'A' 'B' 10000 100 1, ev 'A' 'A' 10100 50 3]).pending_sequence = false ∧
    mapFind (runFeed OrderBook.empty
      [ev 'A' 'B' 10000 100 1, ev 'A' 'A' 10100 50 3]).orders (ev 'A' 'B' 10000 30 7).order_id
      = none ∧
    (ev 'A' 'B' 10000 30 7).action = 'A' ∧ 0 < (ev 'A' 'B' 10000 30 7).size ∧
    mapFind (levelsOn (runFeed OrderBook.empty
      [ev 'A' 'B' 10000 100 1, ev 'A' 'A' 10100 50 3]) 'B') 10000 = some ⟨10000, 100, 1⟩ ∧
    (ev 'C' 'N' 0 0 7).action = 'C' ∧
    (ev 'C' 'N' 0 0 7).order_id = (ev 'A' 'B' 10000 30 7).order_id ∧
    (runFeed (runFeed OrderBook.empty [ev 'A' 'B' 10000 100 1, ev 'A' 'A' 10100 50 3])
      [ev 'A' 'B' 10000 30 7, ev 'C' 'N' 0 0 7]).bids = [(10000, ⟨10000, 100, 1⟩)] :=
  ⟨by decide, by decide, by decide, by decide, by decide, by decide, by decide,
    (C29_add_cancel_round_trip [ev 'A' 'B' 10000 100 1, ev 'A' 'A' 10100 50 3]
      (ev 'A' 'B' 10000 30 7) (ev 'C' 'N' 0 0 7) (by decide) (by decide) (by decide)
      (by decide)
      (fun l hl => by
        have e : l = ⟨10000, 100, 1⟩ :=
          Option.some.inj (hl.symm.trans (by decide))
        subst e
        decide)
      (by decide) (by decide)).2.1.trans (by decide)⟩

/-- C30. Field splitting: for every line containing k commas, `splitCSV` returns
k + 1 fields when the line is non-empty and does not end with a comma, and k
fields when the line is empty or ends with a comma (a trailing empty field is
dropped); in the first case joining the returned fields with commas reproduces
the line. -/
theorem C30_field_splitting (line : String) :
    (line ≠ "" ∧ (¬ ∃ pre, line.toList = pre ++ [',']) →
      (splitCSV line).length = line.toList.count ',' + 1 ∧
      joinComma (splitCSV line) = line) ∧
    (line = "" ∨ (∃ pre, line.toList = pre ++ [',']) →
      (splitCSV line).length = line.toList.count ',') := by
  have h := splitCSV_spec line
  constructor
  · rintro ⟨hne, hnot⟩
    have hnil : line.toList ≠ [] := fun hd => hne (String.ext hd)
    have he : endsWithComma line.toList = false := by
      cases hc : endsWithComma line.toList with
      | false => rfl
      | true => exact absurd ((endsWithComma_iff _).mp hc) hnot
    exact h.2.1 hnil he
  · rintro (hempty | hends)
    · subst hempty
      decide
    · exact h.2.2 ((endsWithComma_iff _).mpr hends)

end MBO
